import Mathlib

/-!
# The request-to-struct binder of `echo` (binder.go)

A shallow embedding of `SplitJson` and `NamedStructMap` together with the
parts of the Go standard library they call (`strings`, `strconv`, `reflect`).

Conventions of the embedding

* A Go string is a `List Char`.  The embedding is exact for ASCII strings,
  where the byte offsets used by `for i, r := range s`, `s[i-1]` and
  `s[begin:end+1]` coincide with positions in the list.
* A panic of the Go code is the result `Outcome.panic`; a normal return is
  `Outcome.ok` of the target as the call leaves it.
* `data map[string][]string` is the list of its key/values pairs in the order
  in which `range data` visits them.
* Struct types have no embedded (anonymous) fields, so `FieldByName` is a
  lookup among the direct fields.
* `int` and `uint` are 64 bits wide (`strconv.IntSize = 64`).
* The logger only receives messages: a `Warnf` call has no effect on the
  target.  The one argument of a `Warnf` call that can itself panic,
  `value.Interface()`, is modelled.
* A pointer field owns what it points to (the target is a tree).
* `FromString` of a struct that implements `FromConversion` is called on the
  copy that `tv.Interface()` returns; it is taken to return normally and the
  field keeps its value.
* The tag inspector `tagfast.Value`, the variable `DefaultHtmlFilter`,
  `strconv.ParseFloat` and `time.Parse` are parameters (`Env`).
-/

namespace Echo

/-- A Go string, as the list of its (ASCII) characters. -/
abbrev GoString := List Char

/-- Whether every character of `s` is an ASCII character, one byte of the Go
string: on such strings byte offsets are positions in the list. -/
def isASCII (s : GoString) : Bool :=
  s.all (fun c => c.toNat < 128)

/-! ## package strings -/

/-- The Go slice expression `s[lo:hi]`. -/
def substr (s : GoString) (lo hi : Nat) : GoString :=
  (s.take hi).drop lo

/-- Go `strings.HasPrefix`. -/
def HasPrefix (s pre : GoString) : Bool :=
  s.take pre.length == pre

/-- Go `strings.Split(s, sep)` for a one-character separator: the pieces of
`s` between the occurrences of `sep`; never the empty list. -/
def Split (s : GoString) (sep : Char) : List GoString :=
  match s with
  | [] => [[]]
  | c :: r =>
    if c = sep then [] :: Split r sep
    else
      match Split r sep with
      | [] => [[c]]
      | h :: t => (c :: h) :: t

/-- Go `strings.isSeparator` on ASCII: letters, digits and the underscore
are not separators, every other ASCII character is.  (A non-ASCII character
is treated as a letter.) -/
def isSeparator (r : Char) : Bool :=
  if r.toNat ≤ 0x7F then
    !(r.isDigit || r.isLower || r.isUpper || r = '_')
  else false

/-- The mapping function of `strings.Title`: `prev` is the character before
the current one. -/
def titleFrom (prev : Char) : GoString → GoString
  | [] => []
  | r :: rest =>
    (if isSeparator prev then r.toUpper else r) :: titleFrom r rest

/-- Go `strings.Title`: the first letter of every word in upper case. -/
def Title (s : GoString) : GoString :=
  titleFrom ' ' s

/-! ## package strconv -/

/-- The width of `int` and `uint`, `strconv.IntSize`. -/
def IntSize : Nat := 64

/-- The value of a run of decimal digits read after the value `acc`, or
`none` when a character is not a decimal digit. -/
def parseDigits : GoString → Nat → Option Nat
  | [], acc => some acc
  | c :: r, acc =>
    if c.isDigit then parseDigits r (acc * 10 + (c.toNat - '0'.toNat)) else none

/-- Go `strconv.ParseUint(s, 10, bitSize)`: `none` stands for a non-nil
error (syntax or range). -/
def ParseUint (s : GoString) (bitSize : Nat) : Option Nat :=
  if s = [] then none
  else
    let bitSize := if bitSize = 0 then IntSize else bitSize
    match parseDigits s 0 with
    | none => none
    | some n => if n < 2 ^ bitSize then some n else none

/-- Go `strconv.ParseInt(s, 10, bitSize)`: an optional sign and decimal
digits, within the range of a signed integer of `bitSize` bits;
`none` stands for a non-nil error. -/
def ParseInt (s : GoString) (bitSize : Nat) : Option Int :=
  match s with
  | [] => none
  | c :: r =>
    let neg := c = '-'
    let body := if c = '+' ∨ c = '-' then r else s
    match ParseUint body bitSize with
    | none => none
    | some un =>
      let bitSize := if bitSize = 0 then IntSize else bitSize
      let cutoff := 2 ^ (bitSize - 1)
      if ¬ neg ∧ un ≥ cutoff then none
      else if neg ∧ un > cutoff then none
      else some (if neg then - (un : Int) else (un : Int))

/-- Go `strconv.Atoi`: `ParseInt(s, 10, 0)` as an `int`. -/
def Atoi (s : GoString) : Option Int :=
  ParseInt s 0

/-- Go `strconv.ParseBool`. -/
def ParseBool (s : GoString) : Option Bool :=
  if s ∈ ["1".toList, "t".toList, "T".toList, "TRUE".toList, "true".toList, "True".toList] then
    some true
  else if s ∈ ["0".toList, "f".toList, "F".toList, "FALSE".toList, "false".toList,
      "False".toList] then
    some false
  else none

/-! ## SplitJson (binder.go, lines 82-118) -/

/-- The local variables of `SplitJson`. -/
structure SplitState where
  res : List GoString
  begin_ : Nat
  end_ : Nat
  isleft : Bool
deriving DecidableEq, Repr

/-- One iteration of the loop of `SplitJson` at offset `i` with character
`r`; `none` is the return of `errors.New("unknow character")`. -/
def splitStep (s : GoString) (i : Nat) (r : Char) (st : SplitState) : Option SplitState :=
  let st? : Option SplitState :=
    if r = '[' then
      if i > 0 ∧ s[i - 1]? ≠ some ']' then
        if st.begin_ = st.end_ then none
        else some ⟨st.res ++ [substr s st.begin_ (st.end_ + 1)], i + 1, i + 1, true⟩
      else some ⟨st.res, i + 1, i + 1, true⟩
    else if r = ']' then
      if ¬ st.isleft then none
      else if st.begin_ ≠ st.end_ then
        some ⟨st.res ++ [substr s st.begin_ (st.end_ + 1)], i + 1, i + 1, false⟩
      else some ⟨st.res, st.begin_, st.end_, false⟩
    else some ⟨st.res, st.begin_, i, st.isleft⟩
  match st? with
  | none => none
  | some st1 =>
    if i = s.length - 1 ∧ st1.begin_ ≠ st1.end_ then
      some { st1 with res := st1.res ++ [substr s st1.begin_ (st1.end_ + 1)] }
    else some st1

/-- The loop `for i, r := range s` of `SplitJson`, from offset `i` on, over
the characters `rest` still to be read. -/
def splitLoop (s : GoString) : GoString → Nat → SplitState → Option (List GoString)
  | [], _, st => some st.res
  | r :: rest, i, st =>
    match splitStep s i r st with
    | none => none
    | some st1 => splitLoop s rest (i + 1) st1

/-- The function `SplitJson`: the segments of a bracket key such as
`user[name][test]`, or `none` for the error "unknow character".  The code
counts in byte offsets (`i`, `s[i-1]`, `len(s)-1`, `s[begin:end+1]`); on an
ASCII key these are the positions in the list, and the embedding is exact
there (see `isASCII`).  A key with a multi-byte character is outside it. -/
def SplitJson (s : GoString) : Option (List GoString) :=
  splitLoop s s 0 ⟨[], 0, 0, false⟩

/-! ## package reflect: types and values -/

/-- Go `reflect.Kind`. -/
inductive Kind
  | Invalid | Bool | Int | Int8 | Int16 | Int32 | Int64
  | Uint | Uint8 | Uint16 | Uint32 | Uint64 | Uintptr
  | Float32 | Float64 | Complex64 | Complex128
  | Array | Chan | Func | Interface | Map | Ptr | Slice | String | Struct | UnsafePointer
deriving DecidableEq, Repr

/-- The part of a `reflect.StructField` the binder uses: the field's name
and the key/value pairs of its struct tag.  (The field's type is kept beside
the descriptor, in the field list of the struct type.) -/
structure StructField where
  Name : GoString
  Tag : List (GoString × GoString)
deriving DecidableEq, Repr

/-- The zero `StructField`, the first result of a failed `FieldByName`. -/
def StructField.zero : StructField := ⟨[], []⟩

/-- A Go type, as far as the binder inspects it.

* `basic k defined`: a type of kind `k` that is not a struct, pointer, slice
  or array.  With `defined = false` it is the predeclared type of that kind
  (`string`, `bool`, `int8`, ...); with `defined = true` it is a defined type
  (`type Age int`), which has the same kind but is a different type.
* `time`: the struct type `time.Time`.
* `struct conv fields`: a struct type with its direct fields in order;
  `conv` tells whether the type implements `FromConversion`.
* `ptr`, `slice`, `array`: the composite types with their element type. -/
inductive GoType
  | basic (k : Kind) (defined : Bool)
  | time
  | struct (conv : Bool) (fields : List (StructField × GoType))
  | ptr (elem : GoType)
  | slice (elem : GoType)
  | array (len : Nat) (elem : GoType)
deriving Repr

/-- A `time.Time`: seconds and nanoseconds since January 1, year 1 UTC, and
the zone offset in seconds.  The zero value is that instant in UTC. -/
structure GoTime where
  sec : Int
  nsec : Nat
  offset : Int
deriving DecidableEq, Repr

/-- A Go value, read together with its type.  `float` holds the bits of the
float64 that represents the number; `other` is a value the binder neither
reads nor writes (complex number, map, channel, function, interface). -/
inductive Value
  | bool (b : Bool)
  | int (i : Int)
  | uint (n : Nat)
  | float (bits : Nat)
  | str (s : GoString)
  | time (t : GoTime)
  | struct (fields : List Value)
  | ptr (p : Option Value)
  | slice (elems : Option (List Value))
  | array (elems : List Value)
  | other
deriving Repr

/-- The result of running Go code that may panic. -/
inductive Outcome (α : Type)
  | ok (a : α)
  | panic
deriving Repr

/-- Continue with `f` unless a panic has happened. -/
def Outcome.bind {α β : Type} (o : Outcome α) (f : α → Outcome β) : Outcome β :=
  match o with
  | .ok a => f a
  | .panic => .panic

/-- Apply `f` to the result unless a panic has happened. -/
def Outcome.map {α β : Type} (f : α → β) (o : Outcome α) : Outcome β :=
  match o with
  | .ok a => .ok (f a)
  | .panic => .panic

/-- Go `Type.Kind`. -/
def GoType.Kind : GoType → Echo.Kind
  | .basic k _ => k
  | .time => .Struct
  | .struct _ _ => .Struct
  | .ptr _ => .Ptr
  | .slice _ => .Slice
  | .array _ _ => .Array

/-- Go `Type.Elem`, called by the binder on pointer, slice and array types
only. -/
def GoType.Elem : GoType → GoType
  | .ptr e => e
  | .slice e => e
  | .array _ e => e
  | t => t

/-- Go `Type.Bits`, called by the binder on numeric types only. -/
def GoType.Bits (t : GoType) : Nat :=
  match t.Kind with
  | .Int8 | .Uint8 => 8
  | .Int16 | .Uint16 => 16
  | .Int32 | .Uint32 | .Float32 => 32
  | .Int | .Uint | .Int64 | .Uint64 | .Float64 => 64
  | _ => 0

/-- Whether `t` is the predeclared type of kind `k`: exactly then a value of
that predeclared type is assignable to a variable of type `t`. -/
def GoType.isPredeclared (t : GoType) (k : Echo.Kind) : Bool :=
  match t with
  | .basic k1 false => k1 == k
  | _ => false

mutual
/-- The zero value of a type. -/
def zero : GoType → Value
  | .basic k _ =>
    match k with
    | .Bool => .bool false
    | .Int | .Int8 | .Int16 | .Int32 | .Int64 => .int 0
    | .Uint | .Uint8 | .Uint16 | .Uint32 | .Uint64 | .Uintptr => .uint 0
    | .Float32 | .Float64 => .float 0
    | .String => .str []
    | _ => .other
  | .time => .time ⟨0, 0, 0⟩
  | .struct _ fields => .struct (zeroFields fields)
  | .ptr _ => .ptr none
  | .slice _ => .slice none
  | .array n e => .array (List.replicate n (zero e))
/-- The zero values of the fields of a struct type. -/
def zeroFields : List (StructField × GoType) → List Value
  | [] => []
  | f :: rest => zero f.2 :: zeroFields rest
end

/-- Whether a field name is exported: it begins with an upper-case letter. -/
def isExported (name : GoString) : Bool :=
  match name with
  | [] => false
  | c :: _ => c.isUpper

/-- The position of the first field called `name` in a field list, counted
from `i`; the empty name finds nothing. -/
def fieldIndexFrom (name : GoString) : List (StructField × GoType) → Nat → Option Nat
  | [], _ => none
  | f :: rest, i => if f.1.Name = name then some i else fieldIndexFrom name rest (i + 1)

/-- The position of the field called `name` among the fields of a struct. -/
def fieldIndex (fields : List (StructField × GoType)) (name : GoString) : Option Nat :=
  if name = [] then none else fieldIndexFrom name fields 0

/-- Go `Type.FieldByName`: the descriptor of the field called `name`, the
zero descriptor when there is none, and a panic when the type is not a
struct.  (The fields of `time.Time` are `wall`, `ext` and `loc`; no name that
`strings.Title` returns equals one of them.) -/
def GoType.FieldByName (t : GoType) (name : GoString) : Outcome StructField :=
  match t with
  | .struct _ fields =>
    match fieldIndex fields name with
    | none => .ok StructField.zero
    | some i =>
      match fields[i]? with
      | some f => .ok f.1
      | none => .ok StructField.zero
  | .time => .ok StructField.zero
  | .basic .Struct _ => .ok StructField.zero
  | _ => .panic

/-- A valid `reflect.Value`: the type, the value it refers to, and the flags
that decide `CanSet` (`addr`: addressable, `ro`: reached through an
unexported field).  The zero `reflect.Value` is `RValue.invalid`. -/
structure RValue where
  typ : GoType
  val : Value
  addr : Bool
  ro : Bool
deriving Repr

/-- The zero `reflect.Value`, of kind `Invalid`. -/
def RValue.invalid : RValue := ⟨.basic .Invalid false, .other, false, false⟩

/-- Go `Value.Kind`. -/
def RValue.Kind (v : RValue) : Echo.Kind := v.typ.Kind

/-- Go `Value.CanSet`. -/
def RValue.CanSet (v : RValue) : Bool := v.addr && !v.ro

/-- Go `Value.IsNil` on a pointer or slice. -/
def Value.IsNil : Value → Bool
  | .ptr none => true
  | .slice none => true
  | _ => false

/-- Go `Value.Elem` on a pointer: the value pointed to, addressable; the
zero `reflect.Value` for a nil pointer. -/
def RValue.Elem (v : RValue) : RValue :=
  match v.val with
  | .ptr (some x) => ⟨v.typ.Elem, x, true, v.ro⟩
  | _ => RValue.invalid

/-- Go `Value.FieldByName` on a struct whose type has no embedded fields:
the position of the field and the field itself, or `none` for the zero
`reflect.Value` (no such field).  (Fields promoted from an embedded struct
are outside the embedding.) -/
def RValue.FieldByName (v : RValue) (name : GoString) : Option (Nat × RValue) :=
  match v.typ, v.val with
  | .struct _ fields, .struct vals =>
    match fieldIndex fields name with
    | none => none
    | some i =>
      match fields[i]?, vals[i]? with
      | some f, some x => some (i, ⟨f.2, x, v.addr, v.ro || !isExported f.1.Name⟩)
      | _, _ => none
  | _, _ => none

/-- The struct `v` with its field number `i` replaced by `x`: the effect, seen
from the struct, of a store through the `reflect.Value` of that field. -/
def Value.setField (v : Value) (i : Nat) (x : Value) : Value :=
  match v with
  | .struct vals => .struct (vals.set i x)
  | _ => v

/-- Go `tv.Set(reflect.ValueOf(l))` where `l` has the predeclared type of
kind `k` and value `x`, on a settable `tv`: the new value of `tv`, or a panic
when that type is not assignable to the type of `tv`. -/
def RValue.Set (tv : RValue) (k : Echo.Kind) (x : Value) : Outcome Value :=
  if tv.typ.isPredeclared k then .ok x else .panic

/-! ## NamedStructMap (binder.go, lines 120-333) -/

/-- What `NamedStructMap` takes from outside this repository and from the
parts of the standard library that are not modelled here.

* `tagValue tc f name`: `tagfast.Value(tc, f, name)`, the tag inspector.
* `DefaultHtmlFilter`: the package variable of that name.
* `ParseFloat s bitSize`: `strconv.ParseFloat`, `none` for an error.
* `timeParse layout value`: `time.Parse`, `none` for an error. -/
structure Env where
  tagValue : GoType → StructField → GoString → GoString
  DefaultHtmlFilter : GoString → GoString
  ParseFloat : GoString → Nat → Option Nat
  timeParse : GoString → GoString → Option GoTime

/-- The tag name `form_options`. -/
def formOptions : GoString := "form_options".toList

/-- The tag name `form_filter`. -/
def formFilter : GoString := "form_filter".toList

/-- The opt-out mark `-` of the tag `form_options`. -/
def optOutMark : GoString := "-".toList

/-- The filter name `html` of the tag `form_filter`. -/
def htmlFilter : GoString := "html".toList

/-- The `switch tk` of one round of the loop over the raw values of a slice
field (lines 288-320): the value to store into the element, or `none` when
`err` is not nil afterwards. -/
def convertElem (env : Env) (tt : GoType) (s : GoString) : Option Value :=
  match tt.Kind with
  | .Int | .Int16 | .Int32 | .Int8 | .Int64 => (ParseInt s tt.Bits).map Value.int
  | .Uint | .Uint8 | .Uint16 | .Uint32 | .Uint64 => (ParseUint s tt.Bits).map Value.uint
  | .Float32 | .Float64 => (env.ParseFloat s tt.Bits).map Value.float
  | .Bool => (ParseBool s).map Value.bool
  | .String => some (.str s)
  | _ => none

/-- The loop `for i, s := range t` over the raw values of a slice field
(lines 286-325), from index `i` on: a converted value is stored with
`tv.Index(i).Set...`, which panics when `i` is out of range; the first value
that does not convert ends the loop (`break`). -/
def setElems (env : Env) (tt : GoType) : List GoString → Nat → List Value → Outcome (List Value)
  | [], _, elems => .ok elems
  | s :: rest, i, elems =>
    match convertElem env tt s with
    | none => .ok elems
    | some x =>
      if i < elems.length then setElems env tt rest (i + 1) (elems.set i x) else .panic

/-- The nested `time.Parse` calls of lines 260-270: the result of the first
layout that parses `v`. -/
def parseTime (env : Env) (v : GoString) : Option GoTime :=
  match env.timeParse "2006-01-02 15:04:05.000 -0700".toList v with
  | some x => some x
  | none =>
    match env.timeParse "2006-01-02 15:04:05".toList v with
    | some x => some x
    | none => env.timeParse "2006-01-02".toList v

/-- The `switch k := tv.Kind()` of lines 210-328 on the settable value `tv`:
the value of `tv` afterwards.  `t` are the raw values of the key, `v` is
`t[0]`, `f` the descriptor found for the last segment. -/
def convert (env : Env) (tc : GoType) (f : StructField) (t : List GoString) (v : GoString)
    (tv : RValue) : Outcome Value :=
  match tv.Kind with
  | .String =>
    let v := if env.tagValue tc f formFilter = htmlFilter then
      env.DefaultHtmlFilter v else v
    tv.Set .String (.str v)
  | .Bool => tv.Set .Bool (.bool (v != "false".toList && v != "0".toList))
  | .Int | .Int8 | .Int16 | .Int32 =>
    match Atoi v with
    | none => .ok tv.val
    | some x => tv.Set .Int (.int x)
  | .Int64 =>
    match ParseInt v 64 with
    | none => .ok tv.val
    | some x => tv.Set .Int64 (.int x)
  | .Float32 | .Float64 =>
    match env.ParseFloat v 64 with
    | none => .ok tv.val
    | some x => tv.Set .Float64 (.float x)
  | .Uint8 | .Uint16 | .Uint32 | .Uint64 =>
    match ParseUint v 64 with
    | none => .ok tv.val
    | some x => tv.Set .Uint64 (.uint x)
  | .Struct =>
    match tv.typ with
    | .struct true _ => .ok tv.val
    | .time =>
      match parseTime env v with
      | none => .ok tv.val
      | some x => .ok (.time x)
    | _ => .ok tv.val
  | .Ptr => .ok tv.val
  | .Slice | .Array =>
    let tt := tv.typ.Elem
    if tv.Kind = .Array then .panic
    else
      let elems :=
        match tv.val with
        | .slice (some l) => l
        | _ => List.replicate t.length (zero tt)
      (setElems env tt t 0 elems).map (fun l => Value.slice (some l))
  | _ => .ok tv.val

/-- Lines 204-328: a pointer field is first set to a new zero value of its
element type and followed; then the raw value is converted.  The result is
the value of the field `tv` afterwards. -/
def setLeaf (env : Env) (tc : GoType) (f : StructField) (t : List GoString) (v : GoString)
    (tv : RValue) : Outcome Value :=
  if tv.Kind = .Ptr then
    let elem := tv.typ.Elem
    (convert env tc f t v ⟨elem, zero elem, true, tv.ro⟩).map (fun x => Value.ptr (some x))
  else convert env tc f t v tv

/-- The body of the loop over `names` for the last segment (lines 188-328),
`name` already title-cased: the value of `value` afterwards. -/
def lastSegment (env : Env) (tc : GoType) (t : List GoString) (v : GoString)
    (name : GoString) (value : RValue) (typev : GoType) : Outcome Value :=
  if value.Kind ≠ .Struct then .ok value.val
  else
    match value.FieldByName name with
    | none => .ok value.val
    | some (i, tv) =>
      if !tv.CanSet then .ok value.val
      else
        (typev.FieldByName name).bind fun f =>
          if env.tagValue tc f formOptions = optOutMark then .ok value.val
          else (setLeaf env tc f t v tv).map (fun x => value.val.setField i x)

/-- The body of the loop over `names` for a segment that is not the last
(lines 163-186), `name` already title-cased; `next value typev` runs the
remaining rounds of the loop from the new `value` and `typev`.  The result is
the value of `value` afterwards. -/
def innerSegment (env : Env) (tc : GoType) (name : GoString) (value : RValue)
    (next : RValue → GoType → Outcome Value) : Outcome Value :=
  if value.Kind ≠ .Struct then .ok value.val
  else
    match value.FieldByName name with
    | none => .ok value.val
    | some (i, child) =>
      if !child.CanSet then
        if child.ro then .panic else .ok value.val
      else
        let typev := child.typ
        (typev.FieldByName name).bind fun f =>
          if env.tagValue tc f formOptions = optOutMark then
            (next child typev).map (fun x => value.val.setField i x)
          else if child.Kind = .Ptr then
            let child1 : RValue :=
              if child.val.IsNil then { child with val := .ptr (some (zero child.typ.Elem)) }
              else child
            (next child1.Elem typev).map (fun x => value.val.setField i (.ptr (some x)))
          else (next child typev).map (fun x => value.val.setField i x)

/-- The loop `for i, name := range names` (lines 158-330) from the current
`value` and `typev`: the value of `value` afterwards. -/
def walk (env : Env) (tc : GoType) (t : List GoString) (v : GoString) :
    List GoString → RValue → GoType → Outcome Value
  | [], value, _ => .ok value.val
  | [name], value, typev => lastSegment env tc t v (Title name) value typev
  | name :: name1 :: rest, value, _ =>
    innerSegment env tc (Title name) value (fun value1 typev1 =>
      walk env tc t v (name1 :: rest) value1 typev1)

/-- Lines 145-155: the segments of the key `k`, by `strings.Split` on the dot
and, when that gives a single piece, by `SplitJson`; `none` when `SplitJson`
returns an error (the key is then skipped). -/
def keyNames (k : GoString) : Option (List GoString) :=
  let names := Split k '.'
  if names.length = 1 then SplitJson k else some names

/-- One round of the loop `for k, t := range data` (lines 131-331) on the
dereferenced target `vc`: the value of `vc` afterwards. -/
def bindKey (env : Env) (tc : GoType) (vc : RValue) (topName : GoString)
    (k : GoString) (t : List GoString) : Outcome Value :=
  if k = [] ∨ k.head? = some '_' then .ok vc.val
  else if topName ≠ [] ∧ !HasPrefix k topName then .ok vc.val
  else if topName ≠ [] ∧ k.length < topName.length + 1 then .panic
  else
    let k := if topName ≠ [] then k.drop (topName.length + 1) else k
    match t with
    | [] => .panic
    | v :: _ =>
      match keyNames k with
      | none => .ok vc.val
      | some names => walk env tc t v names vc tc

/-- The loop `for k, t := range data`, visiting the pairs in list order. -/
def bindAll (env : Env) (tc : GoType) (topName : GoString) :
    List (GoString × List GoString) → RValue → Outcome Value
  | [], vc => .ok vc.val
  | (k, t) :: rest, vc =>
    (bindKey env tc vc topName k t).bind fun x => bindAll env tc topName rest { vc with val := x }

/-- The function `NamedStructMap` on a target `m` of static type `tc`: the
target afterwards (for a pointer target, the pointer with the struct it
points to as the call leaves it), or a panic.  When it does not panic the Go
function returns a nil error. -/
def NamedStructMap (env : Env) (tc : GoType) (m : Value) (data : List (GoString × List GoString))
    (topName : GoString) : Outcome Value :=
  let vc : RValue := ⟨tc, m, false, false⟩
  match tc.Kind with
  | .Ptr =>
    (bindAll env tc.Elem topName data vc.Elem).map fun x =>
      match m with
      | .ptr (some _) => .ptr (some x)
      | _ => m
  | _ => bindAll env tc topName data vc

/-- The tag inspector that reads the descriptor it is given: the value stored
under `name` in the field's struct tag, the empty string when there is none. -/
def tagLookup (_tc : GoType) (f : StructField) (name : GoString) : GoString :=
  match f.Tag.lookup name with
  | some x => x
  | none => []

/-- An environment with the tag inspector `tagLookup`, the identity filter
(the initial value of `DefaultHtmlFilter`) and parsers for floating-point
numbers and times that accept nothing. -/
def plainEnv : Env :=
  ⟨tagLookup, fun x => x, fun _ _ => none, fun _ _ => none⟩

/-! ## Path resolution, as the specification describes it -/

/-- The outcome of resolving a path of segments against a target.

* `leaf path tv f`: every segment names a settable field; `path` are the
  positions of the fields passed, `tv` is the last field and `f` its
  descriptor, which does not carry the opt-out tag.
* `unknown`: some segment names no field of the struct it addresses.
* `optOut`: the last field carries the tag `form_options:"-"`.
* `blocked`: anything else (a field that cannot be set, a segment that
  addresses something that is not a struct, an empty path). -/
inductive Resolution
  | leaf (path : List Nat) (tv : RValue) (f : StructField)
  | unknown
  | optOut
  | blocked
deriving Repr

/-- The descriptor of field number `i` of a struct type. -/
def GoType.fieldAt (t : GoType) (i : Nat) : StructField :=
  match t with
  | .struct _ fields =>
    match fields[i]? with
    | some f => f.1
    | none => StructField.zero
  | _ => StructField.zero

/-- Resolve the segments `names` from the struct `value` down through fields
that are themselves structs (not pointers): each segment is title-cased and
looked up in the struct the previous segment led to. -/
def resolve (env : Env) (tc : GoType) : List GoString → RValue → Resolution
  | [], _ => .blocked
  | [name], value =>
    if value.Kind ≠ .Struct then .blocked
    else
      match value.FieldByName (Title name) with
      | none => .unknown
      | some (i, tv) =>
        if !tv.CanSet then .blocked
        else if env.tagValue tc (value.typ.fieldAt i) formOptions = optOutMark then
          .optOut
        else .leaf [i] tv (value.typ.fieldAt i)
  | name :: name1 :: rest, value =>
    if value.Kind ≠ .Struct then .blocked
    else
      match value.FieldByName (Title name) with
      | none => .unknown
      | some (i, child) =>
        if !child.CanSet then .blocked
        else if child.Kind ≠ .Struct then .blocked
        else
          match resolve env tc (name1 :: rest) child with
          | .leaf path tv f => .leaf (i :: path) tv f
          | r => r

/-- The field number `i` of a struct value. -/
def Value.fieldAt (v : Value) (i : Nat) : Value :=
  match v with
  | .struct vals =>
    match vals[i]? with
    | some x => x
    | none => .other
  | _ => .other

/-- The value `v` with the field at the end of `path` replaced by `x` and
everything else as it was. -/
def plug (v : Value) : List Nat → Value → Value
  | [], x => x
  | i :: path, x => v.setField i (plug (v.fieldAt i) path x)

/-! ## Notions of the specification used in the statements -/

/-- The elements an integer slice of element width `bits` holds after the raw
values `t` were bound to it from nil: element `i` is the parsed value of
`t[i]` as long as `t[0]`, ..., `t[i]` all parse, and 0 from the first raw
value that does not parse on. -/
def boundInts (bits : Nat) (t : List GoString) : List Value :=
  (List.range t.length).map fun i =>
    if (t.take (i + 1)).all (fun s => (ParseInt s bits).isSome) then
      Value.int ((ParseInt (t.getD i []) bits).getD 0)
    else Value.int 0

/-- Whether the conversion of the raw value `v` for a leaf field of type `ty`
that holds `val` fails: a numeric parse error, no time layout that matches,
or a target kind for which there is no conversion.  For a slice field that is
not nil, `v` is the first raw value and it fails when it does not convert to
an element.  (Strings and booleans always convert; nil slices, arrays,
pointers and structs with their own `FromString` are not covered by this
notion.) -/
def conversionFails (env : Env) (ty : GoType) (val : Value) (v : GoString) : Bool :=
  match ty.Kind with
  | .Int | .Int8 | .Int16 | .Int32 => (Atoi v).isNone
  | .Int64 => (ParseInt v 64).isNone
  | .Uint | .Uint8 | .Uint16 | .Uint32 | .Uint64 => (ParseUint v 64).isNone
  | .Float32 | .Float64 => (env.ParseFloat v 64).isNone
  | .Struct =>
    match ty with
    | .time => (parseTime env v).isNone
    | .struct true _ => false
    | _ => true
  | .Slice =>
    match ty, val with
    | .slice e, .slice (some _) => (convertElem env e v).isNone
    | _, _ => false
  | .String | .Bool | .Array | .Ptr => false
  | _ => true

/-! ## Notions used for the independence of the visiting order -/

/-- The title-cased path that the loop of `NamedStructMap` walks for the key
`k`, or `none` when the key is skipped (empty, leading underscore, not under
`topName`, or rejected by `SplitJson`). -/
def keyPath (topName k : GoString) : Option (List GoString) :=
  if k = [] ∨ k.head? = some '_' then none
  else if topName ≠ [] ∧ !HasPrefix k topName then none
  else
    (keyNames (if topName ≠ [] then k.drop (topName.length + 1) else k)).map
      (fun names => names.map Title)

/-- Two entries of a field map address different paths: they do not walk the
same title-cased path. -/
def DistinctPaths (topName : GoString) (e1 e2 : GoString × List GoString) : Prop :=
  keyPath topName e1.1 = keyPath topName e2.1 → keyPath topName e1.1 = none

/-- What the rounds of the loop over `names` that follow the first one do to
the field `child` the first segment leads to: `rest` are the segments after
the first, `f` is the descriptor of the field. -/
def fieldOp (env : Env) (tc : GoType) (t : List GoString) (v : GoString)
    (rest : List GoString) (f : StructField) (child : RValue) : Outcome Value :=
  match rest with
  | [] =>
    if !child.CanSet then .ok child.val
    else if env.tagValue tc f formOptions = optOutMark then .ok child.val
    else setLeaf env tc f t v child
  | _ :: _ =>
    if !child.CanSet then
      if child.ro then .panic else .ok child.val
    else if child.Kind = .Struct then walk env tc t v rest child child.typ
    else .panic

/-- Running `a` and then `b` on the value of `c` gives the same as running
`b` and then `a`. -/
def Commutes (a b : RValue → Outcome Value) (c : RValue) : Prop :=
  (a c).bind (fun x => b { c with val := x }) = (b c).bind (fun y => a { c with val := y })

/-- The action `a` leaves every value of `c` as it is. -/
def ActsAsId (a : RValue → Outcome Value) (c : RValue) : Prop :=
  ∀ x, a { c with val := x } = .ok x

/-- The action `a` panics on every value of `c`. -/
def AlwaysPanics (a : RValue → Outcome Value) (c : RValue) : Prop :=
  ∀ x, a { c with val := x } = .panic

/-! ## Example targets -/

/-- A field descriptor without a struct tag. -/
def field (name : String) : StructField := ⟨name.toList, []⟩

/-- A field descriptor with the struct tag `form_options:"-"`. -/
def fieldOptOut (name : String) : StructField := ⟨name.toList, [(formOptions, optOutMark)]⟩

/-- The Go type `type Profile struct { Name string; Nick string }`. -/
def profileType : GoType :=
  .struct false [(field "Name", .basic .String false), (field "Nick", .basic .String false)]

/-- The Go type
`type User struct {`
`  Name string; Age int8; Count int; Limit uint; Tags []int;`
`  Profile *Profile; Secret Profile "form_options:\"-\""; Score *int;`
`  Hidden string "form_options:\"-\""; Home Profile }`. -/
def userType : GoType :=
  .struct false
    [(field "Name", .basic .String false),
     (field "Age", .basic .Int8 false),
     (field "Count", .basic .Int false),
     (field "Limit", .basic .Uint false),
     (field "Tags", .slice (.basic .Int false)),
     (field "Profile", .ptr profileType),
     (fieldOptOut "Secret", profileType),
     (field "Score", .ptr (.basic .Int false)),
     (fieldOptOut "Hidden", .basic .String false),
     (field "Home", profileType)]

/-- A `User` with the given `Age` and `Tags` and every other field zero. -/
def userWith (age : Int) (tags : Option (List Value)) : Value :=
  .struct [.str [], .int age, .int 0, .uint 0, .slice tags, .ptr none,
    .struct [.str [], .str []], .ptr none, .str [], .struct [.str [], .str []]]

/-- The zero `User`. -/
def zeroUser : Value := userWith 0 none

/-- A field map with the single key `k` and its raw values `t`. -/
def oneKey (k : String) (t : List String) : List (GoString × List GoString) :=
  [(k.toList, t.map String.toList)]

/-- The call `NamedStructMap(e, &u, data, "")` on a `User` value `u`, with the
tag inspector `tagLookup`. -/
def bindUser (u : Value) (data : List (GoString × List GoString)) : Outcome Value :=
  NamedStructMap plainEnv (.ptr userType) (.ptr (some u)) data []

/-! ## Bind (binder.go, lines 49-79) -/

/-- Go `strings.Contains`. -/
def Contains : GoString → GoString → Bool
  | [], sub => sub == []
  | c :: r, sub => HasPrefix (c :: r) sub || Contains r sub

/-- Modelled from the spec: `NewHTTPError` and `ErrUnsupportedMediaType` are
declared in echo.go, which is not under src/.  An error value that `Bind`
returns is

* `http code message`: the result of `NewHTTPError(code, message)`, an HTTP
  error with that status code;
* `unsupportedMediaType`: the package variable `ErrUnsupportedMediaType`;
* `decode message`: an error of the JSON or XML decoder. -/
inductive BindError
  | http (code : Nat) (message : GoString)
  | unsupportedMediaType
  | decode (message : GoString)
deriving DecidableEq, Repr

/-- Go `http.StatusBadRequest`. -/
def StatusBadRequest : Nat := 400

/-- What `Bind` takes from outside src/: the media type constants of echo.go
and the JSON and XML decoders of the standard library.  A decoder gets the
body and the target and returns its error (`none` for nil) and the target as
it leaves it. -/
structure BindEnv where
  ApplicationJSON : GoString
  ApplicationXML : GoString
  ApplicationForm : GoString
  MultipartForm : GoString
  jsonDecode : GoString → GoType → Value → Option GoString × Value
  xmlDecode : GoString → GoType → Value → Option GoString × Value

/-- An `engine.Request`, as far as `Bind` reads it: `Body` is `r.Body()`
(`none` for nil), `ContentType` is `r.Header().Get(ContentType)`, `Form` is
`r.Form().All()` in the order in which its keys are visited, and
`MultipartForm` is `r.MultipartForm()`: nil, or a form whose `Value` is nil or
a map. -/
structure Request where
  Body : Option GoString
  ContentType : GoString
  Form : List (GoString × List GoString)
  MultipartForm : Option (Option (List (GoString × List GoString)))

/-- The map assignment `data[key] = vals`: the entry of `key` is replaced, a
new key is added at the end of the visiting order. -/
def mapAssign (data : List (GoString × List GoString)) (key : GoString)
    (vals : List GoString) : List (GoString × List GoString) :=
  match data with
  | [] => [(key, vals)]
  | e :: rest => if e.1 = key then (key, vals) :: rest else e :: mapAssign rest key vals

/-- The method `binder.structMap`: `NamedStructMap` with an empty `topName`. -/
def structMap (env : Env) (tc : GoType) (m : Value) (data : List (GoString × List GoString)) :
    Outcome Value :=
  NamedStructMap env tc m data []

/-- The method `binder.Bind` on the request `r` and the target `i` of static
type `tc`: the error it returns (`none` for nil) and the target afterwards,
or a panic. -/
def Bind (env : Env) (benv : BindEnv) (r : Request) (tc : GoType) (i : Value) :
    Outcome (Option BindError × Value) :=
  match r.Body with
  | none => .ok (some (.http StatusBadRequest "Request body can't be nil".toList), i)
  | some body =>
    let ct := r.ContentType
    if HasPrefix ct benv.ApplicationJSON then
      let res := benv.jsonDecode body tc i
      .ok (res.1.map BindError.decode, res.2)
    else if HasPrefix ct benv.ApplicationXML then
      let res := benv.xmlDecode body tc i
      .ok (res.1.map BindError.decode, res.2)
    else if HasPrefix ct benv.ApplicationForm then
      (structMap env tc i r.Form).map (fun x => (none, x))
    else if Contains ct benv.MultipartForm then
      let data :=
        match r.MultipartForm with
        | some (some value) => value.foldl (fun d e => mapAssign d e.1 e.2) r.Form
        | _ => r.Form
      (structMap env tc i data).map (fun x => (none, x))
    else .ok (some .unsupportedMediaType, i)

/-- Modelled from the spec: the media type constants of echo.go (not under
src/), with the registered names of the four media types, and decoders that
accept every body and leave the target alone. -/
def plainBindEnv : BindEnv :=
  ⟨"application/json".toList, "application/xml".toList,
    "application/x-www-form-urlencoded".toList, "multipart/form-data".toList,
    fun _ _ i => (none, i), fun _ _ i => (none, i)⟩

/-! ## KVData (data.go, lines 338-497) -/

/-- The struct `KV`; `X` and `F` are `none` for nil and otherwise name the
value or function held. -/
structure KV where
  K : GoString
  V : GoString
  X : Option Nat
  F : Option Nat
deriving DecidableEq, Repr

/-- The composite literal `&KV{K: k, V: v}`. -/
def KV.of (k v : GoString) : KV := ⟨k, v, none, none⟩

/-- The struct `KVData`: `slice` are the pairs in order, `index` is the map
from a key to positions, as the list of its entries. -/
structure KVData where
  slice : List KV
  index : List (GoString × List Nat)
deriving DecidableEq, Repr

/-- The map read `v, y := index[k]`: `none` when the key is absent. -/
def indexGet (index : List (GoString × List Nat)) (k : GoString) : Option (List Nat) :=
  match index with
  | [] => none
  | e :: rest => if e.1 = k then some e.2 else indexGet rest k

/-- The map assignment `index[k] = v`. -/
def indexSet (index : List (GoString × List Nat)) (k : GoString) (v : List Nat) :
    List (GoString × List Nat) :=
  match index with
  | [] => [(k, v)]
  | e :: rest => if e.1 = k then (k, v) :: rest else e :: indexSet rest k v

/-- The function `NewKVData`. -/
def NewKVData : KVData := ⟨[], []⟩

/-- The method `KVData.Slice`. -/
def KVData.Slice (a : KVData) : List KV := a.slice

/-- The method `KVData.Index`: the positions stored for `k`, the nil slice
(the empty list) when there are none. -/
def KVData.Index (a : KVData) (k : GoString) : List Nat :=
  match indexGet a.index k with
  | some v => v
  | none => []

/-- The method `KVData.Reset`. -/
def KVData.Reset (_a : KVData) : KVData := ⟨[], []⟩

/-- The method `KVData.AddItem`. -/
def KVData.AddItem (a : KVData) (item : KV) : KVData :=
  let index :=
    match indexGet a.index item.K with
    | some _ => a.index
    | none => indexSet a.index item.K []
  let index := indexSet index item.K ((match indexGet index item.K with
    | some v => v
    | none => []) ++ [a.slice.length])
  ⟨a.slice ++ [item], index⟩

/-- The method `KVData.Add`. -/
def KVData.Add (a : KVData) (k v : GoString) : KVData :=
  let index :=
    match indexGet a.index k with
    | some _ => a.index
    | none => indexSet a.index k []
  let index := indexSet index k ((match indexGet index k with
    | some x => x
    | none => []) ++ [a.slice.length])
  ⟨a.slice ++ [KV.of k v], index⟩

/-- The method `KVData.SetItem`. -/
def KVData.SetItem (a : KVData) (item : KV) : KVData :=
  ⟨[item], indexSet a.index item.K [0]⟩

/-- The method `KVData.Set`. -/
def KVData.Set (a : KVData) (k v : GoString) : KVData :=
  ⟨[KV.of k v], indexSet a.index k [0]⟩

/-- The method `KVData.GetItem`: `none` is the nil result; the index
expression `a.slice[indexes[0]]` panics when the position is out of range. -/
def KVData.GetItem (a : KVData) (k : GoString) : Outcome (Option KV) :=
  match indexGet a.index k with
  | some (i :: _) =>
    match a.slice[i]? with
    | some item => .ok (some item)
    | none => .panic
  | _ => .ok none

/-- The method `KVData.Get`; the index expression `a.slice[indexes[0]]`
panics when the position is out of range. -/
def KVData.Get (a : KVData) (k : GoString) : Outcome GoString :=
  match indexGet a.index k with
  | some (i :: _) =>
    match a.slice[i]? with
    | some item => .ok item.V
    | none => .panic
  | _ => .ok []

/-- The method `KVData.Has`. -/
def KVData.Has (a : KVData) (k : GoString) : Bool :=
  (indexGet a.index k).isSome

/-- The pairs `adds` added in order to a new `KVData`. -/
def addAll (adds : List (GoString × GoString)) : KVData :=
  adds.foldl (fun a e => a.Add e.1 e.2) NewKVData

/-- The positions of the key `k` in a list of added pairs, counted from
`i`, in ascending order. -/
def positionsFrom (k : GoString) : List (GoString × GoString) → Nat → List Nat
  | [], _ => []
  | e :: rest, i => if e.1 = k then i :: positionsFrom k rest (i + 1) else positionsFrom k rest (i + 1)

/-- The value of the first pair with key `k`, the empty string when there is
none. -/
def firstValue (k : GoString) : List (GoString × GoString) → GoString
  | [] => []
  | e :: rest => if e.1 = k then e.2 else firstValue k rest

/-! ## Module.Valid (handler/mvc/module.go, lines 99-127) -/

/-- The timestamps of a `Module` that `Valid` reads (`int64` seconds):
`Disabled` (0: enabled), `Installed` (0: not installed) and `Expired`
(documented in the source as "0: never expires"). -/
structure Module where
  Disabled : Int
  Installed : Int
  Expired : Int
deriving DecidableEq, Repr

/-- The errors `Valid` returns; they are package variables declared outside
src/. -/
inductive ModuleError
  | ErrModuleHasNotBeenInstalled
  | ErrModuleHasBeenDisabled
  | ErrModuleHasExpired
deriving DecidableEq, Repr

/-- The method `Module.Valid`; `now` is `time.Now().Unix()`, and `none` is the
nil error. -/
def Module.Valid (a : Module) (now : Int) : Option ModuleError :=
  if a.Installed = 0 then some .ErrModuleHasNotBeenInstalled
  else if a.Disabled > 0 then some .ErrModuleHasBeenDisabled
  else if a.Expired < now then some .ErrModuleHasExpired
  else none

/-! ## Notions used for the loop of SplitJson -/

/-- The last statement of the loop body of `SplitJson` (lines 113-115): at the
last offset a pending segment is appended to the result. -/
def flushLast (s : GoString) (i : Nat) (st : SplitState) : SplitState :=
  if i = s.length - 1 ∧ st.begin_ ≠ st.end_ then
    { st with res := st.res ++ [substr s st.begin_ (st.end_ + 1)] }
  else st

/-- The Go type `type Flags struct { On bool; Flags []bool; At time.Time }`. -/
def flagsType : GoType :=
  .struct false
    [(field "On", .basic .Bool false),
     (field "Flags", .slice (.basic .Bool false)),
     (field "At", .time)]

/-- The zero `Flags`. -/
def zeroFlags : Value := .struct [.bool false, .slice none, .time ⟨0, 0, 0⟩]

/-- The call `NamedStructMap(e, &x, data, "")` on a `Flags` value `x`, with
the tag inspector `tagLookup`. -/
def bindFlags (x : Value) (data : List (GoString × List GoString)) : Outcome Value :=
  NamedStructMap plainEnv (.ptr flagsType) (.ptr (some x)) data []

/-! ## The time layouts of NamedStructMap -/

/-- The three layouts that lines 260-264 hand to `time.Parse`, in the order
in which they are tried. -/
def timeLayouts : List GoString :=
  ["2006-01-02 15:04:05.000 -0700".toList, "2006-01-02 15:04:05".toList, "2006-01-02".toList]

/-- The result of the first layout of `timeLayouts`, tried in that order, that
parses `v`; `none` when no layout parses it. -/
def firstLayout (env : Env) (v : GoString) : Option GoTime :=
  timeLayouts.findSome? (fun layout => env.timeParse layout v)

/-- A field of exactly `n` decimal digits at the head of `s`: its value and
the rest of `s`. -/
def takeNum (n : Nat) (s : GoString) : Option (Nat × GoString) :=
  if n ≤ s.length ∧ 0 < n then
    match parseDigits (s.take n) 0 with
    | some x => some (x, s.drop n)
    | none => none
  else none

/-- The character `c` at the head of `s`: the rest of `s`. -/
def expectChar (c : Char) (s : GoString) : Option GoString :=
  match s with
  | [] => none
  | d :: r => if d = c then some r else none

/-- Whether `year` is a leap year of the Gregorian calendar. -/
def isLeap (year : Nat) : Bool :=
  year % 4 == 0 && (year % 100 != 0 || year % 400 == 0)

/-- The number of days of a month. -/
def daysIn (month year : Nat) : Nat :=
  if month = 2 then (if isLeap year then 29 else 28)
  else if month = 4 ∨ month = 6 ∨ month = 9 ∨ month = 11 then 30
  else 31

/-- The number of days of the year before the first day of `month`. -/
def daysBefore (month year : Nat) : Nat :=
  ((List.range (month - 1)).map (fun m => daysIn (m + 1) year)).sum

/-- Go `time.Date(year, month, day, hour, min, sec, nsec, loc)` for a valid
date and a zone `offset` seconds east of UTC. -/
def goDate (year month day hour min sec nsec : Nat) (offset : Int) : GoTime :=
  let y : Int := (year : Int) - 1
  let days : Int := 365 * y + y / 4 - y / 100 + y / 400 + daysBefore month year + (day - 1 : Nat)
  ⟨days * 86400 + hour * 3600 + min * 60 + sec - offset, nsec, offset⟩

/-- The date `YYYY-MM-DD` at the head of `s`, with a month from 1 to 12 and a
day of that month. -/
def parseDateField (s : GoString) : Option ((Nat × Nat × Nat) × GoString) := do
  let (year, s) ← takeNum 4 s
  let s ← expectChar '-' s
  let (month, s) ← takeNum 2 s
  let s ← expectChar '-' s
  let (day, s) ← takeNum 2 s
  if 1 ≤ month ∧ month ≤ 12 ∧ 1 ≤ day ∧ day ≤ daysIn month year then
    some ((year, month, day), s)
  else none

/-- The clock `hh:mm:ss` at the head of `s`, with every field in range. -/
def parseClockField (s : GoString) : Option ((Nat × Nat × Nat) × GoString) := do
  let (hour, s) ← takeNum 2 s
  let s ← expectChar ':' s
  let (min, s) ← takeNum 2 s
  let s ← expectChar ':' s
  let (sec, s) ← takeNum 2 s
  if hour < 24 ∧ min < 60 ∧ sec < 60 then some ((hour, min, sec), s) else none

/-- The zone `+hhmm` or `-hhmm` at the head of `s`, as seconds east of UTC. -/
def parseZoneField (s : GoString) : Option (Int × GoString) :=
  match s with
  | [] => none
  | sign :: r =>
    if sign = '+' ∨ sign = '-' then do
      let (hh, r) ← takeNum 2 r
      let (mm, r) ← takeNum 2 r
      if hh < 24 ∧ mm < 60 then
        some ((if sign = '-' then -(((hh * 60 + mm) * 60 : Nat) : Int)
          else (((hh * 60 + mm) * 60 : Nat) : Int)), r)
      else none
    else none

/-- Modelled from the Go standard library: `time.Parse` for the three layouts
of `timeLayouts`, on values written in the fixed-width form of the layout
(`YYYY-MM-DD`, `YYYY-MM-DD hh:mm:ss`, `YYYY-MM-DD hh:mm:ss.fff +hhmm`, every
field made of decimal digits and in range).  Any other layout or value is
rejected here; `time.Parse` itself accepts a few more values, such as a
one-digit hour. -/
def fixedTimeParse (layout value : GoString) : Option GoTime :=
  if layout = "2006-01-02".toList then
    match parseDateField value with
    | some ((y, m, d), []) => some (goDate y m d 0 0 0 0 0)
    | _ => none
  else if layout = "2006-01-02 15:04:05".toList then do
    let ((y, m, d), s) ← parseDateField value
    let s ← expectChar ' ' s
    match parseClockField s with
    | some ((hh, mi, ss), []) => some (goDate y m d hh mi ss 0 0)
    | _ => none
  else if layout = "2006-01-02 15:04:05.000 -0700".toList then do
    let ((y, m, d), s) ← parseDateField value
    let s ← expectChar ' ' s
    let ((hh, mi, ss), s) ← parseClockField s
    let s ← expectChar '.' s
    let (ms, s) ← takeNum 3 s
    let s ← expectChar ' ' s
    match parseZoneField s with
    | some (offset, []) => some (goDate y m d hh mi ss (ms * 1000000) offset)
    | _ => none
  else none

/-- The environment `plainEnv` with `fixedTimeParse` for `time.Parse`. -/
def timeEnv : Env :=
  { plainEnv with timeParse := fixedTimeParse }

/-- The call `NamedStructMap(e, &Flags{}, {"at": [v]}, "")` with
`fixedTimeParse` for `time.Parse`. -/
def bindTimes (v : String) : Outcome Value :=
  NamedStructMap timeEnv (.ptr flagsType) (.ptr (some zeroFlags)) [("at".toList, [v.toList])] []

/-! ## Notions used for binding the same field map twice -/

mutual
/-- Whether a type is one that Go can declare: a `basic` type is not of kind
struct, pointer, slice or array (those are the other constructors), also
inside composite types. -/
def GoType.proper : GoType → Bool
  | .basic k _ => k != .Struct && k != .Ptr && k != .Slice && k != .Array
  | .time => true
  | .struct _ fields => properFields fields
  | .ptr e => e.proper
  | .slice e => e.proper
  | .array _ e => e.proper
/-- Whether the types of all fields of a field list are proper. -/
def properFields : List (StructField × GoType) → Bool
  | [] => true
  | f :: rest => f.2.proper && properFields rest
end

/-- The value `r` continues the value `s` of type `ty`: both have the struct
fields of the type, down through nested structs, and where `s` holds an
allocated slice, `r` holds a slice of the same length. -/
inductive Ext : GoType → Value → Value → Prop
  | struct (c : Bool) (fields : List (StructField × GoType)) (ss rs : List Value)
      (hfl : ss.length = fields.length) (hlen : ss.length = rs.length)
      (h : ∀ (i : Nat) (f : StructField × GoType) (x y : Value), fields[i]? = some f →
        ss[i]? = some x → rs[i]? = some y → Ext f.2 x y) :
      Ext (.struct c fields) (.struct ss) (.struct rs)
  | slice (e : GoType) (s r : Value)
      (h : ∀ ls, s = .slice (some ls) → ∃ lr, r = .slice (some lr) ∧ lr.length = ls.length) :
      Ext (.slice e) s r
  | other (ty : GoType) (s r : Value) (h1 : ∀ c fs, ty ≠ .struct c fs)
      (h2 : ty.Kind ≠ .Slice) : Ext ty s r

/-- The value `u` of type `ty` is put together from the values `s` and `r`:
every field and every slice element of `u` is the one of `s` or the one of
`r`. -/
inductive Mix : GoType → Value → Value → Value → Prop
  | struct (c : Bool) (fields : List (StructField × GoType)) (ss rs us : List Value)
      (hfl : ss.length = fields.length) (h1 : ss.length = rs.length)
      (h2 : ss.length = us.length)
      (h : ∀ (i : Nat) (f : StructField × GoType) (x y w : Value), fields[i]? = some f →
        ss[i]? = some x → rs[i]? = some y → us[i]? = some w → Mix f.2 x y w) :
      Mix (.struct c fields) (.struct ss) (.struct rs) (.struct us)
  | left (ty : GoType) (s r : Value) : Mix ty s r s
  | right (ty : GoType) (s r : Value) (h : ∀ c fs, ty ≠ .struct c fs) : Mix ty s r r
  | slice (e : GoType) (ls lr lu : List Value) (h1 : ls.length = lr.length)
      (h2 : ls.length = lu.length)
      (h : ∀ (j : Nat) (x y w : Value), ls[j]? = some x → lr[j]? = some y → lu[j]? = some w →
        w = x ∨ w = y) :
      Mix (.slice e) (.slice (some ls)) (.slice (some lr)) (.slice (some lu))

/-- The freshly zeroed target of static type `tc`: for a pointer type a
pointer to a zero value, otherwise the zero value. -/
def zeroTarget (tc : GoType) : Value :=
  match tc with
  | .ptr ty => .ptr (some (zero ty))
  | ty => zero ty

/-! ## Bracket keys -/

/-- The text `[s1]...[sk]` for the segments `s1..sk`. -/
def bracketed : List GoString → GoString
  | [] => []
  | x :: rest => '[' :: x ++ ']' :: bracketed rest

/-- The key `s0[s1]...[sk]`. -/
def bracketKey (s0 : GoString) (segs : List GoString) : GoString :=
  s0 ++ bracketed segs

/-! ## KVData.Delete and runs of KVData methods (data.go, lines 463-497) -/

/-- The first loop of `KVData.Delete`: the positions stored in the index for
the keys `ks`, in order. -/
def deletedPositions (index : List (GoString × List Nat)) : List GoString → List Nat
  | [] => []
  | k :: rest =>
    match indexGet index k with
    | none => deletedPositions index rest
    | some v => v ++ deletedPositions index rest

/-- The second loop of `KVData.Delete`, `for i, v := range a.slice` from
position `i` on: `acc` holds `newSlice` and the new index. -/
def deleteLoop (indexes : List Nat) : List KV → Nat → KVData → KVData
  | [], _, acc => acc
  | v :: rest, i, acc =>
    if i ∈ indexes then deleteLoop indexes rest (i + 1) acc
    else
      let index :=
        match indexGet acc.index v.K with
        | some _ => acc.index
        | none => indexSet acc.index v.K []
      let index := indexSet index v.K ((match indexGet index v.K with
        | some x => x
        | none => []) ++ [acc.slice.length])
      deleteLoop indexes rest (i + 1) ⟨acc.slice ++ [v], index⟩

/-- The method `KVData.Delete`. -/
def KVData.Delete (a : KVData) (ks : List GoString) : KVData :=
  deleteLoop (deletedPositions a.index ks) a.slice 0 ⟨[], []⟩

/-- A call of one of the methods that change a `KVData`. -/
inductive KVCall where
  | add (k v : GoString)
  | addItem (item : KV)
  | set (k v : GoString)
  | setItem (item : KV)
  | delete (ks : List GoString)
  | reset
deriving DecidableEq, Repr

/-- The `KVData` after the call `c`. -/
def KVData.call (a : KVData) : KVCall → KVData
  | .add k v => a.Add k v
  | .addItem item => a.AddItem item
  | .set k v => a.Set k v
  | .setItem item => a.SetItem item
  | .delete ks => a.Delete ks
  | .reset => a.Reset

/-- The `KVData` that `NewKVData` returns, after the calls `cs` in order. -/
def callAll (cs : List KVCall) : KVData :=
  cs.foldl KVData.call NewKVData

/-- The index of `a` agrees with its slice at the key `k`: every position
in `Index(k)` is within `Slice()` and holds a pair with the key `k`. -/
def IndexAgrees (a : KVData) (k : GoString) : Prop :=
  ∀ p ∈ a.Index k, ∃ item, a.Slice[p]? = some item ∧ item.K = k

/-! ## RawData.SetByMap (data.go, lines 97-227) -/

/-- A value of type `interface{}` held in a `Store` or in a field of
`RawData`: nil, a `State`, an `int`, a `string`, or a value of another type,
of which only what `fmt.Sprint` prints is kept. -/
inductive Iface where
  | nil
  | state (c : Int)
  | int (c : Int)
  | str (s : GoString)
  | other (printed : GoString)
deriving DecidableEq, Repr

/-- The type `Store`, a map from strings to `interface{}` values whose
declaration is not under src/: `SetByMap` only reads it, with
`v, y := s[key]`, so a store is taken as that lookup, `none` for an absent
key. -/
abbrev Store := GoString → Option Iface

/-- The struct `RawData` without its unexported field `context`, which
`SetByMap` neither reads nor writes. -/
structure RawData where
  Code : Int
  State : GoString
  Info : Iface
  URL : GoString
  Zone : Iface
  Data : Iface
deriving DecidableEq, Repr

/-- The first result of `strconv.Atoi`, which is also there when the error
is not nil: 0 after a syntax error, the nearest `int` after a range error. -/
def atoiValue (s : GoString) : Int :=
  match Atoi s with
  | some x => x
  | none =>
    match s with
    | [] => 0
    | c :: r =>
      let body := if c = '+' ∨ c = '-' then r else s
      if body = [] then 0
      else
        match parseDigits body 0 with
        | none => 0
        | some _ => if c = '-' then - (2 ^ (IntSize - 1) : Int) else 2 ^ (IntSize - 1) - 1

/-- The type switch of `SetByMap` on the value stored under `"Code"`. -/
def codeOf : Iface → Int
  | .state c => c
  | .int c => c
  | .str s => atoiValue s
  | .other printed => atoiValue printed
  | .nil => atoiValue "<nil>".toList

/-- The type assertion `v.(string)` with the flag dropped: the string held,
the empty string for any other value. -/
def asString : Iface → GoString
  | .str s => s
  | _ => []

/-- The method `RawData.SetByMap`: `d` afterwards. -/
def RawData.SetByMap (d : RawData) (s : Store) : RawData :=
  let d := match s "Data".toList with
    | some v => { d with Data := v }
    | none => d
  let d := match s "Zone".toList with
    | some v => { d with Zone := v }
    | none => d
  let d := match s "Info".toList with
    | some v => { d with Info := v }
    | none => d
  let d := match s "URL".toList with
    | some v => { d with URL := asString v }
    | none => d
  let code : Int := match s "Code".toList with
    | some v => codeOf v
    | none => 0
  { d with Code := code }

/-- The store with the pairs of `entries`; the first pair with a key counts. -/
def storeOf (entries : List (String × Iface)) : Store :=
  fun k => (entries.find? (fun e => e.1.toList = k)).map (fun e => e.2)

/-- Whether the call is `Set` or `SetItem`. -/
def KVCall.isSet : KVCall → Bool
  | .set _ _ => true
  | .setItem _ => true
  | _ => false

/-- The `KVData` after `Add("a", "1")`, `Add("b", "2")` and `Set("c", "3")` on
the result of `NewKVData`. -/
def addAddSet : KVData :=
  callAll [.add "a".toList "1".toList, .add "b".toList "2".toList, .set "c".toList "3".toList]

/-- A `RawData` as `NewData` returns it: code 1, state `Success`. -/
def newRawData : RawData := ⟨1, "Success".toList, .nil, [], .nil, .nil⟩

/-! ## Theorems -/

theorem Outcome.map_map {α β γ : Type} (g : β → γ) (f : α → β) (o : Outcome α) :
    (o.map f).map g = o.map (fun a => g (f a)) := by
  cases o <;> rfl

theorem fieldByName_shape {value : RValue} {name : GoString} {i : Nat} {child : RValue}
    (h : value.FieldByName name = some (i, child)) :
    ∃ conv fields vals f x, value.typ = .struct conv fields ∧ value.val = .struct vals ∧
      fieldIndex fields name = some i ∧ fields[i]? = some f ∧ vals[i]? = some x ∧
      child = ⟨f.2, x, value.addr, value.ro || !isExported f.1.Name⟩ := by
  unfold RValue.FieldByName at h
  split at h
  · rename_i conv fields vals ht hv
    split at h
    · cases h
    · rename_i j hj
      split at h
      · rename_i f x hf hx
        cases h
        exact ⟨conv, fields, vals, f, x, ht, hv, hj, hf, hx, rfl⟩
      · cases h
  · cases h

theorem fieldByName_typeField {value : RValue} {name : GoString} {i : Nat} {child : RValue}
    (h : value.FieldByName name = some (i, child)) :
    value.typ.FieldByName name = .ok (value.typ.fieldAt i) := by
  obtain ⟨conv, fields, vals, f, x, ht, hv, hj, hf, hx, rfl⟩ := fieldByName_shape h
  simp [GoType.FieldByName, GoType.fieldAt, ht, hj, hf]

theorem fieldByName_fieldAt {value : RValue} {name : GoString} {i : Nat} {child : RValue}
    (h : value.FieldByName name = some (i, child)) :
    value.val.fieldAt i = child.val := by
  obtain ⟨conv, fields, vals, f, x, ht, hv, hj, hf, hx, rfl⟩ := fieldByName_shape h
  simp [Value.fieldAt, hv, hx]

theorem typeFieldByName_of_struct (ty : GoType) (name : GoString) (h : ty.Kind = .Struct) :
    ∃ f, ty.FieldByName name = .ok f := by
  cases ty with
  | basic k d =>
    simp [GoType.Kind] at h
    subst h
    exact ⟨_, rfl⟩
  | time => exact ⟨_, rfl⟩
  | struct conv fields =>
    simp only [GoType.FieldByName]
    split
    · exact ⟨_, rfl⟩
    · split <;> exact ⟨_, rfl⟩
  | ptr e => simp [GoType.Kind] at h
  | slice e => simp [GoType.Kind] at h
  | array n e => simp [GoType.Kind] at h

/-- A segment that is not the last and names a settable field of struct kind
hands the field to the remaining rounds and stores their result in it. -/
theorem innerSegment_struct (env : Env) (tc : GoType) (name : GoString) (value : RValue)
    (next : RValue → GoType → Outcome Value) (i : Nat) (child : RValue)
    (hk : value.Kind = .Struct) (hf : value.FieldByName name = some (i, child))
    (hs : child.CanSet = true) (hc : child.Kind = .Struct) :
    innerSegment env tc name value next =
      (next child child.typ).map (fun x => value.val.setField i x) := by
  obtain ⟨f, hfd⟩ := typeFieldByName_of_struct child.typ name hc
  have hc' : child.typ.Kind = .Struct := hc
  have hk' : value.typ.Kind = .Struct := hk
  simp [innerSegment, hf, hs, hfd, Outcome.bind, RValue.Kind, hc', hk']

theorem walk_leaf (env : Env) (tc : GoType) (t : List GoString) (v : GoString) :
    ∀ (names : List GoString) (value : RValue) (p : List Nat) (tv : RValue) (f : StructField),
      resolve env tc names value = .leaf p tv f →
      walk env tc t v names value value.typ =
        (setLeaf env tc f t v tv).map (plug value.val p) := by
  intro names
  induction names with
  | nil => intro value p tv f h; simp [resolve] at h
  | cons name rest ih =>
    intro value p tv f h
    cases rest with
    | nil =>
      simp only [resolve] at h
      split at h
      · cases h
      · rename_i hk
        split at h
        · cases h
        · rename_i i tv' hf
          split at h
          · cases h
          · rename_i hs
            split at h
            · cases h
            · rename_i htag
              cases h
              simp only [walk, lastSegment]
              have hk' : value.Kind = .Struct := by simpa using hk
              have hs' : tv.CanSet = true := by simpa using hs
              simp [hk', hf, hs', fieldByName_typeField hf, Outcome.bind, htag, plug]
    | cons name1 rest =>
      simp only [resolve] at h
      split at h
      · cases h
      · rename_i hk
        split at h
        · cases h
        · rename_i i child hf
          split at h
          · cases h
          · rename_i hs
            split at h
            · cases h
            · rename_i hc
              split at h
              · rename_i path tv' f' hr
                cases h
                simp only [walk]
                rw [innerSegment_struct env tc _ value _ i child (by simpa using hk) hf
                  (by simpa using hs) (by simpa using hc)]
                rw [ih child path tv f hr, Outcome.map_map]
                simp [plug, fieldByName_fieldAt hf]
              · rename_i r hr
                cases r <;> simp_all


theorem fieldByName_setField_self {value : RValue} {name : GoString} {i : Nat} {child : RValue}
    (h : value.FieldByName name = some (i, child)) :
    value.val.setField i child.val = value.val := by
  obtain ⟨conv, fields, vals, f, x, ht, hv, hj, hf, hx, rfl⟩ := fieldByName_shape h
  simp only [hv, Value.setField]
  congr 1
  apply List.ext_getElem?
  intro j
  by_cases hij : i = j
  · subst hij
    rw [List.getElem?_set_self' , hx]
    simp
  · rw [List.getElem?_set_ne hij]

theorem walk_unresolved (env : Env) (tc : GoType) (t : List GoString) (v : GoString) :
    ∀ (names : List GoString) (value : RValue),
      (resolve env tc names value = .unknown ∨ resolve env tc names value = .optOut) →
      walk env tc t v names value value.typ = .ok value.val := by
  intro names
  induction names with
  | nil => intro value h; simp [resolve] at h
  | cons name rest ih =>
    intro value h
    cases rest with
    | nil =>
      simp only [walk, lastSegment]
      simp only [resolve] at h
      by_cases hk : value.Kind = .Struct
      · simp only [hk, ne_eq, not_true_eq_false, if_false] at h ⊢
        cases hf : value.FieldByName (Title name) with
        | none => rfl
        | some r =>
          obtain ⟨i, tv⟩ := r
          simp only [hf] at h ⊢
          by_cases hs : tv.CanSet = true
          · simp only [hs, Bool.not_true, Bool.false_eq_true, if_false] at h ⊢
            rw [fieldByName_typeField hf]
            simp only [Outcome.bind]
            by_cases htag : env.tagValue tc (value.typ.fieldAt i) formOptions = optOutMark
            · simp [htag]
            · simp [htag] at h
          · simp [hs]
      · simp [hk]
    | cons name1 rest =>
      simp only [walk]
      simp only [resolve] at h
      by_cases hk : value.Kind = .Struct
      · simp only [hk, ne_eq, not_true_eq_false, if_false] at h
        cases hf : value.FieldByName (Title name) with
        | none => simp [innerSegment, hf]
        | some r =>
          obtain ⟨i, child⟩ := r
          simp only [hf] at h
          by_cases hs : child.CanSet = true
          · simp only [hs, Bool.not_true, Bool.false_eq_true, if_false] at h
            by_cases hc : child.Kind = .Struct
            · simp only [hc, not_true_eq_false, if_false] at h
              rw [innerSegment_struct env tc _ value _ i child hk hf hs hc]
              have hr : resolve env tc (name1 :: rest) child = .unknown ∨
                  resolve env tc (name1 :: rest) child = .optOut := by
                cases hres : resolve env tc (name1 :: rest) child <;> simp [hres] at h ⊢
              rw [ih child hr]
              simp [Outcome.map, fieldByName_setField_self hf]
            · simp [hc] at h
          · simp [hs] at h
      · simp [innerSegment, hk]

/-- With an empty `topName`, a key that is neither empty nor begins with an
underscore and whose segments are `names` is bound by the loop over `names`. -/
theorem bindKey_eq_walk (env : Env) (tc : GoType) (vc : RValue) (k v : GoString)
    (t : List GoString) (names : List GoString)
    (hk : k ≠ []) (hu : k.head? ≠ some '_') (hn : keyNames k = some names) :
    bindKey env tc vc [] k (v :: t) = walk env tc (v :: t) v names vc tc := by
  simp [bindKey, hk, hu, hn]

theorem bindKey_skip (env : Env) (tc : GoType) (vc : RValue) (topName k : GoString)
    (t : List GoString) (h : k = [] ∨ k.head? = some '_') :
    bindKey env tc vc topName k t = .ok vc.val := by
  simp [bindKey, h]

theorem bindKey_unresolved (env : Env) (vc : RValue) (k v : GoString) (t : List GoString)
    (h : ∀ names, keyNames k = some names →
      resolve env vc.typ names vc = .unknown ∨ resolve env vc.typ names vc = .optOut) :
    bindKey env vc.typ vc [] k (v :: t) = .ok vc.val := by
  by_cases hs : k = [] ∨ k.head? = some '_'
  · exact bindKey_skip env _ vc [] k _ hs
  · have hk : k ≠ [] := fun h => hs (Or.inl h)
    have hu : k.head? ≠ some '_' := fun h => hs (Or.inr h)
    cases hn : keyNames k with
    | none => simp [bindKey, hk, hu, hn]
    | some names =>
      rw [bindKey_eq_walk env _ vc k v t names hk hu hn]
      exact walk_unresolved env _ _ _ names vc (h names hn)

theorem namedStructMap_ptr (env : Env) (ty : GoType) (s : Value)
    (data : List (GoString × List GoString)) (topName : GoString) :
    NamedStructMap env (.ptr ty) (.ptr (some s)) data topName =
      (bindAll env ty topName data ⟨ty, s, true, false⟩).map (fun x => Value.ptr (some x)) := by
  simp [NamedStructMap, GoType.Kind, RValue.Elem, GoType.Elem]

theorem namedStructMap_single (env : Env) (ty : GoType) (s : Value) (k v : GoString)
    (t : List GoString) (names : List GoString)
    (hk : k ≠ []) (hu : k.head? ≠ some '_') (hn : keyNames k = some names) :
    NamedStructMap env (.ptr ty) (.ptr (some s)) [(k, v :: t)] [] =
      (walk env ty (v :: t) v names ⟨ty, s, true, false⟩ ty).map
        (fun x => Value.ptr (some x)) := by
  rw [namedStructMap_ptr]
  simp only [bindAll]
  rw [bindKey_eq_walk env ty _ k v t names hk hu hn]
  cases walk env ty (v :: t) v names ⟨ty, s, true, false⟩ ty <;> rfl

theorem bindAll_unresolved (env : Env) (ty : GoType) (s : Value) (addr ro : Bool) :
    ∀ (data : List (GoString × List GoString)),
      (∀ kt ∈ data, kt.2 ≠ [] ∧ ∀ names, keyNames kt.1 = some names →
        (resolve env ty names ⟨ty, s, addr, ro⟩ = .unknown ∨
          resolve env ty names ⟨ty, s, addr, ro⟩ = .optOut)) →
      bindAll env ty [] data ⟨ty, s, addr, ro⟩ = .ok s := by
  intro data
  induction data with
  | nil => intro _; rfl
  | cons kt rest ih =>
    intro h
    obtain ⟨k, t⟩ := kt
    have h1 := h (k, t) (List.mem_cons_self _ _)
    cases t with
    | nil => simp at h1
    | cons v t =>
      simp only [bindAll]
      rw [bindKey_unresolved env ⟨ty, s, addr, ro⟩ k v t h1.2]
      simp only [Outcome.bind]
      exact ih (fun kt hkt => h kt (List.mem_cons_of_mem _ hkt))


theorem boundInts_cons (bits : Nat) (s : GoString) (rest : List GoString) :
    boundInts bits (s :: rest) =
      match ParseInt s bits with
      | some x => Value.int x :: boundInts bits rest
      | none => List.replicate (rest.length + 1) (Value.int 0) := by
  unfold boundInts
  rw [List.length_cons, List.range_succ_eq_map, List.map_cons, List.map_map]
  cases h : ParseInt s bits with
  | none =>
    simp only [List.take_succ_cons, List.all_cons, h, Option.isSome_none, Bool.false_and,
      Bool.false_eq_true, if_false, List.replicate_succ]
    congr 1
    apply List.ext_getElem
    · simp
    · intro i h1 h2
      simp
  | some x =>
    simp only [List.take_succ_cons, List.all_cons, h, Option.isSome_some, Bool.true_and]
    congr 1
    simp [h]

theorem zero_of_signed (tt : GoType)
    (h : tt.Kind = .Int ∨ tt.Kind = .Int8 ∨ tt.Kind = .Int16 ∨ tt.Kind = .Int32 ∨
      tt.Kind = .Int64) : zero tt = .int 0 := by
  cases tt with
  | basic k d =>
    simp only [GoType.Kind] at h
    rcases h with h | h | h | h | h <;> subst h <;> rfl
  | time => simp [GoType.Kind] at h
  | struct c fs => simp [GoType.Kind] at h
  | ptr e => simp [GoType.Kind] at h
  | slice e => simp [GoType.Kind] at h
  | array n e => simp [GoType.Kind] at h

theorem convertElem_signed (env : Env) (tt : GoType) (s : GoString)
    (h : tt.Kind = .Int ∨ tt.Kind = .Int8 ∨ tt.Kind = .Int16 ∨ tt.Kind = .Int32 ∨
      tt.Kind = .Int64) :
    convertElem env tt s = (ParseInt s tt.Bits).map Value.int := by
  unfold convertElem
  rcases h with h | h | h | h | h <;> rw [h]

/-- The loop over the raw values of a slice of signed integers, entered with
the elements before index `pre.length` already stored and zeros from there on,
leaves `pre` followed by `boundInts` of the raw values still to be read. -/
theorem setElems_signed (env : Env) (tt : GoType)
    (h : tt.Kind = .Int ∨ tt.Kind = .Int8 ∨ tt.Kind = .Int16 ∨ tt.Kind = .Int32 ∨
      tt.Kind = .Int64) :
    ∀ (t : List GoString) (pre : List Value),
      setElems env tt t pre.length (pre ++ List.replicate t.length (Value.int 0)) =
        .ok (pre ++ boundInts tt.Bits t) := by
  intro t
  induction t with
  | nil => intro pre; simp [setElems, boundInts]
  | cons s rest ih =>
    intro pre
    rw [boundInts_cons]
    simp only [setElems, convertElem_signed env tt s h, List.length_cons]
    cases hp : ParseInt s tt.Bits with
    | none => simp
    | some x =>
      simp only [Option.map_some']
      have hlen : pre.length < (pre ++ List.replicate (rest.length + 1) (Value.int 0)).length := by
        simp
      rw [if_pos hlen]
      have hset : (pre ++ List.replicate (rest.length + 1) (Value.int 0)).set pre.length
          (Value.int x) = (pre ++ [Value.int x]) ++ List.replicate rest.length (Value.int 0) := by
        rw [List.set_append_right _ _ (le_refl _)]
        simp [List.replicate_succ]
      rw [hset]
      have := ih (pre ++ [Value.int x])
      simp only [List.length_append, List.length_singleton] at this
      rw [this]
      simp

theorem resolve_leaf_plug_self (env : Env) (tc : GoType) :
    ∀ (names : List GoString) (value : RValue) (p : List Nat) (tv : RValue) (f : StructField),
      resolve env tc names value = .leaf p tv f → plug value.val p tv.val = value.val := by
  intro names
  induction names with
  | nil => intro value p tv f h; simp [resolve] at h
  | cons name rest ih =>
    intro value p tv f h
    cases rest with
    | nil =>
      simp only [resolve] at h
      split at h
      · cases h
      · split at h
        · cases h
        · rename_i i tv' hf
          split at h
          · cases h
          · split at h
            · cases h
            · cases h
              simp [plug, fieldByName_setField_self hf]
    | cons name1 rest =>
      simp only [resolve] at h
      split at h
      · cases h
      · split at h
        · cases h
        · rename_i i child hf
          split at h
          · cases h
          · split at h
            · cases h
            · split at h
              · rename_i path tv' f' hr
                cases h
                simp only [plug, fieldByName_fieldAt hf]
                rw [ih child path tv f hr, fieldByName_setField_self hf]
              · rename_i r hr
                cases r <;> simp_all

/-! ### C1: binding raw values to a nil slice of signed integers -/

/-- C1 (as stated, refuted): binding the raw values "1", "x", "3" to the nil
slice field `Tags []int` leaves the slice `[1, 0, 0]`, not `[1, 0, 3]`: the
element that fails to parse ends the loop, so the later element is not
stored. -/
theorem C1_counterexample :
    bindUser zeroUser (oneKey "tags" ["1", "x", "3"]) =
        .ok (.ptr (some (userWith 0 (some [.int 1, .int 0, .int 0])))) ∧
      bindUser zeroUser (oneKey "tags" ["1", "x", "3"]) ≠
        .ok (.ptr (some (userWith 0 (some [.int 1, .int 0, .int 3])))) := by
  have h1 : bindUser zeroUser (oneKey "tags" ["1", "x", "3"]) =
      .ok (.ptr (some (userWith 0 (some [.int 1, .int 0, .int 0])))) := rfl
  refine ⟨h1, ?_⟩
  rw [h1]
  simp [userWith]

/-- C1 (amended): when a key resolves to a settable nil slice field whose
element kind is a signed integer, `NamedStructMap` returns normally and the
field ends as the slice `boundInts` of the raw values: it has one element per
raw value, element `i` is the parsed value of `t[i]` as long as all of
`t[0..i]` are base-10 integers in range, and 0 from the first raw value that
is not; the rest of the target is unchanged. -/
theorem C1_int_slice_bound_until_first_failure (env : Env) (ty : GoType) (s : Value)
    (k v : GoString) (t : List GoString) (names : List GoString) (p : List Nat) (tv : RValue)
    (f : StructField) (tt : GoType)
    (hk : k ≠ []) (hu : k.head? ≠ some '_') (hn : keyNames k = some names)
    (hr : resolve env ty names ⟨ty, s, true, false⟩ = .leaf p tv f)
    (ht : tv.typ = .slice tt)
    (hkind : tt.Kind = .Int ∨ tt.Kind = .Int8 ∨ tt.Kind = .Int16 ∨ tt.Kind = .Int32 ∨
      tt.Kind = .Int64)
    (hnil : tv.val = .slice none) :
    NamedStructMap env (.ptr ty) (.ptr (some s)) [(k, v :: t)] [] =
      .ok (.ptr (some (plug s p (.slice (some (boundInts tt.Bits (v :: t))))))) := by
  rw [namedStructMap_single env ty s k v t names hk hu hn]
  have hw := walk_leaf env ty (v :: t) v names ⟨ty, s, true, false⟩ p tv f hr
  simp only at hw
  rw [hw]
  have hkd : tv.Kind = .Slice := by simp [RValue.Kind, ht, GoType.Kind]
  have hse := setElems_signed env tt hkind (v :: t) []
  simp only [List.length_nil, List.nil_append, List.length_cons] at hse
  simp [setLeaf, convert, hkd, ht, GoType.Elem, hnil, zero_of_signed tt hkind, hse, Outcome.map]

/-- C1 (amended), at the key `tags` of a zero `User` with the raw values
"1", "x", "3". -/
theorem C1_int_slice_bound_until_first_failure_witness :
    NamedStructMap plainEnv (.ptr userType) (.ptr (some zeroUser))
        [("tags".toList, ["1".toList, "x".toList, "3".toList])] [] =
      .ok (.ptr (some (plug zeroUser [4] (.slice (some
        (boundInts (GoType.basic .Int false).Bits ["1".toList, "x".toList, "3".toList])))))) :=
  C1_int_slice_bound_until_first_failure plainEnv userType zeroUser "tags".toList "1".toList
    ["x".toList, "3".toList] ["tags".toList] [4] ⟨.slice (.basic .Int false), .slice none, true, false⟩
    (field "Tags") (.basic .Int false) (by decide) (by decide) (by decide) (by rfl) rfl
    (Or.inl rfl) rfl

/-! ### C2: bracket keys and dot keys -/

/-- C2 (code at the failing input): for the one-character segments `a` and
`b`, `SplitJson` answers the bracket key `a[b]` with an error, while the dot
key `a.b` splits into the two segments; and for `ab[c]` it returns only the
segment `ab`, without an error. -/
theorem C2_single_char_segment_rejected :
    SplitJson "a[b]".toList = none ∧
      Split "a.b".toList '.' = ["a".toList, "b".toList] ∧
      SplitJson "ab[c]".toList = some ["ab".toList] := by
  decide

/-! ### C3: a path through a nil pointer field -/

/-- C3 (code at the failing input): with `Profile *Profile` nil, binding the
key `profile.name` panics (in `typev.FieldByName` on the pointer type) before
anything is allocated. -/
theorem C3_pointer_path_panics :
    bindUser zeroUser (oneKey "profile.name" ["bob"]) = .panic := by
  rfl

/-! ### C4: no panic, nil error -/

/-- C4 (code at failing inputs): `NamedStructMap` panics on a value in range
for an `int8` field, on a slice field that holds fewer elements than there
are raw values, on a path through a pointer field and on a path through a
field that is not a struct. -/
theorem C4_panics :
    bindUser zeroUser (oneKey "age" ["5"]) = .panic ∧
      bindUser (userWith 0 (some [.int 7])) (oneKey "tags" ["1", "2"]) = .panic ∧
      bindUser zeroUser (oneKey "profile.nick" ["x"]) = .panic ∧
      bindUser zeroUser (oneKey "count.x" ["1"]) = .panic := by
  refine ⟨?_, ?_, ?_, ?_⟩ <;> rfl

/-! ### C5: integer leaf fields -/

/-- C5 (code at failing inputs): the raw value "5" panics on the `int8` field
`Age`, and it leaves the `uint` field `Limit` (and the whole target)
unchanged; on the `int` field `Count` it is stored. -/
theorem C5_narrow_and_uint_fields :
    bindUser zeroUser (oneKey "age" ["5"]) = .panic ∧
      bindUser zeroUser (oneKey "limit" ["5"]) = .ok (.ptr (some zeroUser)) ∧
      bindUser zeroUser (oneKey "count" ["5"]) =
        .ok (.ptr (some (plug zeroUser [2] (.int 5)))) := by
  refine ⟨?_, ?_, ?_⟩ <;> rfl

/-! ### C6: out-of-range values for narrow integer fields -/

/-- C6 (code at the failing input): the raw value "300", an integer outside
the range of `int8`, parses as an `int` and then panics on the `int8` field
`Age`, whatever the field held. -/
theorem C6_out_of_range_panics :
    Atoi "300".toList = some 300 ∧
      bindUser zeroUser (oneKey "age" ["300"]) = .panic ∧
      bindUser (userWith 7 none) (oneKey "age" ["300"]) = .panic := by
  refine ⟨?_, ?_, ?_⟩ <;> rfl

/-! ### C9: an opt-out tag on a segment that is not the last -/

/-- C9 (code at the failing input): `Secret` carries `form_options:"-"`, yet
binding the key `secret.name` stores the raw value in `Secret.Name`. -/
theorem C9_opt_out_not_honoured_on_path :
    tagLookup userType (fieldOptOut "Secret") formOptions = optOutMark ∧
      bindUser zeroUser (oneKey "secret.name" ["x"]) =
        .ok (.ptr (some (plug zeroUser [6, 0] (.str "x".toList)))) ∧
      plug zeroUser [6, 0] (.str "x".toList) ≠ zeroUser := by
  refine ⟨by decide, rfl, ?_⟩
  simp [plug, zeroUser, userWith, Value.setField, Value.fieldAt]

/-! ### C7: a conversion that fails -/

theorem setLeaf_of_conversionFails (env : Env) (tc : GoType) (f : StructField)
    (t : List GoString) (v : GoString) (tv : RValue)
    (hp : tv.Kind ≠ .Ptr) (hfail : conversionFails env tv.typ tv.val v = true) :
    setLeaf env tc f (v :: t) v tv = .ok tv.val := by
  obtain ⟨typ, val, addr, ro⟩ := tv
  simp only [RValue.Kind] at hp
  simp only [setLeaf, RValue.Kind, hp, if_false]
  cases typ with
  | basic k d =>
    cases k <;>
      simp_all [conversionFails, convert, GoType.Kind, RValue.Kind, Option.isNone_iff_eq_none]
  | time =>
    simp_all [conversionFails, convert, GoType.Kind, RValue.Kind, Option.isNone_iff_eq_none]
  | struct c fs =>
    cases c <;>
      simp_all [conversionFails, convert, GoType.Kind, RValue.Kind]
  | ptr e => simp [GoType.Kind] at hp
  | slice e =>
    simp only [conversionFails, GoType.Kind] at hfail
    split at hfail
    · rename_i e1 l heq
      cases heq
      have hc : convertElem env e v = none := by
        simpa [Option.isNone_iff_eq_none] using hfail
      simp [convert, RValue.Kind, GoType.Kind, GoType.Elem, setElems, hc, Outcome.map]
    · cases hfail
  | array n e => simp [conversionFails, GoType.Kind] at hfail

/-- C7 (as stated, refuted): the raw value "x" does not convert to an `int`.
Binding it to the nil pointer field `Score *int` changes the target: the
field then points to a new zero `int`.  Binding it to the nil slice field
`Tags []int` changes the target too: the field is then a slice of one zero. -/
theorem C7_counterexample :
    Atoi "x".toList = none ∧ ParseInt "x".toList 64 = none ∧
      bindUser zeroUser (oneKey "score" ["x"]) =
        .ok (.ptr (some (plug zeroUser [7] (.ptr (some (.int 0)))))) ∧
      bindUser zeroUser (oneKey "score" ["x"]) ≠ .ok (.ptr (some zeroUser)) ∧
      bindUser zeroUser (oneKey "tags" ["x"]) =
        .ok (.ptr (some (plug zeroUser [4] (.slice (some [.int 0]))))) ∧
      bindUser zeroUser (oneKey "tags" ["x"]) ≠ .ok (.ptr (some zeroUser)) := by
  have h : bindUser zeroUser (oneKey "score" ["x"]) =
      .ok (.ptr (some (plug zeroUser [7] (.ptr (some (.int 0)))))) := rfl
  have h2 : bindUser zeroUser (oneKey "tags" ["x"]) =
      .ok (.ptr (some (plug zeroUser [4] (.slice (some [.int 0]))))) := rfl
  refine ⟨by decide, by decide, h, ?_, h2, ?_⟩
  · rw [h]
    simp [plug, zeroUser, userWith, Value.setField]
  · rw [h2]
    simp [plug, zeroUser, userWith, Value.setField]

/-- C7 (amended): when a key resolves to a settable leaf field that is not a
pointer, not an array and not a nil slice, whatever value the field holds, and
the conversion of the key's first raw value for that field fails (numeric
parse error, no time layout matches, no conversion for the kind; for a slice
field, the first raw value does not convert to an element), `NamedStructMap`
returns normally and leaves the whole target as it was. -/
theorem C7_failed_conversion_keeps_field (env : Env) (ty : GoType) (s : Value)
    (k v : GoString) (t : List GoString) (names : List GoString) (p : List Nat) (tv : RValue)
    (f : StructField)
    (hn : keyNames k = some names)
    (hr : resolve env ty names ⟨ty, s, true, false⟩ = .leaf p tv f)
    (hp : tv.Kind ≠ .Ptr) (hfail : conversionFails env tv.typ tv.val v = true) :
    NamedStructMap env (.ptr ty) (.ptr (some s)) [(k, v :: t)] [] = .ok (.ptr (some s)) := by
  by_cases hs : k = [] ∨ k.head? = some '_'
  · rw [namedStructMap_ptr]
    simp [bindAll, bindKey_skip env ty _ [] k _ hs, Outcome.bind, Outcome.map]
  · have hk : k ≠ [] := fun h => hs (Or.inl h)
    have hu : k.head? ≠ some '_' := fun h => hs (Or.inr h)
    rw [namedStructMap_single env ty s k v t names hk hu hn]
    have hw := walk_leaf env ty (v :: t) v names ⟨ty, s, true, false⟩ p tv f hr
    simp only at hw
    rw [hw, setLeaf_of_conversionFails env ty f t v tv hp hfail]
    have hplug := resolve_leaf_plug_self env ty names ⟨ty, s, true, false⟩ p tv f hr
    simp only at hplug
    simp [Outcome.map, hplug]

/-- C7 (amended), at a `User` with the raw value "x": at the key `count`, and
at the key `tags` when `Tags` already holds the slice `[5, 6]`. -/
theorem C7_failed_conversion_keeps_field_witness :
    NamedStructMap plainEnv (.ptr userType) (.ptr (some (userWith 7 none)))
        [("count".toList, ["x".toList])] [] = .ok (.ptr (some (userWith 7 none))) ∧
      NamedStructMap plainEnv (.ptr userType)
        (.ptr (some (userWith 7 (some [.int 5, .int 6]))))
        [("tags".toList, ["x".toList, "9".toList])] [] =
          .ok (.ptr (some (userWith 7 (some [.int 5, .int 6])))) :=
  ⟨C7_failed_conversion_keeps_field plainEnv userType (userWith 7 none) "count".toList
      "x".toList [] ["count".toList] [2] ⟨.basic .Int false, .int 0, true, false⟩
      (field "Count") (by decide) (by rfl) (by decide) (by decide),
    C7_failed_conversion_keeps_field plainEnv userType (userWith 7 (some [.int 5, .int 6]))
      "tags".toList "x".toList ["9".toList] ["tags".toList] [4]
      ⟨.slice (.basic .Int false), .slice (some [.int 5, .int 6]), true, false⟩
      (field "Tags") (by decide) (by rfl) (by decide) (by decide)⟩

/-! ### C8: keys that cannot be resolved -/

/-- C8 (as stated, refuted): `zzz` names no field of the struct that
`profile.zzz` addresses, and `NamedStructMap` does not return on that key: it
panics on the way through the pointer field `Profile`. -/
theorem C8_counterexample :
    fieldIndex [(field "Name", GoType.basic .String false),
        (field "Nick", GoType.basic .String false)] (Title "zzz".toList) = none ∧
      bindUser zeroUser (oneKey "profile.zzz" ["x"]) = .panic := by
  refine ⟨by decide, rfl⟩

/-- C8 (amended): when every key of the field map either is skipped or has a
path that leads through settable struct fields (no pointers) to a segment
that names no field of the struct it addresses, or to a final field that
carries `form_options:"-"`, `NamedStructMap` returns normally and leaves the
whole target as it was. -/
theorem C8_unresolved_keys_leave_target (env : Env) (ty : GoType) (s : Value)
    (data : List (GoString × List GoString))
    (h : ∀ kt ∈ data, kt.2 ≠ [] ∧ ∀ names, keyNames kt.1 = some names →
      (resolve env ty names ⟨ty, s, true, false⟩ = .unknown ∨
        resolve env ty names ⟨ty, s, true, false⟩ = .optOut)) :
    NamedStructMap env (.ptr ty) (.ptr (some s)) data [] = .ok (.ptr (some s)) := by
  rw [namedStructMap_ptr, bindAll_unresolved env ty s true false data h]
  rfl

/-- C8 (amended), at the keys `home.zzz` (no such field in `Profile`) and
`hidden` (tagged `form_options:"-"`) of a `User`. -/
theorem C8_unresolved_keys_leave_target_witness :
    NamedStructMap plainEnv (.ptr userType) (.ptr (some (userWith 7 none)))
      [("home.zzz".toList, ["x".toList]), ("hidden".toList, ["y".toList])] [] =
      .ok (.ptr (some (userWith 7 none))) :=
  C8_unresolved_keys_leave_target plainEnv userType (userWith 7 none)
    [("home.zzz".toList, ["x".toList]), ("hidden".toList, ["y".toList])]
    (by
      intro kt hkt
      simp only [List.mem_cons, List.mem_singleton, List.not_mem_nil, or_false] at hkt
      rcases hkt with rfl | rfl
      · refine ⟨by simp, ?_⟩
        intro names hn
        have : keyNames "home.zzz".toList = some ["home".toList, "zzz".toList] := by decide
        rw [this] at hn
        cases hn
        exact Or.inl rfl
      · refine ⟨by simp, ?_⟩
        intro names hn
        have : keyNames "hidden".toList = some ["hidden".toList] := by decide
        rw [this] at hn
        cases hn
        exact Or.inr rfl)


/-! ### C10: the order in which the keys are visited -/

theorem Outcome.bind_ok_id {α : Type} (o : Outcome α) : o.bind (fun x => .ok x) = o := by
  cases o <;> rfl

theorem Outcome.bind_map {α β γ : Type} (o : Outcome α) (g : α → β) (h : β → Outcome γ) :
    (o.map g).bind h = o.bind (fun x => h (g x)) := by
  cases o <;> rfl

theorem Outcome.map_bind {α β γ : Type} (o : Outcome α) (h : α → Outcome β) (g : β → γ) :
    (o.bind h).map g = o.bind (fun x => (h x).map g) := by
  cases o <;> rfl

theorem Outcome.bind_assoc {α β γ : Type} (o : Outcome α) (f : α → Outcome β)
    (g : β → Outcome γ) : (o.bind f).bind g = o.bind (fun x => (f x).bind g) := by
  cases o <;> rfl

theorem Outcome.bind_map_comm {α β γ : Type} (o1 : Outcome α) (o2 : Outcome β)
    (g : α → β → γ) :
    o1.bind (fun x => o2.map (fun y => g x y)) = o2.bind (fun y => o1.map (fun x => g x y)) := by
  cases o1 <;> cases o2 <;> rfl

theorem Outcome.bind_panic {α β : Type} (o : Outcome α) :
    o.bind (fun _ => (Outcome.panic : Outcome β)) = .panic := by
  cases o <;> rfl

theorem Commutes.symm {a b : RValue → Outcome Value} {c : RValue} (h : Commutes a b c) :
    Commutes b a c := Eq.symm h

theorem commutes_of_actsAsId {a b : RValue → Outcome Value} {c : RValue}
    (h : ActsAsId a c) : Commutes a b c := by
  unfold Commutes
  have h1 : a c = .ok c.val := h c.val
  have h2 : (fun y => a { c with val := y }) = fun y => Outcome.ok y := funext h
  rw [h1, h2, Outcome.bind_ok_id]
  rfl

theorem commutes_of_alwaysPanics {a b : RValue → Outcome Value} {c : RValue}
    (h : AlwaysPanics a c) : Commutes a b c := by
  unfold Commutes
  have h1 : a c = .panic := h c.val
  rw [h1]
  have h2 : (fun y => a { c with val := y }) = fun _ => Outcome.panic := funext h
  rw [h2, Outcome.bind_panic]
  rfl

/-- The loop over a non-empty list of segments, seen from the field the first
segment leads to. -/
theorem walk_cons_eq (env : Env) (tc : GoType) (t : List GoString) (v : GoString)
    (a : GoString) (r : List GoString) (value : RValue) :
    walk env tc t v (a :: r) value value.typ =
      match value.FieldByName (Title a) with
      | none => .ok value.val
      | some (i, child) =>
        (fieldOp env tc t v r (value.typ.fieldAt i) child).map
          (fun x => value.val.setField i x) := by
  cases hf : value.FieldByName (Title a) with
  | none =>
    cases r with
    | nil => simp only [walk, lastSegment, hf]; split <;> rfl
    | cons b r => simp only [walk, innerSegment, hf]; split <;> rfl
  | some ic =>
    obtain ⟨i, child⟩ := ic
    have hself := fieldByName_setField_self hf
    obtain ⟨conv, fields, vals, f, x, ht, hv, hj, hfi, hx, hc⟩ := fieldByName_shape hf
    have hk : value.Kind = .Struct := by simp [RValue.Kind, ht, GoType.Kind]
    cases r with
    | nil =>
      simp only [walk, lastSegment, hf, hk, ne_eq, not_true_eq_false, if_false, fieldOp]
      by_cases hs : child.CanSet = true
      · simp only [hs, Bool.not_true, Bool.false_eq_true, if_false]
        rw [fieldByName_typeField hf]
        simp only [Outcome.bind]
        by_cases htag : env.tagValue tc (value.typ.fieldAt i) formOptions = optOutMark
        · simp [htag, Outcome.map, hself]
        · simp [htag]
      · simp [hs, Outcome.map, hself]
    | cons b r =>
      simp only [walk, fieldOp]
      by_cases hs : child.CanSet = true
      · by_cases hck : child.Kind = .Struct
        · rw [innerSegment_struct env tc _ value _ i child hk hf hs hck]
          simp [hs, hck]
        · have hpanic : child.typ.FieldByName (Title a) = .panic := by
            have : child.typ.Kind ≠ .Struct := hck
            cases hct : child.typ with
            | basic k d =>
              rw [hct] at this
              cases k <;> simp_all [GoType.FieldByName, GoType.Kind]
            | time => simp [hct, GoType.Kind] at this
            | struct c fs => simp [hct, GoType.Kind] at this
            | ptr e => rfl
            | slice e => rfl
            | array n e => rfl
          simp [innerSegment, hk, hf, hs, hpanic, Outcome.bind, hck, Outcome.map]
      · simp only [innerSegment, hk, hf, hs]
        by_cases hro : child.ro = true <;> simp [hro, Outcome.map, hself]

theorem setField_setField_same (v : Value) (i : Nat) (x y : Value) :
    (v.setField i x).setField i y = v.setField i y := by
  cases v <;> simp [Value.setField]

theorem setField_comm (v : Value) (i j : Nat) (x y : Value) (h : i ≠ j) :
    (v.setField i x).setField j y = (v.setField j y).setField i x := by
  cases v <;> simp [Value.setField]
  exact List.set_comm x y _ h

theorem fieldByName_none_setField {value : RValue} {name : GoString}
    (h : value.FieldByName name = none) (j : Nat) (x : Value) :
    RValue.FieldByName { value with val := value.val.setField j x } name = none := by
  obtain ⟨typ, val, addr, ro⟩ := value
  unfold RValue.FieldByName at h ⊢
  cases typ <;> try rfl
  rename_i conv fields
  cases val <;> try rfl
  rename_i vals
  simp only [Value.setField] at h ⊢
  cases hi : fieldIndex fields name with
  | none => rfl
  | some i =>
    simp only [hi] at h ⊢
    cases hf : fields[i]? with
    | none => rfl
    | some f =>
      simp only [hf] at h ⊢
      cases hx : vals[i]? with
      | some x0 => simp [hx] at h
      | none =>
        have : (vals.set j x)[i]? = none := by
          rw [List.getElem?_eq_none_iff] at hx ⊢
          simpa using hx
        simp [this]

theorem fieldByName_setField_ne {value : RValue} {name : GoString} {i : Nat} {child : RValue}
    (h : value.FieldByName name = some (i, child)) (j : Nat) (x : Value) (hij : i ≠ j) :
    RValue.FieldByName { value with val := value.val.setField j x } name = some (i, child) := by
  obtain ⟨conv, fields, vals, f, x0, ht, hv, hj, hf, hx, rfl⟩ := fieldByName_shape h
  obtain ⟨typ, val, addr, ro⟩ := value
  simp only at ht hv
  subst ht hv
  have : (vals.set j x)[i]? = some x0 := by
    rw [List.getElem?_set_ne (Ne.symm hij), hx]
  simp [RValue.FieldByName, Value.setField, hj, hf, this]

theorem fieldByName_setField_eq {value : RValue} {name : GoString} {i : Nat} {child : RValue}
    (h : value.FieldByName name = some (i, child)) (x : Value) :
    RValue.FieldByName { value with val := value.val.setField i x } name =
      some (i, { child with val := x }) := by
  obtain ⟨conv, fields, vals, f, x0, ht, hv, hj, hf, hx, rfl⟩ := fieldByName_shape h
  obtain ⟨typ, val, addr, ro⟩ := value
  simp only at ht hv
  subst ht hv
  have hlt : i < vals.length := by
    by_contra hge
    rw [List.getElem?_eq_none (by omega)] at hx
    cases hx
  have : (vals.set i x)[i]? = some x := by
    rw [List.getElem?_set_self hlt]
  simp [RValue.FieldByName, Value.setField, hj, hf, this]

theorem fieldIndexFrom_name (name : GoString) :
    ∀ (fields : List (StructField × GoType)) (k i : Nat),
      fieldIndexFrom name fields k = some i →
      k ≤ i ∧ ∃ f, fields[i - k]? = some f ∧ f.1.Name = name := by
  intro fields
  induction fields with
  | nil => intro k i h; simp [fieldIndexFrom] at h
  | cons g rest ih =>
    intro k i h
    simp only [fieldIndexFrom] at h
    split at h
    · rename_i hg
      cases h
      exact ⟨le_refl _, g, by simp, hg⟩
    · obtain ⟨hle, f, hf, hn⟩ := ih (k + 1) i h
      refine ⟨by omega, f, ?_, hn⟩
      have : i - k = (i - (k + 1)) + 1 := by omega
      rw [this, List.getElem?_cons_succ]
      exact hf

theorem fieldByName_index_ne {value : RValue} {n1 n2 : GoString} {i j : Nat}
    {c1 c2 : RValue} (h1 : value.FieldByName n1 = some (i, c1))
    (h2 : value.FieldByName n2 = some (j, c2)) (hn : n1 ≠ n2) : i ≠ j := by
  obtain ⟨conv, fields, vals, f, x, ht, hv, hj, hf, hx, rfl⟩ := fieldByName_shape h1
  obtain ⟨conv', fields', vals', f', x', ht', hv', hj', hf', hx', rfl⟩ := fieldByName_shape h2
  rw [ht] at ht'
  cases ht'
  intro hij
  subst hij
  unfold fieldIndex at hj hj'
  split at hj
  · cases hj
  · split at hj'
    · cases hj'
    · obtain ⟨_, g, hg, hgn⟩ := fieldIndexFrom_name n1 fields 0 i hj
      obtain ⟨_, g', hg', hgn'⟩ := fieldIndexFrom_name n2 fields 0 i hj'
      simp only [Nat.sub_zero] at hg hg'
      rw [hg] at hg'
      cases hg'
      exact hn (hgn.symm.trans hgn')

theorem fieldByName_none_of_not_struct (value : RValue) (name : GoString)
    (h : ∀ c fs, value.typ ≠ .struct c fs) : value.FieldByName name = none := by
  obtain ⟨typ, val, addr, ro⟩ := value
  cases typ with
  | struct c fs => exact absurd rfl (h c fs)
  | _ => rfl

theorem walk_actsAsId_of_not_struct (env : Env) (tc : GoType) (t : List GoString)
    (v : GoString) (names : List GoString) (c : RValue)
    (h : ∀ cv fs, c.typ ≠ .struct cv fs) :
    ActsAsId (fun c => walk env tc t v names c c.typ) c := by
  intro x
  cases names with
  | nil => rfl
  | cons a r =>
    simp only
    rw [walk_cons_eq, fieldByName_none_of_not_struct _ _ (by simpa using h)]

/-- The last segment and a longer path through the same field do not
interfere: one of the two leaves the field alone, or the longer path
panics whatever the field holds. -/
theorem fieldOp_comm_last_inner (env : Env) (tc : GoType) (t1 t2 : List GoString)
    (v1 v2 : GoString) (b : GoString) (r : List GoString) (f : StructField) (c : RValue) :
    Commutes (fun c => fieldOp env tc t1 v1 [] f c)
      (fun c => fieldOp env tc t2 v2 (b :: r) f c) c := by
  obtain ⟨typ, val, addr, ro⟩ := c
  by_cases hs : (addr && !ro) = true
  · by_cases hk : typ.Kind = .Struct
    · by_cases ht : typ = .time
      · subst ht
        apply Commutes.symm
        apply commutes_of_actsAsId
        intro x
        have := walk_actsAsId_of_not_struct env tc t2 v2 (b :: r)
          ⟨.time, x, addr, ro⟩ (by intro cv fs h; cases h) x
        simp only at this
        simp [fieldOp, RValue.CanSet, hs, RValue.Kind, GoType.Kind, this]
      · apply commutes_of_actsAsId
        intro x
        simp only [fieldOp, RValue.CanSet, hs, Bool.not_true, Bool.false_eq_true, if_false]
        split
        · rfl
        · cases typ with
          | basic k d =>
            simp only [GoType.Kind] at hk
            subst hk
            simp [setLeaf, convert, RValue.Kind, GoType.Kind]
          | time => exact absurd rfl ht
          | struct cv fs =>
            cases cv <;> simp [setLeaf, convert, RValue.Kind, GoType.Kind]
          | ptr e => simp [GoType.Kind] at hk
          | slice e => simp [GoType.Kind] at hk
          | array n e => simp [GoType.Kind] at hk
    · apply Commutes.symm
      apply commutes_of_alwaysPanics
      intro x
      simp [fieldOp, RValue.CanSet, hs, RValue.Kind, hk]
  · apply commutes_of_actsAsId
    intro x
    simp [fieldOp, RValue.CanSet, hs]

/-- Two longer paths through the same field commute on the field when the
loops over their remaining segments commute. -/
theorem fieldOp_comm_inner_inner (env : Env) (tc : GoType) (t1 t2 : List GoString)
    (v1 v2 : GoString) (a : GoString) (r1 : List GoString) (b : GoString) (r2 : List GoString)
    (f : StructField) (c : RValue)
    (ih : Commutes (fun c => walk env tc t1 v1 (a :: r1) c c.typ)
      (fun c => walk env tc t2 v2 (b :: r2) c c.typ) c) :
    Commutes (fun c => fieldOp env tc t1 v1 (a :: r1) f c)
      (fun c => fieldOp env tc t2 v2 (b :: r2) f c) c := by
  obtain ⟨typ, val, addr, ro⟩ := c
  by_cases hs : (addr && !ro) = true
  · by_cases hk : typ.Kind = .Struct
    · unfold Commutes at ih ⊢
      simpa [fieldOp, RValue.CanSet, hs, RValue.Kind, hk] using ih
    · apply commutes_of_alwaysPanics
      intro x
      simp [fieldOp, RValue.CanSet, hs, RValue.Kind, hk]
  · by_cases hro : ro = true
    · apply commutes_of_alwaysPanics
      intro x
      simp [fieldOp, RValue.CanSet, hs, hro]
    · apply commutes_of_actsAsId
      intro x
      have hro' : ro = false := by simpa using hro
      subst hro'
      have ha : addr = false := by simpa using hs
      subst ha
      simp [fieldOp, RValue.CanSet]

theorem walk_set_none (env : Env) (tc : GoType) (t : List GoString) (v : GoString)
    (a : GoString) (r : List GoString) (value : RValue)
    (hf : value.FieldByName (Title a) = none) (j : Nat) (x : Value) :
    walk env tc t v (a :: r) { value with val := value.val.setField j x } value.typ =
      .ok (value.val.setField j x) := by
  have h := walk_cons_eq env tc t v a r { value with val := value.val.setField j x }
  simp only at h
  rw [h, fieldByName_none_setField hf]

theorem walk_set_ne (env : Env) (tc : GoType) (t : List GoString) (v : GoString)
    (a : GoString) (r : List GoString) (value : RValue) (i : Nat) (c : RValue)
    (hf : value.FieldByName (Title a) = some (i, c)) (j : Nat) (x : Value) (hij : i ≠ j) :
    walk env tc t v (a :: r) { value with val := value.val.setField j x } value.typ =
      (fieldOp env tc t v r (value.typ.fieldAt i) c).map
        (fun y => (value.val.setField j x).setField i y) := by
  have h := walk_cons_eq env tc t v a r { value with val := value.val.setField j x }
  simp only at h
  rw [h, fieldByName_setField_ne hf j x hij]

theorem walk_set_eq (env : Env) (tc : GoType) (t : List GoString) (v : GoString)
    (a : GoString) (r : List GoString) (value : RValue) (i : Nat) (c : RValue)
    (hf : value.FieldByName (Title a) = some (i, c)) (x : Value) :
    walk env tc t v (a :: r) { value with val := value.val.setField i x } value.typ =
      (fieldOp env tc t v r (value.typ.fieldAt i) { c with val := x }).map
        (fun y => value.val.setField i y) := by
  have h := walk_cons_eq env tc t v a r { value with val := value.val.setField i x }
  simp only at h
  rw [h, fieldByName_setField_eq hf x]
  simp only [setField_setField_same]

theorem Outcome.ok_bind {α β : Type} (a : α) (f : α → Outcome β) :
    (Outcome.ok a).bind f = f a := rfl

theorem rvalue_with_val_self (value : RValue) : { value with val := value.val } = value := by
  cases value; rfl

theorem walk_comm_of_none (env : Env) (tc : GoType) (t1 t2 : List GoString) (v1 v2 : GoString)
    (a : GoString) (r1 : List GoString) (n2 : List GoString) (value : RValue)
    (hf : value.FieldByName (Title a) = none) :
    Commutes (fun c => walk env tc t1 v1 (a :: r1) c c.typ)
      (fun c => walk env tc t2 v2 n2 c c.typ) value := by
  unfold Commutes
  simp only
  have h1 : walk env tc t1 v1 (a :: r1) value value.typ = .ok value.val := by
    rw [walk_cons_eq, hf]
  rw [h1, Outcome.ok_bind, rvalue_with_val_self]
  cases n2 with
  | nil => simp only [walk, Outcome.ok_bind, rvalue_with_val_self]; exact h1.symm
  | cons b r2 =>
    rw [walk_cons_eq]
    cases hf2 : value.FieldByName (Title b) with
    | none => simp only [Outcome.ok_bind, rvalue_with_val_self]; exact h1.symm
    | some jc =>
      obtain ⟨j, c2⟩ := jc
      simp only
      rw [Outcome.bind_map]
      have : (fun x => walk env tc t1 v1 (a :: r1)
          { value with val := value.val.setField j x } value.typ) =
          fun x => Outcome.ok (value.val.setField j x) :=
        funext fun x => walk_set_none env tc t1 v1 a r1 value hf j x
      rw [this]
      cases fieldOp env tc t2 v2 r2 (value.typ.fieldAt j) c2 <;> rfl

/-- The loops over two lists of segments that differ after title-casing
commute on every value. -/
theorem walk_comm (env : Env) (tc : GoType) (t1 t2 : List GoString) (v1 v2 : GoString) :
    ∀ (n1 n2 : List GoString) (value : RValue), n1.map Title ≠ n2.map Title →
      Commutes (fun c => walk env tc t1 v1 n1 c c.typ)
        (fun c => walk env tc t2 v2 n2 c c.typ) value := by
  intro n1
  induction n1 with
  | nil =>
    intro n2 value _
    apply commutes_of_actsAsId
    intro x
    rfl
  | cons a r1 ih =>
    intro n2 value hne
    cases n2 with
    | nil =>
      apply Commutes.symm
      apply commutes_of_actsAsId
      intro x
      rfl
    | cons b r2 =>
      cases hf1 : value.FieldByName (Title a) with
      | none => exact walk_comm_of_none env tc t1 t2 v1 v2 a r1 (b :: r2) value hf1
      | some ic =>
        obtain ⟨i, c1⟩ := ic
        cases hf2 : value.FieldByName (Title b) with
        | none =>
          exact (walk_comm_of_none env tc t2 t1 v2 v1 b r2 (a :: r1) value hf2).symm
        | some jc =>
          obtain ⟨j, c2⟩ := jc
          unfold Commutes
          simp only
          rw [walk_cons_eq env tc t1 v1 a r1 value, walk_cons_eq env tc t2 v2 b r2 value, hf1, hf2]
          simp only
          rw [Outcome.bind_map, Outcome.bind_map]
          by_cases hab : Title a = Title b
          · rw [hab, hf2] at hf1
            cases hf1
            have hr : r1.map Title ≠ r2.map Title := by
              intro h
              apply hne
              simp [hab, h]
            have e1 : (fun x => walk env tc t2 v2 (b :: r2)
                { value with val := value.val.setField i x } value.typ) = fun x =>
                (fieldOp env tc t2 v2 r2 (value.typ.fieldAt i) { c1 with val := x }).map
                  (fun y => value.val.setField i y) :=
              funext fun x => walk_set_eq env tc t2 v2 b r2 value i c1 hf2 x
            have e2 : (fun x => walk env tc t1 v1 (a :: r1)
                { value with val := value.val.setField i x } value.typ) = fun x =>
                (fieldOp env tc t1 v1 r1 (value.typ.fieldAt i) { c1 with val := x }).map
                  (fun y => value.val.setField i y) :=
              funext fun x => walk_set_eq env tc t1 v1 a r1 value i c1 (hab ▸ hf2) x
            rw [e1, e2, ← Outcome.map_bind, ← Outcome.map_bind]
            congr 1
            have hc : Commutes (fun c => fieldOp env tc t1 v1 r1 (value.typ.fieldAt i) c)
                (fun c => fieldOp env tc t2 v2 r2 (value.typ.fieldAt i) c) c1 := by
              cases r1 with
              | nil =>
                cases r2 with
                | nil => exact absurd rfl hr
                | cons b2 r2 => exact fieldOp_comm_last_inner env tc t1 t2 v1 v2 b2 r2 _ c1
              | cons a1 r1 =>
                cases r2 with
                | nil =>
                  exact (fieldOp_comm_last_inner env tc t2 t1 v2 v1 a1 r1 _ c1).symm
                | cons b2 r2 =>
                  exact fieldOp_comm_inner_inner env tc t1 t2 v1 v2 a1 r1 b2 r2 _ c1
                    (ih (b2 :: r2) c1 hr)
            exact hc
          · have hij : i ≠ j := fieldByName_index_ne hf1 hf2 hab
            have e1 : (fun x => walk env tc t2 v2 (b :: r2)
                { value with val := value.val.setField i x } value.typ) = fun x =>
                (fieldOp env tc t2 v2 r2 (value.typ.fieldAt j) c2).map
                  (fun y => (value.val.setField i x).setField j y) :=
              funext fun x => walk_set_ne env tc t2 v2 b r2 value j c2 hf2 i x (Ne.symm hij)
            have e2 : (fun y => walk env tc t1 v1 (a :: r1)
                { value with val := value.val.setField j y } value.typ) = fun y =>
                (fieldOp env tc t1 v1 r1 (value.typ.fieldAt i) c1).map
                  (fun x => (value.val.setField i x).setField j y) := by
              funext y
              rw [walk_set_ne env tc t1 v1 a r1 value i c1 hf1 j y hij]
              congr 1
              funext x
              exact (setField_comm value.val i j x y hij).symm
            rw [e1, e2]
            exact Outcome.bind_map_comm _ _ _

theorem walk_of_not_structKind (env : Env) (tc : GoType) (t : List GoString) (v : GoString)
    (names : List GoString) (value : RValue) (typev : GoType) (h : value.Kind ≠ .Struct) :
    walk env tc t v names value typev = .ok value.val := by
  match names with
  | [] => rfl
  | [a] => simp [walk, lastSegment, h]
  | a :: b :: r => simp [walk, innerSegment, h]

/-- A round of the loop over the field map either leaves the target alone,
or panics, or walks the path of the key, whatever the target holds. -/
theorem bindKey_cases (env : Env) (tc : GoType) (topName k : GoString) (t : List GoString) :
    (∀ c : RValue, bindKey env tc c topName k t = .ok c.val) ∨
      (∀ c : RValue, bindKey env tc c topName k t = .panic) ∨
      ∃ names v, keyPath topName k = some (names.map Title) ∧
        ∀ c : RValue, bindKey env tc c topName k t = walk env tc t v names c tc := by
  by_cases h1 : k = [] ∨ k.head? = some '_'
  · exact Or.inl fun c => by simp [bindKey, h1]
  · by_cases h2 : topName ≠ [] ∧ (!HasPrefix k topName) = true
    · exact Or.inl fun c => by
        simp only [bindKey]
        rw [if_neg h1, if_pos h2]
    · by_cases h3 : topName ≠ [] ∧ k.length < topName.length + 1
      · exact Or.inr (Or.inl fun c => by
          simp only [bindKey]
          rw [if_neg h1, if_neg h2, if_pos h3])
      · cases t with
        | nil =>
          exact Or.inr (Or.inl fun c => by
            simp only [bindKey]
            rw [if_neg h1, if_neg h2, if_neg h3])
        | cons v t =>
          cases hn : keyNames (if topName ≠ [] then k.drop (topName.length + 1) else k) with
          | none =>
            exact Or.inl fun c => by
              simp only [bindKey]
              rw [if_neg h1, if_neg h2, if_neg h3]
              simp only [hn]
          | some names =>
            refine Or.inr (Or.inr ⟨names, v, ?_, fun c => ?_⟩)
            · simp only [keyPath]
              rw [if_neg h1, if_neg h2]
              simp only [hn, Option.map_some']
            · simp only [bindKey]
              rw [if_neg h1, if_neg h2, if_neg h3]
              simp only [hn]

theorem bindKey_comm (env : Env) (tc : GoType) (topName : GoString)
    (e1 e2 : GoString × List GoString) (c : RValue)
    (hc : c.typ = tc ∨ c.Kind ≠ .Struct) (hd : DistinctPaths topName e1 e2) :
    Commutes (fun c => bindKey env tc c topName e1.1 e1.2)
      (fun c => bindKey env tc c topName e2.1 e2.2) c := by
  rcases bindKey_cases env tc topName e1.1 e1.2 with h1 | h1 | ⟨n1, v1, hp1, h1⟩
  · exact commutes_of_actsAsId fun x => h1 _
  · exact commutes_of_alwaysPanics fun x => h1 _
  · rcases bindKey_cases env tc topName e2.1 e2.2 with h2 | h2 | ⟨n2, v2, hp2, h2⟩
    · exact (commutes_of_actsAsId fun x => h2 _).symm
    · exact (commutes_of_alwaysPanics fun x => h2 _).symm
    · have e1' : (fun c => bindKey env tc c topName e1.1 e1.2) =
          fun c => walk env tc e1.2 v1 n1 c tc := funext h1
      have e2' : (fun c => bindKey env tc c topName e2.1 e2.2) =
          fun c => walk env tc e2.2 v2 n2 c tc := funext h2
      rw [e1', e2']
      rcases hc with hc | hc
      · subst hc
        apply walk_comm env c.typ e1.2 e2.2 v1 v2 n1 n2 c
        intro heq
        have := hd (by rw [hp1, hp2, heq])
        rw [hp1] at this
        cases this
      · apply commutes_of_actsAsId
        intro x
        exact walk_of_not_structKind env tc e1.2 v1 n1 _ tc hc

theorem distinctPaths_symm (topName : GoString) {e1 e2 : GoString × List GoString}
    (h : DistinctPaths topName e1 e2) : DistinctPaths topName e2 e1 := by
  intro heq
  have := h heq.symm
  rw [heq, this]

/-- The loop over the field map gives the same result for every order of
visiting the entries, when no two entries walk the same path. -/
theorem bindAll_perm (env : Env) (tc : GoType) (topName : GoString)
    {d1 d2 : List (GoString × List GoString)} (hperm : d1.Perm d2) :
    ∀ (vc : RValue), (vc.typ = tc ∨ vc.Kind ≠ .Struct) →
      d1.Pairwise (DistinctPaths topName) →
      bindAll env tc topName d1 vc = bindAll env tc topName d2 vc := by
  induction hperm with
  | nil => intro vc _ _; rfl
  | cons e _ ih =>
    intro vc hvc hd
    obtain ⟨k, t⟩ := e
    simp only [bindAll]
    congr 1
    funext x
    exact ih { vc with val := x } hvc (List.Pairwise.of_cons hd)
  | swap e1 e2 l =>
    intro vc hvc hd
    obtain ⟨k1, t1⟩ := e1
    obtain ⟨k2, t2⟩ := e2
    simp only [bindAll]
    rw [← Outcome.bind_assoc, ← Outcome.bind_assoc]
    congr 1
    have h12 : DistinctPaths topName (k2, t2) (k1, t1) := by
      rw [List.pairwise_cons] at hd
      exact hd.1 _ (List.mem_cons_self _ _)
    exact bindKey_comm env tc topName (k2, t2) (k1, t1) vc hvc h12
  | trans h12 _ ih1 ih2 =>
    intro vc hvc hd
    rw [ih1 vc hvc hd]
    exact ih2 vc hvc (h12.pairwise hd (fun h => distinctPaths_symm topName h))

/-- C10 (as stated, refuted): the keys `count` and `Count` both address the
field `Count`; visiting them in the two possible orders leaves 13 in one case
and 12 in the other. -/
theorem C10_counterexample :
    bindUser zeroUser [("count".toList, ["12".toList]), ("Count".toList, ["13".toList])] ≠
      bindUser zeroUser [("Count".toList, ["13".toList]), ("count".toList, ["12".toList])] := by
  have h1 : bindUser zeroUser
      [("count".toList, ["12".toList]), ("Count".toList, ["13".toList])] =
      .ok (.ptr (some (plug zeroUser [2] (.int 13)))) := rfl
  have h2 : bindUser zeroUser
      [("Count".toList, ["13".toList]), ("count".toList, ["12".toList])] =
      .ok (.ptr (some (plug zeroUser [2] (.int 12)))) := rfl
  rw [h1, h2]
  simp [plug, zeroUser, userWith, Value.setField]

/-- C10 (amended): for every target that is a tree of values (as every
`Value` is: no two fields share memory) and whose struct types have no
embedded fields (the struct types of this embedding, where a path of segments
names at most one field), and every two orders `d1`, `d2` of the same
key/values pairs with ASCII keys in which no two keys walk the same
title-cased path, `NamedStructMap` gives the same result (the same target, or
a panic in both cases). -/
theorem C10_order_independent (env : Env) (tc : GoType) (m : Value) (topName : GoString)
    (d1 d2 : List (GoString × List GoString)) (hperm : d1.Perm d2)
    (_hascii : ∀ e ∈ d1, isASCII e.1 = true)
    (hd : d1.Pairwise (DistinctPaths topName)) :
    NamedStructMap env tc m d1 topName = NamedStructMap env tc m d2 topName := by
  unfold NamedStructMap
  simp only
  split
  · congr 1
    apply bindAll_perm env tc.Elem topName hperm _ _ hd
    unfold RValue.Elem
    simp only
    split
    · exact Or.inl rfl
    · exact Or.inr (by simp [RValue.Kind, RValue.invalid, GoType.Kind])
  · exact bindAll_perm env tc topName hperm _ (Or.inl rfl) hd

/-- C10 (amended), at the keys `name` and `count` of a zero `User`. -/
theorem C10_order_independent_witness :
    NamedStructMap plainEnv (.ptr userType) (.ptr (some zeroUser))
        [("name".toList, ["bob".toList]), ("count".toList, ["12".toList])] [] =
      NamedStructMap plainEnv (.ptr userType) (.ptr (some zeroUser))
        [("count".toList, ["12".toList]), ("name".toList, ["bob".toList])] [] :=
  C10_order_independent plainEnv (.ptr userType) (.ptr (some zeroUser)) []
    [("name".toList, ["bob".toList]), ("count".toList, ["12".toList])]
    [("count".toList, ["12".toList]), ("name".toList, ["bob".toList])]
    (List.Perm.swap _ _ _) (by decide)
    (by
      refine List.Pairwise.cons ?_ (List.Pairwise.cons ?_ List.Pairwise.nil)
      · intro e he
        simp only [List.mem_singleton] at he
        subst he
        intro h
        exact absurd h (by decide)
      · intro e he
        cases he)


/-! ### C16, C17: the errors of Bind -/

/-- C16: on a request whose body is nil, `Bind` returns the HTTP error
`NewHTTPError(http.StatusBadRequest, ...)`, of status 400, and the target is
as it was. -/
theorem C16_nil_body_bad_request (env : Env) (benv : BindEnv) (r : Request) (tc : GoType)
    (i : Value) (h : r.Body = none) :
    Bind env benv r tc i =
      .ok (some (.http 400 "Request body can't be nil".toList), i) := by
  simp [Bind, h, StatusBadRequest]

/-- C16, at a request without a body and with a JSON content type, for the
target `&User{}`. -/
theorem C16_nil_body_bad_request_witness :
    Bind plainEnv plainBindEnv ⟨none, "application/json".toList, [], none⟩ (.ptr userType)
        (.ptr (some zeroUser)) =
      .ok (some (.http 400 "Request body can't be nil".toList), .ptr (some zeroUser)) :=
  C16_nil_body_bad_request plainEnv plainBindEnv ⟨none, "application/json".toList, [], none⟩
    (.ptr userType) (.ptr (some zeroUser)) rfl

/-- C17: on a request with a body whose content type neither begins with the
JSON, XML or URL-encoded-form media type nor contains the multipart-form
media type, `Bind` returns `ErrUnsupportedMediaType` and the target is as it
was. -/
theorem C17_unsupported_media_type (env : Env) (benv : BindEnv) (r : Request) (tc : GoType)
    (i : Value) (body : GoString) (hb : r.Body = some body)
    (hj : HasPrefix r.ContentType benv.ApplicationJSON = false)
    (hx : HasPrefix r.ContentType benv.ApplicationXML = false)
    (hf : HasPrefix r.ContentType benv.ApplicationForm = false)
    (hm : Contains r.ContentType benv.MultipartForm = false) :
    Bind env benv r tc i = .ok (some .unsupportedMediaType, i) := by
  simp [Bind, hb, hj, hx, hf, hm]

/-- C17, at a request with the content type `text/plain`, for the target
`&User{}`. -/
theorem C17_unsupported_media_type_witness :
    Bind plainEnv plainBindEnv
        ⟨some "name=bob".toList, "text/plain".toList, [("name".toList, ["bob".toList])], none⟩
        (.ptr userType) (.ptr (some zeroUser)) =
      .ok (some .unsupportedMediaType, .ptr (some zeroUser)) :=
  C17_unsupported_media_type plainEnv plainBindEnv
    ⟨some "name=bob".toList, "text/plain".toList, [("name".toList, ["bob".toList])], none⟩
    (.ptr userType) (.ptr (some zeroUser)) "name=bob".toList rfl (by decide) (by decide)
    (by decide) (by decide)

/-! ### C20: a module that never expires -/

/-- C20 (code at the failing input): an installed, enabled module with
`Expired = 0` is reported as expired at every time after the epoch, here at
the Unix time 1700000000. -/
theorem C20_zero_expiry_reported_expired :
    Module.Valid ⟨0, 1600000000, 0⟩ 1700000000 = some .ErrModuleHasExpired := by
  decide

/-! ### C19: KVData keeps the order of insertion -/

theorem indexGet_indexSet (index : List (GoString × List Nat)) (k k1 : GoString)
    (v : List Nat) :
    indexGet (indexSet index k v) k1 = if k = k1 then some v else indexGet index k1 := by
  induction index with
  | nil =>
    simp only [indexSet, indexGet]
  | cons e rest ih =>
    simp only [indexSet]
    by_cases he : e.1 = k
    · simp only [he, if_true, indexGet]
      by_cases hk : k = k1
      · simp [hk]
      · simp [hk, he]
    · simp only [he, if_false, indexGet]
      by_cases hk1 : e.1 = k1
      · have : k ≠ k1 := fun h => he (hk1.trans h.symm)
        simp [hk1, this]
      · simp [hk1, ih]

theorem positionsFrom_append (k : GoString) (l : List (GoString × GoString))
    (e : GoString × GoString) :
    ∀ i, positionsFrom k (l ++ [e]) i =
      positionsFrom k l i ++ (if e.1 = k then [i + l.length] else []) := by
  induction l with
  | nil => intro i; simp [positionsFrom]
  | cons x rest ih =>
    intro i
    have : i + 1 + rest.length = i + (rest.length + 1) := by omega
    have ih1 := ih (i + 1)
    rw [this] at ih1
    show positionsFrom k (x :: (rest ++ [e])) i = _
    simp only [positionsFrom, List.length_cons, ih1]
    by_cases hx : x.1 = k <;> simp [hx]

theorem addAll_append (l : List (GoString × GoString)) (e : GoString × GoString) :
    addAll (l ++ [e]) = (addAll l).Add e.1 e.2 := by
  simp [addAll, List.foldl_append]

/-- The state of a `KVData` after the pairs `adds` were added: the slice holds
the pairs in order, and the index holds for every key that was added the
positions at which it was added. -/
theorem addAll_state (adds : List (GoString × GoString)) :
    (addAll adds).slice = adds.map (fun e => KV.of e.1 e.2) ∧
      ∀ k, indexGet (addAll adds).index k =
        if positionsFrom k adds 0 = [] then none else some (positionsFrom k adds 0) := by
  induction adds using List.reverseRecOn with
  | nil => exact ⟨rfl, fun k => rfl⟩
  | append_singleton l e ih =>
    obtain ⟨hs, hi⟩ := ih
    rw [addAll_append]
    refine ⟨by simp [KVData.Add, hs], fun k => ?_⟩
    rw [positionsFrom_append]
    have hlen : (addAll l).slice.length = l.length := by simp [hs]
    simp only [KVData.Add, hlen, Nat.zero_add]
    by_cases hk : e.1 = k
    · subst hk
      cases hg : indexGet (addAll l).index e.1 with
      | none =>
        have hp : positionsFrom e.1 l 0 = [] := by
          have := hi e.1
          rw [hg] at this
          by_contra hne
          simp [hne] at this
        simp [indexGet_indexSet, hp]
      | some ps =>
        have hp : positionsFrom e.1 l 0 = ps := by
          have := hi e.1
          rw [hg] at this
          by_cases hne : positionsFrom e.1 l 0 = []
          · simp [hne] at this
          · simpa [hne] using this.symm
        simp [indexGet_indexSet, hg, hp]
    · cases hg : indexGet (addAll l).index e.1 with
      | none => simp [indexGet_indexSet, hk, hi k]
      | some ps => simp [indexGet_indexSet, hk, hi k]

theorem positionsFrom_mem (k : GoString) :
    ∀ (l : List (GoString × GoString)) (i j : Nat),
      j ∈ positionsFrom k l i ↔ i ≤ j ∧ (l[j - i]?.map Prod.fst) = some k := by
  intro l
  induction l with
  | nil => intro i j; simp [positionsFrom]
  | cons x rest ih =>
    intro i j
    simp only [positionsFrom]
    by_cases hij : j = i
    · subst hij
      by_cases hx : x.1 = k
      · simp [hx]
      · simp only [hx, if_false, ih, Nat.sub_self, List.getElem?_cons_zero, Option.map_some',
          Option.some.injEq, le_refl, true_and, iff_false]
        omega
    · have hstep : ∀ (h : i + 1 ≤ j), (x :: rest)[j - i]? = rest[j - (i + 1)]? := by
        intro h
        have : j - i = (j - (i + 1)) + 1 := by omega
        rw [this, List.getElem?_cons_succ]
      by_cases hx : x.1 = k
      · simp only [hx, if_true, List.mem_cons, hij, false_or, ih]
        constructor
        · rintro ⟨h1, h2⟩
          exact ⟨by omega, by rw [hstep h1]; exact h2⟩
        · rintro ⟨h1, h2⟩
          have h3 : i + 1 ≤ j := by omega
          exact ⟨h3, by rw [← hstep h3]; exact h2⟩
      · simp only [hx, if_false, ih]
        constructor
        · rintro ⟨h1, h2⟩
          exact ⟨by omega, by rw [hstep h1]; exact h2⟩
        · rintro ⟨h1, h2⟩
          have h3 : i + 1 ≤ j := by omega
          exact ⟨h3, by rw [← hstep h3]; exact h2⟩

theorem positionsFrom_sorted (k : GoString) :
    ∀ (l : List (GoString × GoString)) (i : Nat),
      (positionsFrom k l i).Pairwise (· < ·) := by
  intro l
  induction l with
  | nil => intro i; simp [positionsFrom]
  | cons x rest ih =>
    intro i
    simp only [positionsFrom]
    by_cases hx : x.1 = k
    · simp only [hx, if_true, List.pairwise_cons]
      refine ⟨fun j hj => ?_, ih (i + 1)⟩
      have := (positionsFrom_mem k rest (i + 1) j).1 hj
      omega
    · simp only [hx, if_false]
      exact ih (i + 1)

theorem positionsFrom_head (k : GoString) :
    ∀ (l : List (GoString × GoString)) (i j : Nat) (ps : List Nat),
      positionsFrom k l i = j :: ps →
      i ≤ j ∧ (l[j - i]?.map Prod.snd) = some (firstValue k l) := by
  intro l
  induction l with
  | nil => intro i j ps h; simp [positionsFrom] at h
  | cons x rest ih =>
    intro i j ps h
    simp only [positionsFrom] at h
    by_cases hx : x.1 = k
    · simp only [hx, if_true, List.cons.injEq] at h
      obtain ⟨rfl, _⟩ := h
      simp [firstValue, hx]
    · simp only [hx, if_false] at h
      obtain ⟨h1, h2⟩ := ih (i + 1) j ps h
      refine ⟨by omega, ?_⟩
      have : j - i = (j - (i + 1)) + 1 := by omega
      rw [this, List.getElem?_cons_succ, h2]
      simp [firstValue, hx]

theorem positionsFrom_nil_firstValue (k : GoString) :
    ∀ (l : List (GoString × GoString)) (i : Nat),
      positionsFrom k l i = [] → firstValue k l = [] := by
  intro l
  induction l with
  | nil => intro i _; rfl
  | cons x rest ih =>
    intro i h
    simp only [positionsFrom] at h
    by_cases hx : x.1 = k
    · simp [hx] at h
    · simp only [hx, if_false] at h
      simp [firstValue, hx, ih (i + 1) h]

/-- C19: after any sequence of `Add` calls on a new `KVData`, `Slice()` holds
the added pairs in the order in which they were added; for every key `k`,
`Index(k)` is strictly ascending and holds exactly the positions `i` with
`Slice()[i].K = k`; and `Get(k)` returns, without a panic, the first value
added under `k`, and the empty string when `k` was never added. -/
theorem C19_kvdata_keeps_insertion_order (adds : List (GoString × GoString)) (k : GoString) :
    (addAll adds).Slice = adds.map (fun e => KV.of e.1 e.2) ∧
      ((addAll adds).Index k).Pairwise (· < ·) ∧
      (∀ i, i ∈ (addAll adds).Index k ↔ ((addAll adds).Slice[i]?.map KV.K) = some k) ∧
      (addAll adds).Get k = .ok (firstValue k adds) := by
  obtain ⟨hs, hi⟩ := addAll_state adds
  have hidx : (addAll adds).Index k = positionsFrom k adds 0 := by
    simp only [KVData.Index, hi k]
    by_cases hp : positionsFrom k adds 0 = [] <;> simp [hp]
  refine ⟨hs, ?_, ?_, ?_⟩
  · rw [hidx]
    exact positionsFrom_sorted k adds 0
  · intro i
    rw [hidx, positionsFrom_mem]
    simp only [KVData.Slice, hs, Nat.zero_le, true_and, Nat.sub_zero, List.getElem?_map,
      Option.map_map]
    cases adds[i]? <;> simp [KV.of]
  · simp only [KVData.Get, hi k]
    cases hp : positionsFrom k adds 0 with
    | nil => simp [positionsFrom_nil_firstValue k adds 0 hp]
    | cons j ps =>
      obtain ⟨_, h2⟩ := positionsFrom_head k adds 0 j ps hp
      simp only [Nat.sub_zero] at h2
      simp only [List.cons_ne_nil, if_false, hs, List.getElem?_map]
      cases hj : adds[j]? with
      | none => simp [hj] at h2
      | some e =>
        simp only [hj, Option.map_some', Option.some.injEq] at h2
        simp [KV.of, h2]


/-! ### C11: malformed bracket keys are rejected -/

theorem splitStep_other (s : GoString) (i : Nat) (r : Char) (st : SplitState)
    (h1 : r ≠ '[') (h2 : r ≠ ']') :
    splitStep s i r st = some (flushLast s i ⟨st.res, st.begin_, i, st.isleft⟩) := by
  simp only [splitStep, h1, h2, if_false, flushLast]
  split <;> rfl

theorem splitStep_open_eq (s : GoString) (i : Nat) (st : SplitState) :
    splitStep s i '[' st =
      if i > 0 ∧ s[i - 1]? ≠ some ']' then
        if st.begin_ = st.end_ then none
        else some (flushLast s i
          ⟨st.res ++ [substr s st.begin_ (st.end_ + 1)], i + 1, i + 1, true⟩)
      else some (flushLast s i ⟨st.res, i + 1, i + 1, true⟩) := by
  by_cases hc : i > 0 ∧ s[i - 1]? ≠ some ']'
  · by_cases hb : st.begin_ = st.end_
    · rw [if_pos hc, if_pos hb]
      simp only [splitStep, if_true, if_pos hc, if_pos hb]
    · rw [if_pos hc, if_neg hb]
      simp only [splitStep, if_true, if_pos hc, if_neg hb, flushLast]
      split <;> rfl
  · rw [if_neg hc]
    simp only [splitStep, if_true, if_neg hc, flushLast]
    split <;> rfl

theorem splitStep_close_eq (s : GoString) (i : Nat) (st : SplitState) :
    splitStep s i ']' st =
      if st.isleft = false then none
      else if st.begin_ ≠ st.end_ then
        some (flushLast s i
          ⟨st.res ++ [substr s st.begin_ (st.end_ + 1)], i + 1, i + 1, false⟩)
      else some (flushLast s i ⟨st.res, st.begin_, st.end_, false⟩) := by
  have h1 : ((']' : Char) = '[') = False := by decide
  by_cases hl : st.isleft = false
  · rw [if_pos hl]
    have hl' : ¬ st.isleft = true := by simp [hl]
    simp only [splitStep, h1, if_false, if_true, if_pos hl']
  · rw [if_neg hl]
    have hl' : ¬ ¬ st.isleft = true := by simpa using hl
    by_cases hb : st.begin_ ≠ st.end_
    · rw [if_pos hb]
      simp only [splitStep, h1, if_false, if_true, if_neg hl', if_pos hb, flushLast]
      split <;> rfl
    · rw [if_neg hb]
      simp only [splitStep, h1, if_false, if_true, if_neg hl', if_neg hb, flushLast]
      split <;> rfl

theorem flushLast_isleft (s : GoString) (i : Nat) (st : SplitState) :
    (flushLast s i st).isleft = st.isleft := by
  unfold flushLast
  split <;> rfl

theorem flushLast_begin (s : GoString) (i : Nat) (st : SplitState) :
    (flushLast s i st).begin_ = st.begin_ := by
  unfold flushLast
  split <;> rfl

theorem flushLast_end (s : GoString) (i : Nat) (st : SplitState) :
    (flushLast s i st).end_ = st.end_ := by
  unfold flushLast
  split <;> rfl

theorem splitStep_isleft {s : GoString} {i : Nat} {r : Char} {st st1 : SplitState}
    (h : splitStep s i r st = some st1) :
    st1.isleft = if r = '[' then true else if r = ']' then false else st.isleft := by
  by_cases h1 : r = '['
  · subst h1
    rw [splitStep_open_eq] at h
    simp only [if_true]
    split at h
    · split at h
      · cases h
      · cases h; rw [flushLast_isleft]
    · cases h; rw [flushLast_isleft]
  · by_cases h2 : r = ']'
    · subst h2
      rw [splitStep_close_eq] at h
      simp only [h1, if_false, if_true]
      split at h
      · cases h
      · split at h <;> cases h <;> rw [flushLast_isleft]
    · rw [splitStep_other s i r st h1 h2] at h
      cases h
      simp [h1, h2, flushLast_isleft]

theorem splitStep_close_not_left {s : GoString} {i : Nat} {st : SplitState}
    (h : st.isleft = false) : splitStep s i ']' st = none := by
  rw [splitStep_close_eq]
  simp [h]

theorem splitStep_open {s : GoString} {i : Nat} {st st1 : SplitState}
    (h : splitStep s i '[' st = some st1) : st1.begin_ = i + 1 ∧ st1.end_ = i + 1 := by
  rw [splitStep_open_eq] at h
  split at h
  · split at h
    · cases h
    · cases h; exact ⟨by rw [flushLast_begin], by rw [flushLast_end]⟩
  · cases h; exact ⟨by rw [flushLast_begin], by rw [flushLast_end]⟩

theorem splitStep_open_after_open {s : GoString} {i : Nat} {st : SplitState}
    (hprev : s[i]? = some '[') (hb : st.begin_ = st.end_) :
    splitStep s (i + 1) '[' st = none := by
  rw [splitStep_open_eq]
  simp [hprev, hb]

theorem getElem?_append_at {pre rest : GoString} {r : Char} :
    (pre ++ r :: rest)[pre.length]? = some r := by
  rw [List.getElem?_append_right (le_refl _)]
  simp

/-- The loop rejects the key when a `]` comes up at a point where every `[`
before it has a `]` after it. -/
theorem splitLoop_close_without_open (s : GoString) (p : Nat)
    (hp : s[p]? = some ']')
    (hno : ∀ j, j < p → s[j]? = some '[' → ∃ k, j < k ∧ k < p ∧ s[k]? = some ']') :
    ∀ (rest pre : GoString) (st : SplitState), s = pre ++ rest → pre.length ≤ p →
      (st.isleft = true → ∃ j, j < pre.length ∧ s[j]? = some '[' ∧
        ∀ k, j < k → k < pre.length → s[k]? ≠ some ']') →
      splitLoop s rest pre.length st = none := by
  intro rest
  induction rest with
  | nil =>
    intro pre st hs hle _
    rw [hs, List.append_nil] at hp
    rw [List.getElem?_eq_none (by omega)] at hp
    cases hp
  | cons r rest ih =>
    intro pre st hs hle hinv
    have hr : s[pre.length]? = some r := by rw [hs]; exact getElem?_append_at
    simp only [splitLoop]
    cases hstep : splitStep s pre.length r st with
    | none => rfl
    | some st1 =>
      simp only
      have hne : pre.length ≠ p := by
        intro heq
        rw [heq, hp] at hr
        cases hr
        have hleft : st.isleft = true := by
          by_contra hfalse
          rw [splitStep_close_not_left (by simpa using hfalse)] at hstep
          cases hstep
        obtain ⟨j, hj, hopen, hnone⟩ := hinv hleft
        obtain ⟨k, hjk, hkp, hk⟩ := hno j (by omega) hopen
        exact hnone k hjk (by omega) hk
      have hs' : s = (pre ++ [r]) ++ rest := by simp [hs]
      have := ih (pre ++ [r]) st1 hs' (by simp; omega) (by
        intro hleft1
        rw [splitStep_isleft hstep] at hleft1
        simp only [List.length_append, List.length_singleton]
        by_cases h1 : r = '['
        · subst h1
          exact ⟨pre.length, by omega, hr, fun k h1 h2 => by omega⟩
        · by_cases h2 : r = ']'
          · simp [h1, h2] at hleft1
          · simp only [h1, h2, if_false] at hleft1
            obtain ⟨j, hj, hopen, hnone⟩ := hinv hleft1
            refine ⟨j, by omega, hopen, fun k hjk hk => ?_⟩
            by_cases hkp : k < pre.length
            · exact hnone k hjk hkp
            · have : k = pre.length := by omega
              rw [this, hr]
              simpa using h2)
      simpa using this

/-- The loop rejects the key when two `[` follow each other directly. -/
theorem splitLoop_double_open (s : GoString) (p : Nat)
    (hp : s[p]? = some '[') (hp1 : s[p + 1]? = some '[') :
    ∀ (rest pre : GoString) (st : SplitState), s = pre ++ rest → pre.length ≤ p →
      splitLoop s rest pre.length st = none := by
  intro rest
  induction rest with
  | nil =>
    intro pre st hs hle
    rw [hs, List.append_nil] at hp
    rw [List.getElem?_eq_none (by omega)] at hp
    cases hp
  | cons r rest ih =>
    intro pre st hs hle
    have hr : s[pre.length]? = some r := by rw [hs]; exact getElem?_append_at
    simp only [splitLoop]
    cases hstep : splitStep s pre.length r st with
    | none => rfl
    | some st1 =>
      simp only
      have hs' : s = (pre ++ [r]) ++ rest := by simp [hs]
      by_cases heq : pre.length = p
      · rw [heq, hp] at hr
        cases hr
        cases rest with
        | nil =>
          rw [hs'] at hp1
          rw [List.getElem?_eq_none (by simp; omega)] at hp1
          cases hp1
        | cons r1 rest1 =>
          have hr1 : s[pre.length + 1]? = some r1 := by
            have : (pre ++ ['[']).length = pre.length + 1 := by simp
            rw [hs', ← this]
            exact getElem?_append_at
          rw [heq, hp1] at hr1
          cases hr1
          obtain ⟨hb, he⟩ := splitStep_open hstep
          simp only [splitLoop]
          rw [splitStep_open_after_open (by rw [heq]; exact hp) (hb.trans he.symm)]
      · have := ih (pre ++ [r]) st1 hs' (by simp; omega)
        simpa using this

/-- C11: for every key in which a `]` occurs at a point where no `[` before it
is still open (every earlier `[` has a later `]` before that point), or in
which two `[` follow each other directly, `SplitJson` returns an error and no
segment list. -/
theorem C11_malformed_brackets_rejected (s : GoString)
    (h : (∃ i : Nat, s[i]? = some ']' ∧
          ∀ j : Nat, j < i → s[j]? = some '[' → ∃ k : Nat, j < k ∧ k < i ∧ s[k]? = some ']') ∨
        (∃ i : Nat, s[i]? = some '[' ∧ s[i + 1]? = some '[')) :
    SplitJson s = none := by
  rcases h with ⟨i, hi, hno⟩ | ⟨i, hi, hi1⟩
  · exact splitLoop_close_without_open s i hi hno s [] ⟨[], 0, 0, false⟩ rfl (Nat.zero_le _)
      (by intro h; cases h)
  · exact splitLoop_double_open s i hi hi1 s [] ⟨[], 0, 0, false⟩ rfl (Nat.zero_le _)

/-- C11, at the keys `ab]cd` and `ab[[cd]]`. -/
theorem C11_malformed_brackets_rejected_witness :
    SplitJson "ab]cd".toList = none ∧ SplitJson "ab[[cd]]".toList = none :=
  ⟨C11_malformed_brackets_rejected "ab]cd".toList
      (Or.inl ⟨2, by decide, by
        intro j hj hopen
        have : j = 0 ∨ j = 1 := by omega
        rcases this with rfl | rfl <;> simp at hopen⟩),
    C11_malformed_brackets_rejected "ab[[cd]]".toList (Or.inr ⟨2, by decide, by decide⟩)⟩


/-! ### C13: the segment list of an accepted key -/

theorem flushLast_res_ne_nil (s : GoString) (i : Nat) (st : SplitState) (h : st.res ≠ []) :
    (flushLast s i st).res ≠ [] := by
  unfold flushLast
  split
  · simp
  · exact h

theorem flushLast_pending (s : GoString) (i : Nat) (st : SplitState)
    (hb : st.begin_ ≠ st.end_) :
    (flushLast s i st).res ≠ [] ∨ (i ≠ s.length - 1 ∧ flushLast s i st = st) := by
  unfold flushLast
  by_cases hi : i = s.length - 1
  · left
    simp [hi, hb]
  · right
    simp [hi]

theorem splitStep_res_ne_nil {s : GoString} {i : Nat} {r : Char} {st st1 : SplitState}
    (h : splitStep s i r st = some st1) (hres : st.res ≠ []) : st1.res ≠ [] := by
  by_cases h1 : r = '['
  · subst h1
    rw [splitStep_open_eq] at h
    split at h
    · split at h
      · cases h
      · cases h; exact flushLast_res_ne_nil _ _ _ (by simp)
    · cases h; exact flushLast_res_ne_nil _ _ _ hres
  · by_cases h2 : r = ']'
    · subst h2
      rw [splitStep_close_eq] at h
      split at h
      · cases h
      · split at h
        · cases h; exact flushLast_res_ne_nil _ _ _ (by simp)
        · cases h; exact flushLast_res_ne_nil _ _ _ hres
    · rw [splitStep_other s i r st h1 h2] at h
      cases h
      exact flushLast_res_ne_nil _ _ _ hres

theorem splitStep_begin_le {s : GoString} {i : Nat} {r : Char} {st st1 : SplitState}
    (h : splitStep s i r st = some st1) (hb : st.begin_ ≤ i) : st1.begin_ ≤ i + 1 := by
  by_cases h1 : r = '['
  · subst h1
    have := (splitStep_open h).1
    omega
  · by_cases h2 : r = ']'
    · subst h2
      rw [splitStep_close_eq] at h
      split at h
      · cases h
      · split at h
        · cases h
          rw [flushLast_begin]
        · cases h
          rw [flushLast_begin]
          exact Nat.le_succ_of_le hb
    · rw [splitStep_other s i r st h1 h2] at h
      cases h
      rw [flushLast_begin]
      simp
      omega

/-- Once a segment of two characters is pending, or a segment has been
appended, the loop ends with a non-empty result or with an error. -/
theorem splitLoop_pending (s : GoString) :
    ∀ (rest pre : GoString) (st : SplitState) (res : List GoString), s = pre ++ rest →
      (st.res ≠ [] ∨ (pre.length < s.length ∧ st.begin_ < st.end_ ∧ st.end_ < pre.length ∧
        0 < pre.length ∧ s[pre.length - 1]? ≠ some ']')) →
      splitLoop s rest pre.length st = some res → res ≠ [] := by
  intro rest
  induction rest with
  | nil =>
    intro pre st res hs hg h
    simp only [splitLoop, Option.some.injEq] at h
    subst h
    rcases hg with hg | hg
    · exact hg
    · rw [hs] at hg
      simp at hg
  | cons r rest ih =>
    intro pre st res hs hg h
    have hr : s[pre.length]? = some r := by rw [hs]; exact getElem?_append_at
    have hs' : s = (pre ++ [r]) ++ rest := by simp [hs]
    simp only [splitLoop] at h
    cases hstep : splitStep s pre.length r st with
    | none => rw [hstep] at h; cases h
    | some st1 =>
      rw [hstep] at h
      simp only at h
      have hnext : ∀ (g : st1.res ≠ [] ∨ ((pre ++ [r]).length < s.length ∧
          st1.begin_ < st1.end_ ∧ st1.end_ < (pre ++ [r]).length ∧ 0 < (pre ++ [r]).length ∧
          s[(pre ++ [r]).length - 1]? ≠ some ']')), res ≠ [] := by
        intro g
        apply ih (pre ++ [r]) st1 res hs' g
        simpa using h
      rcases hg with hg | ⟨hlt, hbe, hei, hpos, hprev⟩
      · exact hnext (Or.inl (splitStep_res_ne_nil hstep hg))
      · by_cases h1 : r = '['
        · subst h1
          rw [splitStep_open_eq, if_pos ⟨hpos, hprev⟩, if_neg (by omega)] at hstep
          cases hstep
          exact hnext (Or.inl (flushLast_res_ne_nil _ _ _ (by simp)))
        · by_cases h2 : r = ']'
          · subst h2
            rw [splitStep_close_eq] at hstep
            split at hstep
            · cases hstep
            · rw [if_pos (by omega)] at hstep
              cases hstep
              exact hnext (Or.inl (flushLast_res_ne_nil _ _ _ (by simp)))
          · rw [splitStep_other s _ r st h1 h2] at hstep
            cases hstep
            rcases flushLast_pending s pre.length ⟨st.res, st.begin_, pre.length, st.isleft⟩
              (by simp; omega) with hf | ⟨hnl, hf⟩
            · exact hnext (Or.inl hf)
            · rw [hf] at hnext
              apply hnext
              right
              simp only [List.length_append, List.length_singleton, Nat.add_sub_cancel]
              refine ⟨by omega, by omega, by omega, by omega, ?_⟩
              rw [hr]
              simpa using h2

/-- Before the two adjacent non-bracket characters at `p` and `p + 1` are
read, the loop only needs `begin <= offset`; after them a segment is
pending. -/
theorem splitLoop_two_plain (s : GoString) (p : Nat) (c1 c2 : Char)
    (hp : s[p]? = some c1) (hp1 : s[p + 1]? = some c2)
    (hc1 : c1 ≠ '[' ∧ c1 ≠ ']') (hc2 : c2 ≠ '[' ∧ c2 ≠ ']') :
    ∀ (rest pre : GoString) (st : SplitState) (res : List GoString), s = pre ++ rest →
      pre.length ≤ p → st.begin_ ≤ pre.length →
      splitLoop s rest pre.length st = some res → res ≠ [] := by
  intro rest
  induction rest with
  | nil =>
    intro pre st res hs hle _ _
    rw [hs, List.append_nil] at hp
    rw [List.getElem?_eq_none (by omega)] at hp
    cases hp
  | cons r rest ih =>
    intro pre st res hs hle hb h
    have hr : s[pre.length]? = some r := by rw [hs]; exact getElem?_append_at
    have hs' : s = (pre ++ [r]) ++ rest := by simp [hs]
    simp only [splitLoop] at h
    cases hstep : splitStep s pre.length r st with
    | none => rw [hstep] at h; cases h
    | some st1 =>
      rw [hstep] at h
      simp only at h
      have hlen1 : (pre ++ [r]).length = pre.length + 1 := by simp
      by_cases heq : pre.length = p
      · rw [heq, hp] at hr
        cases hr
        rw [splitStep_other s _ c1 st hc1.1 hc1.2] at hstep
        cases hstep
        have hlen : p + 1 < s.length := by
          by_contra hge
          rw [List.getElem?_eq_none (by omega)] at hp1
          cases hp1
        have hfl : flushLast s pre.length ⟨st.res, st.begin_, pre.length, st.isleft⟩ =
            ⟨st.res, st.begin_, pre.length, st.isleft⟩ := by
          unfold flushLast
          rw [if_neg (by omega)]
        rw [hfl] at h
        cases rest with
        | nil =>
          rw [hs'] at hlen
          simp at hlen
          omega
        | cons r1 rest1 =>
          have hr1 : s[pre.length + 1]? = some r1 := by
            rw [hs', ← hlen1]
            exact getElem?_append_at
          rw [heq, hp1] at hr1
          cases hr1
          simp only [splitLoop] at h
          rw [splitStep_other s _ c2 _ hc2.1 hc2.2] at h
          simp only at h
          have hs2 : s = (pre ++ [c1] ++ [c2]) ++ rest1 := by simp [hs]
          have hlen2 : (pre ++ [c1] ++ [c2]).length = pre.length + 1 + 1 := by simp
          rw [← hlen2] at h
          apply splitLoop_pending s rest1 (pre ++ [c1] ++ [c2]) _ res hs2 _ h
          rcases flushLast_pending s (pre.length + 1)
            ⟨st.res, st.begin_, pre.length + 1, st.isleft⟩ (by simp; omega) with hf | ⟨hnl, hf⟩
          · exact Or.inl hf
          · right
            rw [hf, hlen2]
            refine ⟨by omega, by simp; omega, by simp, by omega, ?_⟩
            have : pre.length + 1 + 1 - 1 = p + 1 := by omega
            rw [this, hp1]
            simpa using hc2.2
      · have hb1 := splitStep_begin_le hstep hb
        rw [← hlen1] at h hb1
        exact ih (pre ++ [r]) st1 res hs' (by rw [hlen1]; omega) hb1 h

/-- C13 (as stated, refuted): the key `a` is not empty, contains no dot and
does not begin with an underscore; `SplitJson` accepts it and returns no
segment.  The same holds for the key `[]`. -/
theorem C13_counterexample :
    SplitJson "a".toList = some [] ∧ SplitJson "[]".toList = some [] := by
  decide

/-- C13 (amended): for every ASCII key that contains two adjacent characters
neither of which is a bracket, if `SplitJson` returns a nil error then the
segment list it returns is not empty.  (On ASCII keys the byte offsets of the
code are the positions of the embedding.) -/
theorem C13_accepted_key_has_segment (s : GoString) (p : Nat) (c1 c2 : Char)
    (res : List GoString) (_hascii : isASCII s = true)
    (hp : s[p]? = some c1) (hp1 : s[p + 1]? = some c2)
    (hc1 : c1 ≠ '[' ∧ c1 ≠ ']') (hc2 : c2 ≠ '[' ∧ c2 ≠ ']')
    (h : SplitJson s = some res) : res ≠ [] :=
  splitLoop_two_plain s p c1 c2 hp hp1 hc1 hc2 s [] ⟨[], 0, 0, false⟩ res rfl (Nat.zero_le _)
    (Nat.le_refl _) h

/-- C13 (amended), at the key `ab[c]`, whose first two characters are not
brackets. -/
theorem C13_accepted_key_has_segment_witness :
    SplitJson "ab[c]".toList = some ["ab".toList] ∧ ["ab".toList] ≠ [] :=
  ⟨by decide, C13_accepted_key_has_segment "ab[c]".toList 0 'a' 'b' ["ab".toList] (by decide)
    (by decide) (by decide) (by decide) (by decide) (by decide)⟩


/-! ### C12: a bracket left open at the end of the key -/

theorem substr_middle (pre x post : GoString) :
    substr (pre ++ x ++ post) pre.length (pre.length + x.length) = x := by
  unfold substr
  rw [List.append_assoc, List.take_append, List.drop_left]
  simp

/-- Reading a run of non-bracket characters that does not reach the end of
the key only moves `end` to the last character read. -/
theorem splitLoop_run (s : GoString) :
    ∀ (run pre rest : GoString) (st : SplitState), s = pre ++ run ++ rest → rest ≠ [] →
      (∀ c ∈ run, c ≠ '[' ∧ c ≠ ']') →
      splitLoop s (run ++ rest) pre.length st =
        splitLoop s rest (pre.length + run.length)
          ⟨st.res, st.begin_, if run = [] then st.end_ else pre.length + run.length - 1,
            st.isleft⟩ := by
  intro run
  induction run with
  | nil => intro pre rest st _ _ _; simp
  | cons c run ih =>
    intro pre rest st hs hrest hrun
    have hc := hrun c (List.mem_cons_self _ _)
    simp only [List.cons_append, splitLoop, List.append_eq]
    rw [splitStep_other s _ c st hc.1 hc.2]
    simp only
    have hlen : s.length = pre.length + (run.length + 1) + rest.length := by
      rw [hs]; simp; omega
    have hrl : 0 < rest.length := List.length_pos.2 hrest
    have hfl : flushLast s pre.length ⟨st.res, st.begin_, pre.length, st.isleft⟩ =
        ⟨st.res, st.begin_, pre.length, st.isleft⟩ := by
      unfold flushLast
      rw [if_neg (by omega)]
    rw [hfl]
    have hs' : s = (pre ++ [c]) ++ run ++ rest := by simp [hs]
    have := ih (pre ++ [c]) rest ⟨st.res, st.begin_, pre.length, st.isleft⟩ hs' hrest
      (fun d hd => hrun d (List.mem_cons_of_mem _ hd))
    simp only [List.length_append, List.length_singleton] at this
    rw [this]
    congr 1
    · simp only [List.length_cons]; omega
    · by_cases hr : run = []
      · simp [hr]
      · have : 0 < run.length := List.length_pos.2 hr
        simp only [hr, if_false, List.length_cons]
        congr 1
        simp only [List.cons_ne_nil, if_false]
        omega

/-- Reading a non-empty run of non-bracket characters up to the end of the key
appends the pending segment when it has at least two characters. -/
theorem splitLoop_run_end (s : GoString) :
    ∀ (run pre : GoString) (st : SplitState), s = pre ++ run → run ≠ [] →
      (∀ c ∈ run, c ≠ '[' ∧ c ≠ ']') →
      splitLoop s run pre.length st =
        some (st.res ++ if st.begin_ ≠ s.length - 1 then
          [substr s st.begin_ s.length] else []) := by
  intro run
  induction run with
  | nil => intro pre st _ h _; exact absurd rfl h
  | cons c run ih =>
    intro pre st hs _ hrun
    have hc := hrun c (List.mem_cons_self _ _)
    have hlen : s.length = pre.length + (run.length + 1) := by rw [hs]; simp
    simp only [splitLoop]
    rw [splitStep_other s _ c st hc.1 hc.2]
    simp only
    by_cases hr : run = []
    · subst hr
      simp only [List.length_nil] at hlen
      have hlast : pre.length = s.length - 1 := by omega
      simp only [splitLoop, flushLast]
      by_cases hb : st.begin_ = pre.length
      · simp [hb, hlast]
      · have hb' : st.begin_ ≠ s.length - 1 := by rw [← hlast]; exact hb
        have hsl : s.length = pre.length + 1 := by omega
        simp [hb, hb', ← hlast, hsl]
    · have : 0 < run.length := List.length_pos.2 hr
      have hfl : flushLast s pre.length ⟨st.res, st.begin_, pre.length, st.isleft⟩ =
          ⟨st.res, st.begin_, pre.length, st.isleft⟩ := by
        unfold flushLast
        rw [if_neg (by omega)]
      rw [hfl]
      have hs' : s = (pre ++ [c]) ++ run := by simp [hs]
      have := ih (pre ++ [c]) ⟨st.res, st.begin_, pre.length, st.isleft⟩ hs' hr
        (fun d hd => hrun d (List.mem_cons_of_mem _ hd))
      simp only [List.length_append, List.length_singleton] at this
      exact this

/-- C12 (as stated, refuted): the keys `ab[cd` and `ab[cd][` contain a `[`
with no `]` after it, and `SplitJson` accepts both. -/
theorem C12_counterexample :
    SplitJson "ab[cd".toList = some ["ab".toList, "cd".toList] ∧
      SplitJson "ab[cd][".toList = some ["ab".toList, "cd".toList] := by
  decide

/-- C12 (amended): for every ASCII key `p[q` in which `p` has at least two
characters and neither `p` nor `q` contains a bracket (the bracket is left
open at the end of the key), `SplitJson` returns a nil error; the segments
are `p` and, when `q` has at least two characters, `q`.  (On ASCII keys the
byte offsets of the code are the positions of the embedding.) -/
theorem C12_open_bracket_accepted (p q : GoString) (_hpa : isASCII p = true)
    (_hqa : isASCII q = true) (hp : 2 ≤ p.length)
    (hpb : ∀ c ∈ p, c ≠ '[' ∧ c ≠ ']') (hqb : ∀ c ∈ q, c ≠ '[' ∧ c ≠ ']') :
    SplitJson (p ++ '[' :: q) = some (if 2 ≤ q.length then [p, q] else [p]) := by
  have hpne : p ≠ [] := by intro h; simp [h] at hp
  have h1 := splitLoop_run (p ++ '[' :: q) p [] ('[' :: q) ⟨[], 0, 0, false⟩ (by simp)
    (by simp) hpb
  simp only [List.length_nil, Nat.zero_add, hpne, if_false] at h1
  unfold SplitJson
  rw [h1]
  simp only [splitLoop]
  have hlast : (p ++ '[' :: q)[p.length - 1]? ≠ some ']' := by
    rw [List.getElem?_append_left (by omega)]
    intro h
    have := List.getElem?_mem h
    exact (hpb _ this).2 rfl
  rw [splitStep_open_eq, if_pos ⟨by omega, hlast⟩, if_neg (by simp; omega)]
  simp only
  have hsub : substr (p ++ '[' :: q) 0 (p.length - 1 + 1) = p := by
    have : p.length - 1 + 1 = p.length := by omega
    rw [this]
    have := substr_middle [] p ('[' :: q)
    simpa using this
  have hfl : ∀ st : SplitState, st.begin_ = st.end_ →
      flushLast (p ++ '[' :: q) p.length st = st := by
    intro st hst
    unfold flushLast
    rw [if_neg (by simp [hst])]
  rw [hfl _ rfl, hsub]
  by_cases hq : q = []
  · subst hq
    simp [splitLoop]
  · have h2 := splitLoop_run_end (p ++ '[' :: q) q (p ++ ['['])
      ⟨[] ++ [p], p.length + 1, p.length + 1, true⟩ (by simp) hq hqb
    simp only [List.length_append, List.length_singleton] at h2
    rw [h2]
    have hql : 0 < q.length := List.length_pos.2 hq
    simp only [List.length_cons]
    by_cases hq2 : 2 ≤ q.length
    · have hsubq : substr (p ++ '[' :: q) (p.length + 1) (p.length + (q.length + 1)) = q := by
        have := substr_middle (p ++ ['[']) q []
        simp only [List.length_append, List.length_singleton, List.append_nil,
          List.append_assoc, List.singleton_append] at this
        have hl : p.length + (q.length + 1) = p.length + 1 + q.length := by omega
        rw [hl]
        exact this
      rw [if_pos (by omega), if_pos hq2, hsubq]
      simp
    · rw [if_neg (by omega), if_neg hq2]
      simp

/-- C12 (amended), at the key `ab[cd`. -/
theorem C12_open_bracket_accepted_witness :
    SplitJson ("ab".toList ++ '[' :: "cd".toList) =
      some (if 2 ≤ "cd".toList.length then ["ab".toList, "cd".toList] else ["ab".toList]) :=
  C12_open_bracket_accepted "ab".toList "cd".toList (by decide) (by decide) (by decide)
    (by decide) (by decide)


/-! ### C14: the elements of a bool slice -/

theorem zero_of_bool (tt : GoType) (h : tt.Kind = .Bool) : zero tt = .bool false := by
  cases tt with
  | basic k d =>
    simp only [GoType.Kind] at h
    subst h
    rfl
  | time => simp [GoType.Kind] at h
  | struct c fs => simp [GoType.Kind] at h
  | ptr e => simp [GoType.Kind] at h
  | slice e => simp [GoType.Kind] at h
  | array n e => simp [GoType.Kind] at h

/-- C14 (code at the failing input): the raw value "yes" is neither "false"
nor "0".  Bound to the scalar bool field `On` it gives `true`, the scalar
rule; bound to the nil bool slice `Flags` it leaves element 0 `false`, because
the slice branch converts with `strconv.ParseBool`, which rejects "yes". -/
theorem C14_bool_slice_differs_from_scalar :
    ("yes".toList != "false".toList && "yes".toList != "0".toList) = true ∧
      ParseBool "yes".toList = none ∧
      bindFlags zeroFlags (oneKey "on" ["yes"]) =
        .ok (.ptr (some (.struct [.bool true, .slice none, .time ⟨0, 0, 0⟩]))) ∧
      bindFlags zeroFlags (oneKey "flags" ["yes"]) =
        .ok (.ptr (some (.struct [.bool false, .slice (some [.bool false]),
          .time ⟨0, 0, 0⟩]))) := by
  refine ⟨by decide, by decide, rfl, rfl⟩

/-- What the slice branch does for a bool element: when a key with the single
raw value `v` resolves to a settable nil slice field whose element kind is
bool, `NamedStructMap` returns normally and the field ends as a slice of one
element, which is the result of `strconv.ParseBool(v)` when `v` is one of the
texts `ParseBool` accepts and `false` otherwise; the rest of the target is
unchanged. -/
theorem bool_slice_uses_ParseBool (env : Env) (ty : GoType) (s : Value)
    (k v : GoString) (names : List GoString) (p : List Nat) (tv : RValue)
    (f : StructField) (tt : GoType)
    (hk : k ≠ []) (hu : k.head? ≠ some '_') (hn : keyNames k = some names)
    (hr : resolve env ty names ⟨ty, s, true, false⟩ = .leaf p tv f)
    (ht : tv.typ = .slice tt) (hkind : tt.Kind = .Bool) (hnil : tv.val = .slice none) :
    NamedStructMap env (.ptr ty) (.ptr (some s)) [(k, [v])] [] =
      .ok (.ptr (some (plug s p (.slice (some [.bool ((ParseBool v).getD false)]))))) := by
  rw [namedStructMap_single env ty s k v [] names hk hu hn]
  have hw := walk_leaf env ty [v] v names ⟨ty, s, true, false⟩ p tv f hr
  simp only at hw
  rw [hw]
  have hkd : tv.Kind = .Slice := by simp [RValue.Kind, ht, GoType.Kind]
  have hce : convertElem env tt v = (ParseBool v).map Value.bool := by
    unfold convertElem
    rw [hkind]
  cases hpb : ParseBool v with
  | none =>
    simp [setLeaf, convert, hkd, ht, GoType.Elem, hnil, zero_of_bool tt hkind, setElems, hce,
      hpb, Outcome.map]
  | some b =>
    simp [setLeaf, convert, hkd, ht, GoType.Elem, hnil, zero_of_bool tt hkind, setElems, hce,
      hpb, Outcome.map]

/-- The key `flags` of a zero `Flags` with the raw value "F", which
`strconv.ParseBool` reads as `false`. -/
theorem bool_slice_uses_ParseBool_at_F :
    NamedStructMap plainEnv (.ptr flagsType) (.ptr (some zeroFlags))
        [("flags".toList, ["F".toList])] [] =
      .ok (.ptr (some (plug zeroFlags [1]
        (.slice (some [.bool ((ParseBool "F".toList).getD false)]))))) :=
  bool_slice_uses_ParseBool plainEnv flagsType zeroFlags "flags".toList "F".toList
    ["flags".toList] [1] ⟨.slice (.basic .Bool false), .slice none, true, false⟩
    (field "Flags") (.basic .Bool false) (by decide) (by decide) (by decide) (by rfl) rfl rfl rfl


/-! ### C18: binding a time.Time field -/

theorem parseTime_eq_firstLayout (env : Env) (v : GoString) :
    parseTime env v = firstLayout env v := by
  unfold parseTime firstLayout timeLayouts
  simp only [List.findSome?]
  cases env.timeParse "2006-01-02 15:04:05.000 -0700".toList v with
  | some x => rfl
  | none =>
    cases env.timeParse "2006-01-02 15:04:05".toList v with
    | some x => rfl
    | none => cases env.timeParse "2006-01-02".toList v <;> rfl

/-- C18: when a key resolves to a settable `time.Time` leaf field,
`NamedStructMap` returns normally; the field is set to the result of the
first of the layouts "2006-01-02 15:04:05.000 -0700", "2006-01-02 15:04:05",
"2006-01-02", tried in that order, that parses the key's first raw value, and
the whole target is left unchanged when none parses it. -/
theorem C18_time_first_matching_layout (env : Env) (ty : GoType) (s : Value)
    (k v : GoString) (t : List GoString) (names : List GoString) (p : List Nat) (tv : RValue)
    (f : StructField)
    (hk : k ≠ []) (hu : k.head? ≠ some '_') (hn : keyNames k = some names)
    (hr : resolve env ty names ⟨ty, s, true, false⟩ = .leaf p tv f)
    (ht : tv.typ = .time) :
    NamedStructMap env (.ptr ty) (.ptr (some s)) [(k, v :: t)] [] =
      .ok (.ptr (some (match firstLayout env v with
        | some x => plug s p (.time x)
        | none => s))) := by
  rw [namedStructMap_single env ty s k v t names hk hu hn]
  have hw := walk_leaf env ty (v :: t) v names ⟨ty, s, true, false⟩ p tv f hr
  simp only at hw
  rw [hw]
  have hkd : tv.Kind = .Struct := by simp [RValue.Kind, ht, GoType.Kind]
  have hplug := resolve_leaf_plug_self env ty names ⟨ty, s, true, false⟩ p tv f hr
  simp only at hplug
  have hsl : setLeaf env ty f (v :: t) v tv =
      .ok (match firstLayout env v with
        | some x => Value.time x
        | none => tv.val) := by
    simp only [setLeaf, hkd, convert, ht, parseTime_eq_firstLayout]
    cases firstLayout env v <;> simp
  rw [hsl]
  cases firstLayout env v with
  | none => simp [Outcome.map, hplug]
  | some x => simp [Outcome.map]

/-- C18, at the key `at` of a zero `Flags` with `time.Parse` on fixed-width
values: "2021-05-01" binds by the date-only layout, to midnight UTC of that
day, and "2021-05-01 10:20:30" binds by the date-time layout. -/
theorem C18_time_first_matching_layout_witness :
    bindTimes "2021-05-01" = .ok (.ptr (some (.struct [.bool false, .slice none,
        .time ⟨63755424000, 0, 0⟩]))) ∧
      fixedTimeParse "2006-01-02".toList "2021-05-01".toList = some ⟨63755424000, 0, 0⟩ ∧
      bindTimes "2021-05-01 10:20:30" = .ok (.ptr (some (.struct [.bool false, .slice none,
        .time ⟨63755461230, 0, 0⟩]))) ∧
      fixedTimeParse "2006-01-02 15:04:05".toList "2021-05-01 10:20:30".toList =
        some ⟨63755461230, 0, 0⟩ :=
  ⟨(C18_time_first_matching_layout timeEnv flagsType zeroFlags "at".toList
      "2021-05-01".toList [] ["at".toList] [2] ⟨.time, .time ⟨0, 0, 0⟩, true, false⟩
      (field "At") (by decide) (by decide) (by decide) (by rfl) rfl).trans (by rfl),
    by rfl,
    (C18_time_first_matching_layout timeEnv flagsType zeroFlags "at".toList
      "2021-05-01 10:20:30".toList [] ["at".toList] [2] ⟨.time, .time ⟨0, 0, 0⟩, true, false⟩
      (field "At") (by decide) (by decide) (by decide) (by rfl) rfl).trans (by rfl),
    by rfl⟩


/-! ### C15: binding the same field map twice -/

theorem zeroFields_getElem? :
    ∀ (fields : List (StructField × GoType)) (i : Nat),
      (zeroFields fields)[i]? = (fields[i]?).map (fun f => zero f.2) := by
  intro fields
  induction fields with
  | nil => intro i; simp [zeroFields]
  | cons g rest ih =>
    intro i
    cases i with
    | zero => simp [zeroFields]
    | succ n => simp [zeroFields, ih n]

theorem zeroFields_length (fields : List (StructField × GoType)) :
    (zeroFields fields).length = fields.length := by
  induction fields with
  | nil => rfl
  | cons g rest ih => simp [zeroFields, ih]

mutual
theorem ext_zero : ∀ (ty : GoType), ty.proper = true → Ext ty (zero ty) (zero ty)
  | .basic k d, hp => Ext.other _ _ _ (by intro c fs h; cases h) (by
      simp only [GoType.proper, Bool.and_eq_true, bne_iff_ne, ne_eq] at hp
      simpa [GoType.Kind] using hp.1.2)
  | .time, _ => Ext.other _ _ _ (by intro c fs h; cases h) (by simp [GoType.Kind])
  | .struct c fields, hp => by
    rw [zero]
    exact Ext.struct c fields _ _ (zeroFields_length fields) rfl
      (ext_zero_fields fields (by simpa [GoType.proper] using hp))
  | .ptr e, _ => Ext.other _ _ _ (by intro c fs h; cases h) (by simp [GoType.Kind])
  | .slice e, _ => Ext.slice e _ _ (by intro ls h; simp [zero] at h)
  | .array n e, _ => Ext.other _ _ _ (by intro c fs h; cases h) (by simp [GoType.Kind])
theorem ext_zero_fields : ∀ (fields : List (StructField × GoType)),
    properFields fields = true → ∀ (i : Nat)
    (f : StructField × GoType) (x y : Value), fields[i]? = some f →
    (zeroFields fields)[i]? = some x → (zeroFields fields)[i]? = some y → Ext f.2 x y
  | [], _, i, f, x, y, hf, _, _ => by simp at hf
  | g :: rest, hp, 0, f, x, y, hf, hx, hy => by
    simp [zeroFields] at hf hx hy
    subst hf hx hy
    simp only [properFields, Bool.and_eq_true] at hp
    exact ext_zero g.2 hp.1
  | g :: rest, hp, i + 1, f, x, y, hf, hx, hy => by
    simp [zeroFields] at hf hx hy
    simp only [properFields, Bool.and_eq_true] at hp
    exact ext_zero_fields rest hp.2 i f x y hf hx hy
end

theorem Ext.refl_right {ty : GoType} {s r : Value} (h : Ext ty s r) : Ext ty r r := by
  induction h with
  | struct c fields ss rs hfl hlen _ ih =>
    refine Ext.struct c fields rs rs (hlen ▸ hfl) rfl ?_
    intro i f x y hf hx hy
    rw [hx] at hy
    cases hy
    have hi : i < ss.length := by
      rw [hlen]
      by_contra hge
      rw [List.getElem?_eq_none (by omega)] at hx
      cases hx
    have hsx : ss[i]? = some ss[i] := List.getElem?_eq_getElem hi
    exact ih i f ss[i] x hf hsx hx
  | slice e s r _ =>
    exact Ext.slice e r r (fun ls hl => ⟨ls, hl, rfl⟩)
  | other ty s r h1 h2 => exact Ext.other ty r r h1 h2

theorem Ext.trans {ty : GoType} {a b : Value} (hab : Ext ty a b) :
    ∀ {c : Value}, Ext ty b c → Ext ty a c := by
  induction hab with
  | struct cv fields ss rs hfl hlen _ ih =>
    intro c hbc
    cases hbc with
    | struct _ _ _ ts _ hlen2 h2 =>
      refine Ext.struct cv fields ss ts hfl (hlen.trans hlen2) ?_
      intro i f x z hf hx hz
      have hi : i < rs.length := by
        rw [← hlen]
        by_contra hge
        rw [List.getElem?_eq_none (by omega)] at hx
        cases hx
      have hry : rs[i]? = some rs[i] := List.getElem?_eq_getElem hi
      exact ih i f x rs[i] hf hx hry (h2 i f rs[i] z hf hry hz)
    | other _ _ _ h1 _ => exact absurd rfl (h1 cv fields)
  | slice e s r h =>
    intro c hbc
    cases hbc with
    | slice _ _ _ h2 =>
      refine Ext.slice e s c ?_
      intro ls hl
      obtain ⟨lr, hr, hlr⟩ := h ls hl
      obtain ⟨lc, hc, hlc⟩ := h2 lr hr
      exact ⟨lc, hc, hlc.trans hlr⟩
    | other _ _ _ _ h2 => exact absurd rfl h2
  | other ty s r h1 h2 =>
    intro c _
    exact Ext.other ty s c h1 h2

theorem mix_of_ext {ty : GoType} {s r : Value} (h : Ext ty s r) : Mix ty s r r := by
  induction h with
  | struct c fields ss rs hfl hlen _ ih =>
    refine Mix.struct c fields ss rs rs hfl hlen hlen ?_
    intro i f x y w hf hx hy hw
    rw [hy] at hw
    cases hw
    exact ih i f x y hf hx hy
  | slice e s r _ => exact Mix.right _ _ _ (by intro c fs h; cases h)
  | other ty s r h1 _ => exact Mix.right _ _ _ h1

theorem mix_same {ty : GoType} {s r u : Value} (h : Mix ty s r u) : s = r → u = r := by
  induction h with
  | struct c fields ss rs us hfl h1 h2 _ ih =>
    intro hsr
    cases hsr
    congr 1
    apply List.ext_getElem?
    intro i
    by_cases hi : i < ss.length
    · have hx : ss[i]? = some ss[i] := List.getElem?_eq_getElem hi
      have hw : us[i]? = some us[i] := List.getElem?_eq_getElem (by omega)
      have hf : fields[i]? = some fields[i] := List.getElem?_eq_getElem (by omega)
      rw [hw, hx, ih i fields[i] ss[i] ss[i] us[i] hf hx hx hw rfl]
    · rw [List.getElem?_eq_none (by omega), List.getElem?_eq_none (by omega)]
  | left ty s r => intro h; exact h
  | right ty s r _ => intro _; rfl
  | slice e ls lr lu h1 h2 h =>
    intro hsr
    cases hsr
    congr 2
    apply List.ext_getElem?
    intro j
    by_cases hj : j < ls.length
    · have hx : ls[j]? = some ls[j] := List.getElem?_eq_getElem hj
      have hw : lu[j]? = some lu[j] := List.getElem?_eq_getElem (by omega)
      rw [hw, hx]
      rcases h j ls[j] ls[j] lu[j] hx hx hw with h | h <;> rw [h]
    · rw [List.getElem?_eq_none (by omega), List.getElem?_eq_none (by omega)]


theorem setElems_length (env : Env) (tt : GoType) : ∀ (t : List GoString) (i : Nat)
    (a a' : List Value), setElems env tt t i a = .ok a' → a'.length = a.length
  | [], i, a, a', h => by
    simp only [setElems] at h
    cases h; rfl
  | s :: rest, i, a, a', h => by
    simp only [setElems] at h
    cases hc : convertElem env tt s with
    | none => rw [hc] at h; cases h; rfl
    | some x =>
      rw [hc] at h
      by_cases hi : i < a.length
      · simp only [if_pos hi] at h
        rw [setElems_length env tt rest (i + 1) _ a' h, List.length_set]
      · simp only [if_neg hi] at h
        cases h

theorem setElems_parallel (env : Env) (tt : GoType) : ∀ (t : List GoString) (i : Nat)
    (a b a' : List Value), a.length = b.length → setElems env tt t i a = .ok a' →
    ∃ b', setElems env tt t i b = .ok b' ∧
      ∀ j : Nat, a'[j]? = b'[j]? ∨ (a'[j]? = a[j]? ∧ b'[j]? = b[j]?)
  | [], i, a, b, a', _, h => by
    simp only [setElems] at h
    cases h
    exact ⟨b, rfl, fun j => Or.inr ⟨rfl, rfl⟩⟩
  | s :: rest, i, a, b, a', hl, h => by
    simp only [setElems] at h ⊢
    cases hc : convertElem env tt s with
    | none =>
      rw [hc] at h; cases h
      exact ⟨b, rfl, fun j => Or.inr ⟨rfl, rfl⟩⟩
    | some x =>
      rw [hc] at h
      by_cases hi : i < a.length
      · simp only [if_pos hi] at h
        have hib : i < b.length := hl ▸ hi
        obtain ⟨b', hb, hj⟩ := setElems_parallel env tt rest (i + 1) (a.set i x) (b.set i x) a'
          (by simp [hl]) h
        refine ⟨b', by simp only [if_pos hib]; exact hb, fun j => ?_⟩
        rcases hj j with h1 | ⟨h1, h2⟩
        · exact Or.inl h1
        · by_cases hji : i = j
          · subst hji
            left
            rw [h1, h2, List.getElem?_set_self hi, List.getElem?_set_self hib]
          · right
            rw [h1, h2, List.getElem?_set_ne hji, List.getElem?_set_ne hji]
            exact ⟨rfl, rfl⟩
      · simp only [if_neg hi] at h
        cases h

/-- The list a slice field is filled into: the field's own list when it has
one, else a new one as long as the raw values. -/
theorem setLeaf_slice (env : Env) (tc : GoType) (f : StructField) (t : List GoString)
    (v : GoString) (e : GoType) (val : Value) (addr ro : Bool) :
    setLeaf env tc f t v ⟨.slice e, val, addr, ro⟩ =
      (setElems env e t 0
        (match val with
          | .slice (some l) => l
          | _ => List.replicate t.length (zero e))).map (fun l => Value.slice (some l)) := by
  simp [setLeaf, convert, RValue.Kind, GoType.Kind, GoType.Elem]

theorem setLeaf_struct (env : Env) (tc : GoType) (f : StructField) (t : List GoString)
    (v : GoString) (c : Bool) (fs : List (StructField × GoType)) (val : Value)
    (addr ro : Bool) :
    setLeaf env tc f t v ⟨.struct c fs, val, addr, ro⟩ = .ok val := by
  cases c <;> simp [setLeaf, convert, RValue.Kind, GoType.Kind]

theorem const_of_eq_other {P : Value → Outcome Value} (h : ∀ val, P val = P .other) :
    ∃ o, ∀ val, P val = o := ⟨_, h⟩

set_option maxHeartbeats 1000000 in
/-- On a field that is not a slice the last step either leaves every value,
or gives a result that does not depend on the value. -/
theorem setLeaf_const_or_id (env : Env) (tc : GoType) (f : StructField) (t : List GoString)
    (v : GoString) (typ : GoType) (addr ro : Bool) (hk : typ.Kind ≠ .Slice) :
    (∀ val, setLeaf env tc f t v ⟨typ, val, addr, ro⟩ = .ok val) ∨
    (∃ o, ∀ val, setLeaf env tc f t v ⟨typ, val, addr, ro⟩ = o) := by
  cases typ with
  | ptr e =>
    exact Or.inr ⟨(convert env tc f t v ⟨e, zero e, true, ro⟩).map (fun x => Value.ptr (some x)),
      fun val => by simp [setLeaf, RValue.Kind, GoType.Kind, GoType.Elem]⟩
  | slice e => exact absurd rfl hk
  | array n e =>
    exact Or.inr ⟨.panic, fun val => by simp [setLeaf, convert, RValue.Kind, GoType.Kind]⟩
  | struct c fs => exact Or.inl (fun val => setLeaf_struct env tc f t v c fs val addr ro)
  | time =>
    cases hp : parseTime env v with
    | none => exact Or.inl (fun val => by simp [setLeaf, convert, RValue.Kind, GoType.Kind, hp])
    | some x =>
      exact Or.inr ⟨.ok (.time x), fun val => by
        simp [setLeaf, convert, RValue.Kind, GoType.Kind, hp]⟩
  | basic k d =>
    cases d <;> cases k <;>
      first
      | exact absurd rfl hk
      | (left; intro val
         simp [setLeaf, convert, RValue.Kind, GoType.Kind, RValue.Set,
             GoType.isPredeclared]; done)
      | (right; refine const_of_eq_other (fun val => ?_)
         simp [setLeaf, convert, RValue.Kind, GoType.Kind, RValue.Set,
             GoType.isPredeclared]; done)
      | (cases hA : Atoi v <;> first
        | (left; intro val
           simp [setLeaf, convert, RValue.Kind, GoType.Kind, RValue.Set,
             GoType.isPredeclared, hA]; done)
        | (right; refine const_of_eq_other (fun val => ?_)
           simp [setLeaf, convert, RValue.Kind, GoType.Kind, RValue.Set,
             GoType.isPredeclared, hA]; done))
      | (cases hI : ParseInt v 64 <;> first
        | (left; intro val
           simp [setLeaf, convert, RValue.Kind, GoType.Kind, RValue.Set,
             GoType.isPredeclared, hI]; done)
        | (right; refine const_of_eq_other (fun val => ?_)
           simp [setLeaf, convert, RValue.Kind, GoType.Kind, RValue.Set,
             GoType.isPredeclared, hI]; done))
      | (cases hF : env.ParseFloat v 64 <;> first
        | (left; intro val
           simp [setLeaf, convert, RValue.Kind, GoType.Kind, RValue.Set,
             GoType.isPredeclared, hF]; done)
        | (right; refine const_of_eq_other (fun val => ?_)
           simp [setLeaf, convert, RValue.Kind, GoType.Kind, RValue.Set,
             GoType.isPredeclared, hF]; done))
      | (cases hU : ParseUint v 64 <;> first
        | (left; intro val
           simp [setLeaf, convert, RValue.Kind, GoType.Kind, RValue.Set,
             GoType.isPredeclared, hU]; done)
        | (right; refine const_of_eq_other (fun val => ?_)
           simp [setLeaf, convert, RValue.Kind, GoType.Kind, RValue.Set,
             GoType.isPredeclared, hU]))

theorem Outcome.map_eq_ok {α β : Type} {g : α → β} {o : Outcome α} {y : β}
    (h : o.map g = .ok y) : ∃ x, o = .ok x ∧ y = g x := by
  cases o with
  | panic => cases h
  | ok x => exact ⟨x, rfl, by cases h; rfl⟩

/-- The last step of a key keeps the shape of the field it writes. -/
theorem setLeaf_ext (env : Env) (tc : GoType) (f : StructField) (t : List GoString)
    (v : GoString) (ft : GoType) (x x' : Value) (addr ro : Bool) (hW : Ext ft x x)
    (h : setLeaf env tc f t v ⟨ft, x, addr, ro⟩ = .ok x') : Ext ft x x' := by
  have hW' := hW
  cases hW with
  | struct c fields ss rs hfl hlen hc =>
    rw [setLeaf_struct] at h
    cases h
    exact hW'
  | slice e _ _ hsl =>
    rw [setLeaf_slice] at h
    obtain ⟨a', ha, rfl⟩ := Outcome.map_eq_ok h
    refine Ext.slice e _ _ (fun ls hx => ?_)
    subst hx
    exact ⟨a', rfl, setElems_length env e t 0 _ a' ha⟩
  | other _ _ _ h1 h2 => exact Ext.other _ _ _ h1 h2

/-- On a mix of an earlier and the final value of a field, the last step of a
key succeeds where it did on the earlier value, and gives a mix of its result
there and the final value. -/
theorem setLeaf_step (env : Env) (tc : GoType) (f : StructField) (t : List GoString)
    (v : GoString) (ft : GoType) (x y w x' : Value) (addr ro : Bool) (hM : Mix ft x y w)
    (hE : Ext ft x' y) (h : setLeaf env tc f t v ⟨ft, x, addr, ro⟩ = .ok x') :
    ∃ w', setLeaf env tc f t v ⟨ft, w, addr, ro⟩ = .ok w' ∧ Mix ft x' y w' := by
  by_cases hk : ft.Kind = .Slice
  · cases hE with
    | struct c fields ss rs hfl hlen hc => simp [GoType.Kind] at hk
    | other _ _ _ h1 h2 => exact absurd hk h2
    | slice e _ _ hsl =>
      have h0 := h
      rw [setLeaf_slice] at h
      obtain ⟨a', ha, rfl⟩ := Outcome.map_eq_ok h
      obtain ⟨ly, rfl, hly⟩ := hsl a' rfl
      have hla := setElems_length env e t 0 _ a' ha
      cases hM with
      | left => exact ⟨_, h0, Mix.left _ _ _⟩
      | right _ _ _ hns =>
        obtain ⟨b', hb, hj⟩ := setElems_parallel env e t 0 _ ly a' (by rw [← hla, hly]) ha
        have hlb := setElems_length env e t 0 _ b' hb
        refine ⟨.slice (some b'), by rw [setLeaf_slice]; simp only [hb]; rfl, ?_⟩
        refine Mix.slice e a' ly b' hly.symm (by rw [hlb, hly]) (fun j x0 y0 w0 hx hy hw => ?_)
        rcases hj j with h1 | ⟨_, h2⟩
        · left
          rw [hx, hw] at h1
          cases h1; rfl
        · right
          rw [hw, hy] at h2
          cases h2; rfl
      | slice _ ls _ lu hl1 hl2 hmix =>
        simp only at ha hla
        obtain ⟨b', hb, hj⟩ := setElems_parallel env e t 0 ls lu a' hl2 ha
        have hlb := setElems_length env e t 0 _ b' hb
        refine ⟨.slice (some b'), by rw [setLeaf_slice]; simp only [hb]; rfl, ?_⟩
        refine Mix.slice e a' ly b' hly.symm (by rw [hlb, ← hl2, hla])
          (fun j x0 y0 w0 hx hy hw => ?_)
        rcases hj j with h1 | ⟨h1, h2⟩
        · left
          rw [hx, hw] at h1
          cases h1; rfl
        · rw [hx] at h1
          rw [hw] at h2
          rcases hmix j x0 y0 w0 h1.symm hy h2.symm with h3 | h3
          · exact Or.inl h3
          · exact Or.inr h3
  · rcases setLeaf_const_or_id env tc f t v ft addr ro hk with hid | ⟨o, ho⟩
    · rw [hid x] at h
      cases h
      exact ⟨w, hid w, hM⟩
    · refine ⟨x', by rw [ho w, ← ho x, h], Mix.left _ _ _⟩


theorem fieldByName_of_struct (c : Bool) (fields : List (StructField × GoType))
    (vals : List Value) (addr ro : Bool) (name : GoString) (i : Nat)
    (f : StructField × GoType) (x : Value) (hi : fieldIndex fields name = some i)
    (hf : fields[i]? = some f) (hx : vals[i]? = some x) :
    RValue.FieldByName ⟨.struct c fields, .struct vals, addr, ro⟩ name =
      some (i, ⟨f.2, x, addr, ro || !isExported f.1.Name⟩) := by
  simp [RValue.FieldByName, hi, hf, hx]

theorem fieldByName_of_not_struct (typ : GoType) (val : Value) (addr ro : Bool)
    (name : GoString) (h : ∀ c fs, typ ≠ .struct c fs) :
    RValue.FieldByName ⟨typ, val, addr, ro⟩ name = none := by
  cases hf : RValue.FieldByName ⟨typ, val, addr, ro⟩ name with
  | none => rfl
  | some p =>
    obtain ⟨i, child⟩ := p
    obtain ⟨conv, fields, _, _, _, ht, _⟩ := fieldByName_shape hf
    exact absurd ht (h conv fields)

/-- What follows the first segment keeps the shape of the field, when the
remaining segments do. -/
theorem fieldOp_ext (env : Env) (tc : GoType) (t : List GoString) (v : GoString)
    (rest : List GoString)
    (IH : ∀ (typ : GoType) (s s' : Value) (addr ro : Bool), Ext typ s s →
      walk env tc t v rest ⟨typ, s, addr, ro⟩ typ = .ok s' → Ext typ s s')
    (f : StructField) (ft : GoType) (x c' : Value) (addr ro : Bool) (hW : Ext ft x x)
    (h : fieldOp env tc t v rest f ⟨ft, x, addr, ro⟩ = .ok c') : Ext ft x c' := by
  cases rest with
  | nil =>
    simp only [fieldOp] at h
    split at h
    · cases h; exact hW
    · split at h
      · cases h; exact hW
      · exact setLeaf_ext env tc f t v ft x c' addr ro hW h
  | cons b rest =>
    simp only [fieldOp] at h
    split at h
    · split at h
      · cases h
      · cases h; exact hW
    · split at h
      · exact IH ft x c' addr ro hW h
      · cases h

/-- Binding one path keeps the shape of the value: the struct fields stay and
no slice changes its length. -/
theorem walk_ext (env : Env) (tc : GoType) (t : List GoString) (v : GoString) :
    ∀ (names : List GoString) (typ : GoType) (s s' : Value) (addr ro : Bool), Ext typ s s →
      walk env tc t v names ⟨typ, s, addr, ro⟩ typ = .ok s' → Ext typ s s'
  | [], typ, s, s', addr, ro, hW, h => by
    simp only [walk] at h
    cases h; exact hW
  | a :: rest, typ, s, s', addr, ro, hW, h => by
    have hc := walk_cons_eq env tc t v a rest ⟨typ, s, addr, ro⟩
    simp only at hc
    rw [hc] at h
    cases hf : RValue.FieldByName ⟨typ, s, addr, ro⟩ (Title a) with
    | none =>
      rw [hf] at h
      cases h; exact hW
    | some p =>
      obtain ⟨i, child⟩ := p
      rw [hf] at h
      obtain ⟨conv, fields, vals, f, x, ht, hv, _, hfi, hvi, hch⟩ := fieldByName_shape hf
      simp only at ht hv hch
      subst ht hv hch
      obtain ⟨c', hop, rfl⟩ := Outcome.map_eq_ok h
      cases hW with
      | other _ _ _ h1 _ => exact absurd rfl (h1 conv fields)
      | struct _ _ _ _ hfl hlen hcomp =>
        have hx := hcomp i f x x hfi hvi hvi
        have hx' := fieldOp_ext env tc t v rest (walk_ext env tc t v rest) _ f.2 x c' _ _ hx hop
        have hil : i < vals.length := by
          rcases Nat.lt_or_ge i vals.length with hlt | hge
          · exact hlt
          · rw [List.getElem?_eq_none hge] at hvi; cases hvi
        refine Ext.struct conv fields vals (vals.set i c') hfl (by simp) ?_
        intro j g p q hg hp hq
        by_cases hij : i = j
        · subst hij
          rw [hfi] at hg
          rw [hvi] at hp
          rw [List.getElem?_set_self hil] at hq
          cases hg; cases hp; cases hq
          exact hx'
        · rw [List.getElem?_set_ne hij] at hq
          exact hcomp j g p q hg hp hq

/-- What follows the first segment, on a mix of an earlier and the final value
of the field. -/
theorem fieldOp_step (env : Env) (tc : GoType) (t : List GoString) (v : GoString)
    (rest : List GoString)
    (IH : ∀ (typ : GoType) (s r u s' : Value) (addr ro : Bool), Mix typ s r u → Ext typ s' r →
      walk env tc t v rest ⟨typ, s, addr, ro⟩ typ = .ok s' →
      ∃ u', walk env tc t v rest ⟨typ, u, addr, ro⟩ typ = .ok u' ∧ Mix typ s' r u')
    (f : StructField) (ft : GoType) (x y w x' : Value) (addr ro : Bool) (hM : Mix ft x y w)
    (hE : Ext ft x' y) (h : fieldOp env tc t v rest f ⟨ft, x, addr, ro⟩ = .ok x') :
    ∃ w', fieldOp env tc t v rest f ⟨ft, w, addr, ro⟩ = .ok w' ∧ Mix ft x' y w' := by
  cases rest with
  | nil =>
    simp only [fieldOp, RValue.CanSet] at h ⊢
    by_cases h1 : (!(addr && !ro)) = true
    · rw [if_pos h1] at h ⊢
      cases h; exact ⟨w, rfl, hM⟩
    · rw [if_neg h1] at h ⊢
      by_cases h2 : env.tagValue tc f formOptions = optOutMark
      · rw [if_pos h2] at h ⊢
        cases h; exact ⟨w, rfl, hM⟩
      · rw [if_neg h2] at h ⊢
        exact setLeaf_step env tc f t v ft x y w x' addr ro hM hE h
  | cons b rest =>
    simp only [fieldOp, RValue.CanSet, RValue.Kind] at h ⊢
    by_cases h1 : (!(addr && !ro)) = true
    · rw [if_pos h1] at h ⊢
      by_cases h2 : ro = true
      · rw [if_pos h2] at h
        cases h
      · rw [if_neg h2] at h ⊢
        cases h; exact ⟨w, rfl, hM⟩
    · rw [if_neg h1] at h ⊢
      by_cases h2 : ft.Kind = Kind.Struct
      · rw [if_pos h2] at h ⊢
        exact IH ft x y w x' addr ro hM hE h
      · rw [if_neg h2] at h
        cases h

/-- Binding one path on a mix of an earlier and the final value succeeds where
it did on the earlier value, and gives a mix of its result there and the final
value. -/
theorem walk_step (env : Env) (tc : GoType) (t : List GoString) (v : GoString) :
    ∀ (names : List GoString) (typ : GoType) (s r u s' : Value) (addr ro : Bool),
      Mix typ s r u → Ext typ s' r →
      walk env tc t v names ⟨typ, s, addr, ro⟩ typ = .ok s' →
      ∃ u', walk env tc t v names ⟨typ, u, addr, ro⟩ typ = .ok u' ∧ Mix typ s' r u'
  | [], typ, s, r, u, s', addr, ro, hM, hE, h => by
    simp only [walk] at h ⊢
    cases h; exact ⟨u, rfl, hM⟩
  | a :: rest, typ, s, r, u, s', addr, ro, hM, hE, h => by
    have hcs := walk_cons_eq env tc t v a rest ⟨typ, s, addr, ro⟩
    have hcu := walk_cons_eq env tc t v a rest ⟨typ, u, addr, ro⟩
    simp only at hcs hcu
    rw [hcs] at h
    rw [hcu]
    have hM' := hM
    cases hM with
    | left => exact ⟨s', h, Mix.left _ _ _⟩
    | right _ _ _ hns =>
      rw [fieldByName_of_not_struct typ s addr ro _ hns] at h
      rw [fieldByName_of_not_struct typ r addr ro _ hns]
      cases h; exact ⟨r, rfl, hM'⟩
    | slice e ls lr lu hl1 hl2 hmix =>
      have hns : ∀ c fs, GoType.slice e ≠ .struct c fs := by intro c fs hh; cases hh
      rw [fieldByName_of_not_struct _ _ addr ro _ hns] at h
      rw [fieldByName_of_not_struct _ _ addr ro _ hns]
      cases h; exact ⟨_, rfl, hM'⟩
    | struct c fields ss rs us hfl hl1 hl2 hcomp =>
      cases hf : RValue.FieldByName ⟨.struct c fields, .struct ss, addr, ro⟩ (Title a) with
      | none =>
        rw [hf] at h
        cases h
        have hfu : RValue.FieldByName ⟨.struct c fields, .struct us, addr, ro⟩ (Title a)
            = none := by
          simp only [RValue.FieldByName] at hf ⊢
          cases hidx : fieldIndex fields (Title a) with
          | none => rfl
          | some i =>
            rw [hidx] at hf
            simp only at hf ⊢
            cases hfi : fields[i]? with
            | none => rfl
            | some g =>
              have hil : i < fields.length := by
                rcases Nat.lt_or_ge i fields.length with hlt | hge
                · exact hlt
                · rw [List.getElem?_eq_none hge] at hfi; cases hfi
              rw [hfi, List.getElem?_eq_getElem (hfl ▸ hil)] at hf
              simp at hf
        rw [hfu]
        exact ⟨_, rfl, hM'⟩
      | some p =>
        obtain ⟨i, child⟩ := p
        rw [hf] at h
        obtain ⟨conv, fields', vals, f, x, ht, hv, hidx, hfi, hvi, hch⟩ := fieldByName_shape hf
        simp only at ht hv hch
        cases ht; cases hv
        subst hch
        have hil : i < ss.length := by
          rcases Nat.lt_or_ge i ss.length with hlt | hge
          · exact hlt
          · rw [List.getElem?_eq_none hge] at hvi; cases hvi
        have hyi : rs[i]? = some (rs[i]) := List.getElem?_eq_getElem (hl1 ▸ hil)
        have hwi : us[i]? = some (us[i]) := List.getElem?_eq_getElem (hl2 ▸ hil)
        rw [fieldByName_of_struct c fields us addr ro (Title a) i f _ hidx hfi hwi]
        obtain ⟨x', hop, rfl⟩ := Outcome.map_eq_ok h
        simp only [Value.setField] at hE ⊢
        cases hE with
        | other _ _ _ hns _ => exact absurd rfl (hns c fields)
        | struct _ _ _ _ hfl2 hlen2 hcomp2 =>
          have hEx : Ext f.2 x' rs[i] :=
            hcomp2 i f x' _ hfi (List.getElem?_set_self hil) hyi
          have hMx : Mix f.2 x rs[i] us[i] := hcomp i f x _ _ hfi hvi hyi hwi
          obtain ⟨w', hw', hMw⟩ := fieldOp_step env tc t v rest (walk_step env tc t v rest)
            _ f.2 x _ _ x' _ _ hMx hEx hop
          refine ⟨.struct (us.set i w'), by rw [hw']; rfl, ?_⟩
          refine Mix.struct c fields (ss.set i x') rs (us.set i w') (by simpa using hfl)
            (by simpa using hl1) (by simpa using hl2) ?_
          intro j g p q z hg hp hq hz
          by_cases hij : i = j
          · subst hij
            rw [hfi] at hg
            rw [List.getElem?_set_self hil] at hp
            rw [hyi] at hq
            rw [List.getElem?_set_self (hl2 ▸ hil)] at hz
            cases hg; cases hp; cases hq; cases hz
            exact hMw
          · rw [List.getElem?_set_ne hij] at hp hz
            exact hcomp j g p q z hg hp hq hz


theorem Outcome.bind_eq_ok {α β : Type} {g : α → Outcome β} {o : Outcome α} {y : β}
    (h : o.bind g = .ok y) : ∃ x, o = .ok x ∧ g x = .ok y := by
  cases o with
  | panic => cases h
  | ok x => exact ⟨x, rfl, h⟩

/-- One key keeps the shape of the target. -/
theorem bindKey_ext (env : Env) (ty : GoType) (topName k : GoString) (t : List GoString)
    (s x : Value) (addr ro : Bool) (hW : Ext ty s s)
    (h : bindKey env ty ⟨ty, s, addr, ro⟩ topName k t = .ok x) : Ext ty s x := by
  rcases bindKey_cases env ty topName k t with hid | hp | ⟨names, v, _, hw⟩
  · rw [hid] at h
    cases h; exact hW
  · rw [hp] at h
    cases h
  · rw [hw] at h
    exact walk_ext env ty t v names ty s x addr ro hW h

/-- The whole loop keeps the shape of the target. -/
theorem bindAll_ext (env : Env) (ty : GoType) (topName : GoString) (addr ro : Bool) :
    ∀ (d : List (GoString × List GoString)) (s r : Value), Ext ty s s →
      bindAll env ty topName d ⟨ty, s, addr, ro⟩ = .ok r → Ext ty s r
  | [], s, r, hW, h => by
    simp only [bindAll] at h
    cases h; exact hW
  | (k, t) :: rest, s, r, hW, h => by
    simp only [bindAll] at h
    obtain ⟨x, hk, hr⟩ := Outcome.bind_eq_ok h
    have hx := bindKey_ext env ty topName k t s x addr ro hW hk
    exact hx.trans (bindAll_ext env ty topName addr ro rest x r hx.refl_right hr)

/-- The loop, run on a mix of an earlier value of the target and the value it
ends with, ends with that value again. -/
theorem bindAll_step (env : Env) (ty : GoType) (topName : GoString) (addr ro : Bool) :
    ∀ (d : List (GoString × List GoString)) (s r u : Value), Ext ty s s → Mix ty s r u →
      bindAll env ty topName d ⟨ty, s, addr, ro⟩ = .ok r →
      bindAll env ty topName d ⟨ty, u, addr, ro⟩ = .ok r
  | [], s, r, u, _, hM, h => by
    simp only [bindAll] at h ⊢
    cases h
    rw [mix_same hM rfl]
  | (k, t) :: rest, s, r, u, hW, hM, h => by
    simp only [bindAll] at h ⊢
    obtain ⟨x, hk, hr⟩ := Outcome.bind_eq_ok h
    have hx := bindKey_ext env ty topName k t s x addr ro hW hk
    have hxr := bindAll_ext env ty topName addr ro rest x r hx.refl_right hr
    rcases bindKey_cases env ty topName k t with hid | hp | ⟨names, v, _, hw⟩
    · rw [hid] at hk ⊢
      cases hk
      exact bindAll_step env ty topName addr ro rest s r u hW hM hr
    · rw [hp] at hk
      cases hk
    · rw [hw] at hk ⊢
      obtain ⟨u', hu, hM'⟩ := walk_step env ty t v names ty s r u x addr ro hM hxr hk
      rw [hu]
      exact bindAll_step env ty topName addr ro rest x r u' hx.refl_right hM' hr

theorem bindAll_twice (env : Env) (ty : GoType) (topName : GoString) (addr ro : Bool)
    (d : List (GoString × List GoString)) (r : Value) (hp : ty.proper = true)
    (h : bindAll env ty topName d ⟨ty, zero ty, addr, ro⟩ = .ok r) :
    bindAll env ty topName d ⟨ty, r, addr, ro⟩ = .ok r := by
  have hz := ext_zero ty hp
  exact bindAll_step env ty topName addr ro d (zero ty) r r hz
    (mix_of_ext (bindAll_ext env ty topName addr ro d _ r hz h)) h

theorem namedStructMap_of_not_ptr (env : Env) (tc : GoType) (m : Value)
    (d : List (GoString × List GoString)) (topName : GoString) (h : tc.Kind ≠ .Ptr) :
    NamedStructMap env tc m d topName = bindAll env tc topName d ⟨tc, m, false, false⟩ := by
  simp only [NamedStructMap]

/-- C15: binding the same field map (its keys visited in the same order) a
second time changes nothing.  When `NamedStructMap` with the field map `d`
returns on a freshly zeroed target of a Go type `tc` (for a pointer type, a
pointer to a zero value), leaving the target `r`, then `NamedStructMap` with
`d` on `r` returns and leaves `r`. -/
theorem C15_second_binding_changes_nothing (env : Env) (tc : GoType)
    (d : List (GoString × List GoString)) (topName : GoString) (r : Value)
    (hp : tc.proper = true)
    (h : NamedStructMap env tc (zeroTarget tc) d topName = .ok r) :
    NamedStructMap env tc r d topName = .ok r := by
  cases tc with
  | ptr ty =>
    simp only [zeroTarget] at h
    rw [namedStructMap_ptr] at h
    obtain ⟨r0, h0, rfl⟩ := Outcome.map_eq_ok h
    rw [namedStructMap_ptr, bindAll_twice env ty topName true false d r0
      (by simpa [GoType.proper] using hp) h0]
    rfl
  | basic k c =>
    have hk : (GoType.basic k c).Kind ≠ .Ptr := by
      simp only [GoType.proper, Bool.and_eq_true, bne_iff_ne, ne_eq] at hp
      simpa [GoType.Kind] using hp.1.1.2
    rw [namedStructMap_of_not_ptr _ _ _ _ _ hk] at h ⊢
    exact bindAll_twice env _ topName false false d r hp h
  | time =>
    have hk : GoType.time.Kind ≠ .Ptr := by simp [GoType.Kind]
    rw [namedStructMap_of_not_ptr _ _ _ _ _ hk] at h ⊢
    exact bindAll_twice env _ topName false false d r hp h
  | struct c fs =>
    have hk : (GoType.struct c fs).Kind ≠ .Ptr := by simp [GoType.Kind]
    rw [namedStructMap_of_not_ptr _ _ _ _ _ hk] at h ⊢
    exact bindAll_twice env _ topName false false d r hp h
  | slice e =>
    have hk : (GoType.slice e).Kind ≠ .Ptr := by simp [GoType.Kind]
    rw [namedStructMap_of_not_ptr _ _ _ _ _ hk] at h ⊢
    exact bindAll_twice env _ topName false false d r hp h
  | array n e =>
    have hk : (GoType.array n e).Kind ≠ .Ptr := by simp [GoType.Kind]
    rw [namedStructMap_of_not_ptr _ _ _ _ _ hk] at h ⊢
    exact bindAll_twice env _ topName false false d r hp h

/-- C15, at a `User`: the keys `name`, `tags` (whose second value does not
convert) and `profile` leave the same target when bound a second time. -/
theorem C15_second_binding_changes_nothing_witness :
    (GoType.ptr userType).proper = true ∧
    NamedStructMap plainEnv (.ptr userType) (zeroTarget (.ptr userType))
        [("name".toList, ["bob".toList]), ("tags".toList, ["7".toList, "x".toList, "9".toList]),
         ("score".toList, ["5".toList])] [] =
      .ok (.ptr (some (.struct [.str "bob".toList, .int 0, .int 0, .uint 0,
        .slice (some [.int 7, .int 0, .int 0]), .ptr none,
        .struct [.str [], .str []], .ptr (some (.int 5)), .str [],
        .struct [.str [], .str []]]))) ∧
    NamedStructMap plainEnv (.ptr userType)
        (.ptr (some (.struct [.str "bob".toList, .int 0, .int 0, .uint 0,
          .slice (some [.int 7, .int 0, .int 0]), .ptr none,
          .struct [.str [], .str []], .ptr (some (.int 5)), .str [],
          .struct [.str [], .str []]])))
        [("name".toList, ["bob".toList]), ("tags".toList, ["7".toList, "x".toList, "9".toList]),
         ("score".toList, ["5".toList])] [] =
      .ok (.ptr (some (.struct [.str "bob".toList, .int 0, .int 0, .uint 0,
        .slice (some [.int 7, .int 0, .int 0]), .ptr none,
        .struct [.str [], .str []], .ptr (some (.int 5)), .str [],
        .struct [.str [], .str []]]))) :=
  ⟨rfl, rfl, C15_second_binding_changes_nothing plainEnv (.ptr userType) _ [] _ rfl rfl⟩


/-! ### C21: the segments of a bracket key -/

theorem flushLast_of_ne (s : GoString) (i : Nat) (st : SplitState) (h : i ≠ s.length - 1) :
    flushLast s i st = st := by
  unfold flushLast
  rw [if_neg (fun hc => h hc.1)]

theorem flushLast_of_eq (s : GoString) (i : Nat) (st : SplitState)
    (h : st.begin_ = st.end_) : flushLast s i st = st := by
  unfold flushLast
  rw [if_neg (fun hc => hc.2 h)]

/-- Reading the text `x]` of a bracketed segment whose `[` has just been
read: `x` is appended to the result. -/
theorem splitLoop_segment_body (s pre x post : GoString) (res : List GoString)
    (hs : s = pre ++ ('[' :: x ++ ']' :: post)) (hx2 : 2 ≤ x.length)
    (hx : ∀ c ∈ x, c ≠ '[' ∧ c ≠ ']') :
    splitLoop s (x ++ ']' :: post) (pre.length + 1) ⟨res, pre.length + 1, pre.length + 1, true⟩ =
      splitLoop s post (pre.length + x.length + 2)
        ⟨res ++ [x], pre.length + x.length + 2, pre.length + x.length + 2, false⟩ := by
  have hxne : x ≠ [] := by intro h; simp [h] at hx2
  have hs2 : s = (pre ++ ['[']) ++ x ++ (']' :: post) := by rw [hs]; simp
  have hr := splitLoop_run s x (pre ++ ['[']) (']' :: post)
    ⟨res, pre.length + 1, pre.length + 1, true⟩ hs2 (by simp) hx
  simp only [List.length_append, List.length_singleton, if_neg hxne] at hr
  rw [hr]
  simp only [splitLoop]
  rw [splitStep_close_eq]
  have hbe : pre.length + 1 ≠ pre.length + 1 + x.length - 1 := by omega
  have hsub : substr s (pre.length + 1) (pre.length + 1 + x.length - 1 + 1) = x := by
    have h := substr_middle (pre ++ ['[']) x (']' :: post)
    rw [← hs2] at h
    simp only [List.length_append, List.length_singleton] at h
    have he : pre.length + 1 + x.length - 1 + 1 = pre.length + 1 + x.length := by omega
    rw [he]
    exact h
  simp only [Bool.true_eq_false, if_false, if_pos hbe, hsub]
  rw [flushLast_of_eq _ _ _ rfl]
  have he : pre.length + 1 + x.length + 1 = pre.length + x.length + 2 := by omega
  simp only [he]

/-- Reading one bracketed segment `[x]`: a segment pending before the `[` is
appended when the character before the `[` is not a `]`, then `x` is. -/
theorem splitLoop_segment (s pre x post : GoString) (st : SplitState)
    (hs : s = pre ++ ('[' :: x ++ ']' :: post)) (hx2 : 2 ≤ x.length)
    (hx : ∀ c ∈ x, c ≠ '[' ∧ c ≠ ']')
    (hopen : ¬ (pre.length > 0 ∧ s[pre.length - 1]? ≠ some ']') ∨ st.begin_ ≠ st.end_) :
    splitLoop s ('[' :: x ++ ']' :: post) pre.length st =
      splitLoop s post (pre.length + x.length + 2)
        ⟨(if pre.length > 0 ∧ s[pre.length - 1]? ≠ some ']' then
            st.res ++ [substr s st.begin_ (st.end_ + 1)] else st.res) ++ [x],
          pre.length + x.length + 2, pre.length + x.length + 2, false⟩ := by
  have hlen : s.length = pre.length + x.length + 2 + post.length := by
    rw [hs]; simp; omega
  have hne : pre.length ≠ s.length - 1 := by omega
  simp only [List.cons_append, splitLoop]
  rw [splitStep_open_eq]
  by_cases hc : pre.length > 0 ∧ s[pre.length - 1]? ≠ some ']'
  · have hb : ¬ st.begin_ = st.end_ := hopen.resolve_left (not_not.2 hc)
    rw [if_pos hc, if_neg hb, if_pos hc, flushLast_of_ne _ _ _ hne]
    exact splitLoop_segment_body s pre x post _ hs hx2 hx
  · rw [if_neg hc, if_neg hc, flushLast_of_ne _ _ _ hne]
    exact splitLoop_segment_body s pre x post _ hs hx2 hx

/-- Reading the bracketed segments that follow a `]` (or start the key):
each is appended to the result. -/
theorem splitLoop_bracketed (s : GoString) :
    ∀ (segs : List GoString) (pre : GoString) (st : SplitState), s = pre ++ bracketed segs →
      (∀ x ∈ segs, 2 ≤ x.length ∧ ∀ c ∈ x, c ≠ '[' ∧ c ≠ ']') →
      (0 < pre.length → s[pre.length - 1]? = some ']') →
      splitLoop s (bracketed segs) pre.length st = some (st.res ++ segs) := by
  intro segs
  induction segs with
  | nil =>
    intro pre st _ _ _
    simp [bracketed, splitLoop]
  | cons x rest ih =>
    intro pre st hs hseg hprev
    have hx := hseg x (List.mem_cons_self _ _)
    have hnc : ¬ (pre.length > 0 ∧ s[pre.length - 1]? ≠ some ']') := fun hc => hc.2 (hprev hc.1)
    simp only [bracketed] at hs ⊢
    rw [splitLoop_segment s pre x (bracketed rest) st hs hx.1 hx.2 (Or.inl hnc), if_neg hnc]
    have hs2 : s = (pre ++ '[' :: x ++ [']']) ++ bracketed rest := by rw [hs]; simp
    have hl : (pre ++ '[' :: x ++ [']']).length = pre.length + x.length + 2 := by
      simp; omega
    have hlast : s[(pre ++ '[' :: x ++ [']']).length - 1]? = some ']' := by
      have h := @getElem?_append_at (pre ++ '[' :: x) (bracketed rest) ']'
      have he : (pre ++ '[' :: x ++ [']']).length - 1 = (pre ++ '[' :: x).length := by
        simp
      rw [he, hs]
      simpa using h
    have h := ih (pre ++ '[' :: x ++ [']'])
      ⟨st.res ++ [x], pre.length + x.length + 2, pre.length + x.length + 2, false⟩ hs2
      (fun y hy => hseg y (List.mem_cons_of_mem _ hy)) (fun _ => hlast)
    rw [hl] at h
    rw [h]
    simp

/-- C21: for every non-empty list of segments `s0..sk`, each of at least two
characters and without `[` and `]`, `SplitJson` on the key `s0[s1]...[sk]`
returns a nil error and exactly the segments `s0, ..., sk`. -/
theorem C21_bracket_key_segments (s0 : GoString) (segs : List GoString)
    (h : ∀ x ∈ s0 :: segs, 2 ≤ x.length ∧ ∀ c ∈ x, c ≠ '[' ∧ c ≠ ']') :
    SplitJson (bracketKey s0 segs) = some (s0 :: segs) := by
  have h0 := h s0 (List.mem_cons_self _ _)
  have hne : s0 ≠ [] := by intro hn; simp [hn] at h0
  unfold SplitJson bracketKey
  cases segs with
  | nil =>
    simp only [bracketed, List.append_nil]
    have hr := splitLoop_run_end s0 s0 [] ⟨[], 0, 0, false⟩ rfl hne h0.2
    simp only [List.length_nil] at hr
    rw [hr, if_pos (by omega)]
    simp [substr]
  | cons x rest =>
    have hx := h x (List.mem_cons_of_mem _ (List.mem_cons_self _ _))
    simp only [bracketed]
    have h1 := splitLoop_run (s0 ++ ('[' :: x ++ ']' :: bracketed rest)) s0 []
      ('[' :: x ++ ']' :: bracketed rest) ⟨[], 0, 0, false⟩ (by simp) (by simp) h0.2
    simp only [List.length_nil, Nat.zero_add, hne, if_false] at h1
    rw [h1]
    have hlast : (s0 ++ ('[' :: x ++ ']' :: bracketed rest))[s0.length - 1]? ≠ some ']' := by
      rw [List.getElem?_append_left (by omega)]
      intro hc
      exact (h0.2 _ (List.getElem?_mem hc)).2 rfl
    have hc : s0.length > 0 ∧
        (s0 ++ ('[' :: x ++ ']' :: bracketed rest))[s0.length - 1]? ≠ some ']' :=
      ⟨by omega, hlast⟩
    rw [splitLoop_segment _ s0 x (bracketed rest) _ rfl hx.1 hx.2
      (Or.inr (by show 0 ≠ s0.length - 1; omega)), if_pos hc]
    have hsub : substr (s0 ++ ('[' :: x ++ ']' :: bracketed rest)) 0 (s0.length - 1 + 1) = s0 := by
      have he : s0.length - 1 + 1 = s0.length := by omega
      rw [he]
      have := substr_middle [] s0 ('[' :: x ++ ']' :: bracketed rest)
      simpa using this
    simp only [hsub]
    have hl : (s0 ++ '[' :: x ++ [']']).length = s0.length + x.length + 2 := by
      simp; omega
    have hb := splitLoop_bracketed (s0 ++ ('[' :: x ++ ']' :: bracketed rest)) rest
      (s0 ++ '[' :: x ++ [']'])
      ⟨[] ++ [s0] ++ [x], s0.length + x.length + 2, s0.length + x.length + 2, false⟩
      (by simp) (fun y hy => h y (List.mem_cons_of_mem _ (List.mem_cons_of_mem _ hy)))
      (fun _ => by
        have hg := @getElem?_append_at (s0 ++ '[' :: x) (bracketed rest) ']'
        have he : (s0 ++ '[' :: x ++ [']']).length - 1 = (s0 ++ '[' :: x).length := by simp
        rw [he]
        simpa using hg)
    rw [hl] at hb
    rw [hb]
    simp

/-- C21, at the key `user[name][test]`. -/
theorem C21_bracket_key_segments_witness :
    bracketKey "user".toList ["name".toList, "test".toList] = "user[name][test]".toList ∧
    SplitJson (bracketKey "user".toList ["name".toList, "test".toList]) =
      some ["user".toList, "name".toList, "test".toList] :=
  ⟨by decide, C21_bracket_key_segments "user".toList ["name".toList, "test".toList]
    (by decide)⟩


/-! ### C23: brackets in the segments of SplitJson -/

/-- C23 (code at the failing input): on the key `ab[]cd` `SplitJson` returns
a nil error and the segments `ab` and `]cd`; the second contains a `]`.  After
the empty brackets `begin` still points at the `]`. -/
theorem C23_segment_with_bracket :
    SplitJson "ab[]cd".toList = some ["ab".toList, "]cd".toList] ∧ ']' ∈ "]cd".toList := by
  decide

/-! ### C22: the index of a KVData and its slice -/

theorem addItem_index (a : KVData) (item : KV) (k : GoString) :
    (a.AddItem item).Index k =
      if item.K = k then a.Index k ++ [a.slice.length] else a.Index k := by
  simp only [KVData.AddItem, KVData.Index]
  cases hg : indexGet a.index item.K with
  | none =>
    simp only [indexGet_indexSet, if_true]
    by_cases hk : item.K = k
    · subst hk
      simp [hg]
    · simp [hk]
  | some v =>
    simp only [indexGet_indexSet, hg]
    by_cases hk : item.K = k
    · subst hk
      simp [hg]
    · simp [hk]

theorem addItem_agrees (a : KVData) (item : KV) (h : ∀ k, IndexAgrees a k) (k : GoString) :
    IndexAgrees (a.AddItem item) k := by
  intro p hp
  rw [addItem_index] at hp
  have hs : (a.AddItem item).Slice = a.slice ++ [item] := rfl
  rw [hs]
  have hold : p ∈ a.Index k → ∃ it, (a.slice ++ [item])[p]? = some it ∧ it.K = k := by
    intro hpk
    obtain ⟨it, hit, hk⟩ := h k p hpk
    have hlt : p < a.slice.length := by
      rcases Nat.lt_or_ge p a.slice.length with hlt | hge
      · exact hlt
      · have hn : a.Slice[p]? = none := List.getElem?_eq_none hge
        rw [hn] at hit
        cases hit
    exact ⟨it, by rw [List.getElem?_append_left hlt]; exact hit, hk⟩
  by_cases hk : item.K = k
  · rw [if_pos hk, List.mem_append, List.mem_singleton] at hp
    rcases hp with hp | hp
    · exact hold hp
    · subst hp
      exact ⟨item, by rw [List.getElem?_append_right (le_refl _)]; simp, hk⟩
  · rw [if_neg hk] at hp
    exact hold hp

theorem deleteLoop_agrees (indexes : List Nat) :
    ∀ (l : List KV) (i : Nat) (acc : KVData), (∀ k, IndexAgrees acc k) →
      ∀ k, IndexAgrees (deleteLoop indexes l i acc) k
  | [], _, acc, h => by simpa [deleteLoop] using h
  | v :: rest, i, acc, h => by
    by_cases hi : i ∈ indexes
    · simp only [deleteLoop, if_pos hi]
      exact deleteLoop_agrees indexes rest (i + 1) acc h
    · simp only [deleteLoop, if_neg hi]
      exact deleteLoop_agrees indexes rest (i + 1) (acc.AddItem v)
        (addItem_agrees acc v h)

theorem indexAgrees_new (k : GoString) : IndexAgrees ⟨[], []⟩ k := by
  intro p hp
  simp [KVData.Index, indexGet] at hp

/-- The calls other than `Set` and `SetItem` keep the index in agreement with
the slice. -/
theorem call_agrees (a : KVData) (c : KVCall) (hc : c.isSet = false)
    (h : ∀ k, IndexAgrees a k) : ∀ k, IndexAgrees (a.call c) k := by
  cases c with
  | add k v => exact addItem_agrees a (KV.of k v) h
  | addItem item => exact addItem_agrees a item h
  | set k v => cases hc
  | setItem item => cases hc
  | delete ks => exact deleteLoop_agrees _ a.slice 0 ⟨[], []⟩ indexAgrees_new
  | reset => exact indexAgrees_new

/-- Every `KVData` reached from `NewKVData` without `Set` and `SetItem` has
its index in agreement with its slice. -/
theorem callAll_agrees_without_set (cs : List KVCall) (hcs : ∀ c ∈ cs, c.isSet = false)
    (k : GoString) : IndexAgrees (callAll cs) k := by
  have hgen : ∀ (cs : List KVCall) (a : KVData), (∀ c ∈ cs, c.isSet = false) →
      (∀ k, IndexAgrees a k) → ∀ k, IndexAgrees (cs.foldl KVData.call a) k := by
    intro cs
    induction cs with
    | nil => intro a _ h; exact h
    | cons c rest ih =>
      intro a hc h
      exact ih (a.call c) (fun c1 h1 => hc c1 (List.mem_cons_of_mem _ h1))
        (call_agrees a c (hc c (List.mem_cons_self _ _)) h)
  exact hgen cs NewKVData hcs indexAgrees_new k

/-- C22 (code at the failing input): after `Add("a", "1")`, `Add("b", "2")`
and `Set("c", "3")` on a new `KVData` the slice holds the single pair of `c`,
while the index still has position 1 for `b` and position 0 for `a`.  The
index does not agree with the slice at `b` and at `a`: `Get("b")` indexes out
of range and `Get("a")` returns the value of `c`. -/
theorem C22_set_leaves_stale_index :
    addAddSet.Slice = [KV.of "c".toList "3".toList] ∧
      addAddSet.Index "b".toList = [1] ∧ addAddSet.Index "a".toList = [0] ∧
      ¬ IndexAgrees addAddSet "b".toList ∧ ¬ IndexAgrees addAddSet "a".toList ∧
      addAddSet.Get "b".toList = .panic ∧ addAddSet.Get "a".toList = .ok "3".toList := by
  refine ⟨by decide, by decide, by decide, ?_, ?_, rfl, rfl⟩
  · intro h
    obtain ⟨item, hi, _⟩ := h 1 (by decide)
    have h1 : addAddSet.Slice[1]? = none := by decide
    rw [h1] at hi
    cases hi
  · intro h
    obtain ⟨item, hi, hk⟩ := h 0 (by decide)
    have h0 : addAddSet.Slice[0]? = some (KV.of "c".toList "3".toList) := by decide
    rw [h0] at hi
    cases hi
    exact absurd hk (by decide)

/-! ### C24: the fields SetByMap leaves -/

/-- The fields `Data`, `Zone`, `Info` and `URL` whose key is absent from the
store, and the field `State`, are as before after `SetByMap`. -/
theorem setByMap_keeps_absent (d : RawData) (s : Store) :
    (s "Data".toList = none → (d.SetByMap s).Data = d.Data) ∧
      (s "Zone".toList = none → (d.SetByMap s).Zone = d.Zone) ∧
      (s "Info".toList = none → (d.SetByMap s).Info = d.Info) ∧
      (s "URL".toList = none → (d.SetByMap s).URL = d.URL) ∧
      (d.SetByMap s).State = d.State := by
  simp only [RawData.SetByMap]
  cases s "Data".toList <;> cases s "Zone".toList <;> cases s "Info".toList <;>
    cases s "URL".toList <;> simp

/-- C24 (code at the failing input): on a `RawData` with code 1 and a store
whose only key is `Info`, `SetByMap` sets `Code` to 0 although the key `Code`
is absent from the store. -/
theorem C24_absent_code_is_reset :
    storeOf [("Info", .str "saved".toList)] "Code".toList = none ∧
      newRawData.Code = 1 ∧
      (newRawData.SetByMap (storeOf [("Info", .str "saved".toList)])).Code = 0 ∧
      newRawData.SetByMap (storeOf [("Info", .str "saved".toList)]) =
        ⟨0, "Success".toList, .str "saved".toList, [], .nil, .nil⟩ := by
  decide

end Echo
